import Mathlib

/-!
# VGA on an 8-bit AVR: colour buffer, rectangle paint, animation interpreter, raster routine

A shallow embedding of `vga.c`.

Conventions of the embedding.

* The target is an AVR XMEGA: `int` and pointers are 16 bits wide, so `uint16_t`
  arithmetic is arithmetic modulo `65536` and `uint8_t` operands are promoted to a
  16-bit `int` before they are added.
* Memory is modelled from the first byte of `colorMap` onwards: `Mem` maps a byte offset
  from `colorMap` to the byte stored there.  Offsets `0 .. 3599` are the array itself,
  larger offsets are whatever follows it; other variables of the program are kept in
  separate fields, so aliasing of a stray write with them is outside the model.
* A loop of the program is a function recursing on a fuel argument; `none` means that the
  fuel ran out.  The fuel passed by the callers is at least the number of iterations of
  every terminating run, so `none` is returned exactly when the C loop does not terminate.
-/

namespace VGA

/-! ## Constants -/

/-- Port bit `BLUE0`. -/
def BLUE0 : Nat := 1 <<< 0
/-- Port bit `BLUE1`. -/
def BLUE1 : Nat := 1 <<< 1
/-- Port bit `GREEN0`. -/
def GREEN0 : Nat := 1 <<< 2
/-- Port bit `GREEN1`. -/
def GREEN1 : Nat := 1 <<< 3
/-- Port bit `RED0`. -/
def RED0 : Nat := 1 <<< 6
/-- Port bit `RED1`. -/
def RED1 : Nat := 1 <<< 7

/-- The mask `COLORS` of the six colour lines. -/
def COLORS : Nat := RED0 ||| RED1 ||| GREEN0 ||| GREEN1 ||| BLUE0 ||| BLUE1
/-- The colour `WHITE`. -/
def WHITE : Nat := RED0 ||| RED1 ||| GREEN0 ||| GREEN1 ||| BLUE0 ||| BLUE1
/-- The colour `BLACK`. -/
def BLACK : Nat := 0
/-- The colour `BROWN`, `0b01001010`. -/
def BROWN : Nat := 0b01001010
/-- The colour `PINK`, `0b11000101`. -/
def PINK : Nat := 0b11000101
/-- The colour `RED`. -/
def RED : Nat := RED0 ||| RED1

/-- The number of visible scanlines, `PIXELS_Y`. -/
def PIXELS_Y : Nat := 480
/-- The number of cells in a row, `COLORS_X`. -/
def COLORS_X : Nat := 60
/-- The number of rows, `COLORS_Y`. -/
def COLORS_Y : Nat := 60
/-- The number of cells, `COLORS_T`. -/
def COLORS_T : Nat := COLORS_X * COLORS_Y
/-- The number of scanlines per row of cells, `MULT_Y`. -/
def MULT_Y : Nat := PIXELS_Y / COLORS_Y

/-- The constant `colors` (`uint16_t`). -/
def colors : Nat := COLORS_T % 65536
/-- The constant `colorsX` (`uint8_t`). -/
def colorsX : Nat := COLORS_X % 256
/-- The constant `multY` (`uint8_t`). -/
def multY : Nat := MULT_Y % 256

/-! ## The colour buffer -/

/-- Byte memory from the first byte of `colorMap` onwards. -/
abbrev Mem := Nat → Nat

/-- The cell `(x, y)` of the buffer: `colorMap[x + y * colorsX]`, as `paint` addresses it. -/
def cell (m : Mem) (x y : Nat) : Nat := m (x + y * colorsX)

/-- The library routine `memset(dst, val, n)`: the `n` bytes from offset `dst` on are set to
`val` converted to `unsigned char`. -/
def memset (m : Mem) (dst val n : Nat) : Mem :=
  fun i => if dst ≤ i ∧ i < dst + n then val % 256 else m i

/-- The routine `paint`: `colorMap[x + y * colorsX] = COLORS & color`.  The index is computed in
16-bit unsigned arithmetic. -/
def paint (m : Mem) (x y color : Nat) : Mem :=
  fun i => if i = (x + y * colorsX) % 65536 then (COLORS &&& color) % 256 else m i

/-- The loop `while (y1 <= y2) memset(colorMap + x1 + y1++ * colorsX, COLORS & color, x)` of
`paintArea`; `y1` is a `uint16_t` and wraps at `65536`, and so does the product
`y1 * colorsX`. -/
def paintRows (x1 y2 color x : Nat) : Nat → Nat → Mem → Option Mem
  | 0, _, _ => none
  | fuel + 1, y1, m =>
    if y1 ≤ y2 then
      paintRows x1 y2 color x fuel ((y1 + 1) % 65536)
        (memset m (x1 + (y1 * colorsX) % 65536) (COLORS &&& color) x)
    else some m

/-- The routine `paintArea`, on `uint16_t` arguments: `x = x2 - x1 + 1` modulo `65536`, then the
row loop.  A terminating run tests `y1 <= y2` at most `65536` times. -/
def paintArea (m : Mem) (x1 y1 x2 y2 color : Nat) : Option Mem :=
  paintRows x1 y2 color ((x2 + 65536 - x1 + 1) % 65536) 65536 y1 m

/-! ## The animation script -/

/-- A record `struct Step`: a rectangle, a colour and a delay.  The five first fields are
`uint8_t`, `wait` is `uint16_t`. -/
structure Step where
  /-- Left column. -/
  x1 : Nat
  /-- Top row. -/
  y1 : Nat
  /-- Right column. -/
  x2 : Nat
  /-- Bottom row. -/
  y2 : Nat
  /-- Fill colour. -/
  color : Nat
  /-- Delay in ticks. -/
  wait : Nat
deriving DecidableEq, Repr

/-- The fields of a step fit their C types. -/
def Step.fits (s : Step) : Prop :=
  s.x1 < 256 ∧ s.y1 < 256 ∧ s.x2 < 256 ∧ s.y2 < 256 ∧ s.color < 256 ∧ s.wait < 65536

instance (s : Step) : Decidable s.fits := by unfold Step.fits; infer_instance

/-- The table `steps`: the Super Mario animation. -/
def steps : List Step := [
  (⟨16, 10, 40, 45, BLACK, 8⟩ : Step),
  -- Frame 1 of Super Mario animation
  -- HAT
  (⟨24, 12, 34, 15, RED, 0⟩ : Step),
  (⟨32, 12, 34, 14, BLACK, 0⟩ : Step),
  (⟨24, 12, 26, 12, BLACK, 0⟩ : Step),
  (⟨24, 13, 24, 13, BLACK, 0⟩ : Step),
  (⟨30, 14, 31, 14, PINK, 0⟩ : Step),
  (⟨31, 13, 31, 13, PINK, 0⟩ : Step),
  -- HEAD
  (⟨22, 16, 34, 22, BROWN, 0⟩ : Step),
  (⟨22, 31, 22, 31, BLACK, 0⟩ : Step),
  (⟨22, 15, 23, 16, BLACK, 0⟩ : Step),
  (⟨22, 16, 22, 18, BLACK, 0⟩ : Step),
  (⟨33, 16, 34, 16, BLACK, 0⟩ : Step),
  (⟨34, 22, 34, 22, BLACK, 0⟩ : Step),
  (⟨22, 21, 22, 21, BLACK, 0⟩ : Step),
  (⟨22, 22, 23, 22, BLACK, 0⟩ : Step),
  (⟨24, 22, 24, 22, BLACK, 0⟩ : Step),
  (⟨32, 18, 35, 19, PINK, 0⟩ : Step),
  (⟨31, 17, 34, 18, PINK, 0⟩ : Step),
  (⟨27, 16, 28, 17, PINK, 0⟩ : Step),
  (⟨30, 16, 32, 16, PINK, 0⟩ : Step),
  (⟨24, 17, 25, 20, PINK, 0⟩ : Step),
  (⟨24, 20, 28, 20, PINK, 0⟩ : Step),
  (⟨25, 21, 29, 21, PINK, 0⟩ : Step),
  (⟨26, 22, 33, 22, PINK, 0⟩ : Step),
  (⟨28, 22, 30, 23, PINK, 0⟩ : Step),
  (⟨28, 18, 30, 19, PINK, 0⟩ : Step),
  -- BODY
  (⟨23, 24, 32, 37, RED, 0⟩ : Step),
  (⟨25, 23, 27, 23, RED, 0⟩ : Step),
  (⟨33, 34, 33, 35, RED, 0⟩ : Step),
  (⟨23, 24, 23, 24, BLACK, 0⟩ : Step),
  (⟨30, 24, 33, 24, BLACK, 0⟩ : Step),
  (⟨31, 25, 33, 25, BLACK, 0⟩ : Step),
  (⟨27, 37, 28, 37, BLACK, 0⟩ : Step),
  (⟨24, 23, 24, 23, BROWN, 0⟩ : Step),
  (⟨23, 24, 23, 26, BROWN, 0⟩ : Step),
  (⟨22, 26, 22, 28, BROWN, 0⟩ : Step),
  (⟨25, 24, 27, 27, BROWN, 0⟩ : Step),
  (⟨26, 25, 28, 29, BROWN, 0⟩ : Step),
  (⟨27, 26, 29, 30, BROWN, 0⟩ : Step),
  (⟨29, 27, 31, 31, BROWN, 0⟩ : Step),
  (⟨29, 24, 29, 24, BROWN, 0⟩ : Step),
  (⟨30, 25, 30, 25, BROWN, 0⟩ : Step),
  (⟨32, 29, 32, 30, BROWN, 0⟩ : Step),
  (⟨32, 33, 32, 33, BROWN, 0⟩ : Step),
  (⟨31, 34, 31, 34, BROWN, 0⟩ : Step),
  (⟨29, 35, 30, 35, BROWN, 0⟩ : Step),
  (⟨28, 36, 28, 36, BROWN, 0⟩ : Step),
  -- HAND
  (⟨32, 26, 33, 28, PINK, 0⟩ : Step),
  (⟨33, 27, 35, 30, PINK, 0⟩ : Step),
  -- RIGHT LEG
  (⟨29, 38, 32, 41, BROWN, 0⟩ : Step),
  (⟨33, 40, 34, 41, BROWN, 0⟩ : Step),
  -- LEFT LEG
  (⟨20, 34, 23, 38, BROWN, 0⟩ : Step),
  (⟨20, 39, 21, 39, BROWN, 0⟩ : Step),
  (⟨20, 40, 20, 40, BROWN, 0⟩ : Step),
  (⟨16, 10, 40, 45, BLACK, 8⟩ : Step),
  -- Frame 2 of Super Mario animation
  -- HAT
  (⟨24, 11, 34, 14, RED, 0⟩ : Step),
  (⟨32, 11, 34, 13, BLACK, 0⟩ : Step),
  (⟨24, 11, 26, 11, BLACK, 0⟩ : Step),
  (⟨24, 12, 24, 12, BLACK, 0⟩ : Step),
  (⟨30, 13, 31, 13, PINK, 0⟩ : Step),
  (⟨31, 12, 31, 12, PINK, 0⟩ : Step),
  -- HEAD
  (⟨22, 15, 34, 21, BROWN, 0⟩ : Step),
  (⟨22, 30, 22, 30, BLACK, 0⟩ : Step),
  (⟨22, 14, 23, 15, BLACK, 0⟩ : Step),
  (⟨22, 15, 22, 17, BLACK, 0⟩ : Step),
  (⟨33, 15, 34, 15, BLACK, 0⟩ : Step),
  (⟨34, 21, 34, 21, BLACK, 0⟩ : Step),
  (⟨22, 20, 22, 20, BLACK, 0⟩ : Step),
  (⟨22, 21, 23, 21, BLACK, 0⟩ : Step),
  (⟨32, 17, 35, 18, PINK, 0⟩ : Step),
  (⟨31, 16, 34, 17, PINK, 0⟩ : Step),
  (⟨27, 15, 28, 16, PINK, 0⟩ : Step),
  (⟨30, 15, 32, 15, PINK, 0⟩ : Step),
  (⟨24, 16, 25, 19, PINK, 0⟩ : Step),
  (⟨24, 19, 28, 19, PINK, 0⟩ : Step),
  (⟨25, 20, 29, 20, PINK, 0⟩ : Step),
  (⟨26, 21, 33, 21, PINK, 0⟩ : Step),
  (⟨29, 22, 30, 22, PINK, 0⟩ : Step),
  (⟨28, 17, 30, 18, PINK, 0⟩ : Step),
  -- BODY
  (⟨23, 23, 32, 35, BROWN, 0⟩ : Step),
  (⟨26, 36, 29, 40, BROWN, 0⟩ : Step),
  (⟨27, 40, 31, 41, BROWN, 0⟩ : Step),
  (⟨25, 39, 25, 40, BROWN, 0⟩ : Step),
  (⟨30, 36, 31, 37, BROWN, 0⟩ : Step),
  (⟨31, 37, 32, 38, BROWN, 0⟩ : Step),
  (⟨23, 23, 23, 23, BLACK, 0⟩ : Step),
  (⟨32, 23, 32, 24, BLACK, 0⟩ : Step),
  (⟨23, 34, 24, 35, BLACK, 0⟩ : Step),
  (⟨23, 33, 23, 33, BLACK, 0⟩ : Step),
  (⟨32, 31, 32, 33, RED, 0⟩ : Step),
  (⟨31, 32, 31, 32, RED, 0⟩ : Step),
  (⟨33, 29, 33, 33, RED, 0⟩ : Step),
  (⟨34, 30, 34, 32, RED, 0⟩ : Step),
  (⟨28, 23, 29, 23, RED, 0⟩ : Step),
  (⟨29, 24, 30, 26, RED, 0⟩ : Step),
  (⟨31, 26, 31, 26, RED, 0⟩ : Step),
  (⟨25, 22, 28, 22, RED, 0⟩ : Step),
  (⟨25, 23, 25, 23, RED, 0⟩ : Step),
  (⟨24, 24, 24, 33, RED, 0⟩ : Step),
  (⟨23, 29, 25, 32, RED, 0⟩ : Step),
  (⟨24, 32, 28, 33, RED, 0⟩ : Step),
  (⟨25, 32, 27, 34, RED, 0⟩ : Step),
  (⟨26, 31, 26, 36, RED, 0⟩ : Step),
  (⟨27, 37, 29, 37, RED, 0⟩ : Step),
  (⟨27, 36, 27, 36, RED, 0⟩ : Step),
  (⟨25, 35, 25, 35, RED, 0⟩ : Step),
  -- HAND
  (⟨29, 28, 32, 31, PINK, 0⟩ : Step),
  (⟨30, 27, 31, 31, PINK, 0⟩ : Step),
  (⟨32, 31, 32, 31, RED, 0⟩ : Step),
  (⟨16, 10, 40, 45, BLACK, 8⟩ : Step),
  -- Frame 3 of Super Mario animation
  -- HAT
  (⟨25, 10, 35, 13, RED, 0⟩ : Step),
  (⟨33, 10, 35, 12, BLACK, 0⟩ : Step),
  (⟨25, 10, 27, 10, BLACK, 0⟩ : Step),
  (⟨25, 11, 25, 11, BLACK, 0⟩ : Step),
  (⟨31, 12, 32, 12, PINK, 0⟩ : Step),
  (⟨32, 11, 32, 11, PINK, 0⟩ : Step),
  -- HEAD
  (⟨23, 14, 35, 20, BROWN, 0⟩ : Step),
  (⟨27, 21, 31, 21, BROWN, 0⟩ : Step),
  (⟨23, 13, 24, 14, BLACK, 0⟩ : Step),
  (⟨23, 14, 23, 16, BLACK, 0⟩ : Step),
  (⟨34, 14, 35, 14, BLACK, 0⟩ : Step),
  (⟨35, 20, 35, 20, BLACK, 0⟩ : Step),
  (⟨23, 20, 24, 20, BLACK, 0⟩ : Step),
  (⟨33, 16, 36, 17, PINK, 0⟩ : Step),
  (⟨32, 15, 35, 16, PINK, 0⟩ : Step),
  (⟨28, 14, 29, 15, PINK, 0⟩ : Step),
  (⟨31, 14, 33, 14, PINK, 0⟩ : Step),
  (⟨25, 15, 26, 18, PINK, 0⟩ : Step),
  (⟨25, 18, 29, 18, PINK, 0⟩ : Step),
  (⟨26, 19, 30, 19, PINK, 0⟩ : Step),
  (⟨27, 20, 34, 20, PINK, 0⟩ : Step),
  (⟨30, 21, 31, 21, PINK, 0⟩ : Step),
  (⟨29, 16, 31, 17, PINK, 0⟩ : Step),
  -- BODY
  (⟨25, 22, 34, 36, RED, 0⟩ : Step),
  (⟨26, 37, 29, 37, RED, 0⟩ : Step),
  (⟨27, 38, 27, 38, RED, 0⟩ : Step),
  (⟨25, 22, 25, 22, BLACK, 0⟩ : Step),
  (⟨33, 22, 34, 22, BLACK, 0⟩ : Step),
  (⟨34, 23, 34, 23, BLACK, 0⟩ : Step),
  (⟨34, 24, 34, 24, BROWN, 0⟩ : Step),
  (⟨33, 25, 33, 28, BROWN, 0⟩ : Step),
  (⟨32, 23, 32, 27, BROWN, 0⟩ : Step),
  (⟨24, 24, 29, 26, BROWN, 0⟩ : Step),
  (⟨25, 23, 28, 23, BROWN, 0⟩ : Step),
  (⟨23, 25, 28, 27, BROWN, 0⟩ : Step),
  (⟨22, 28, 27, 28, BROWN, 0⟩ : Step),
  (⟨22, 29, 25, 29, BROWN, 0⟩ : Step),
  (⟨30, 22, 31, 22, BROWN, 0⟩ : Step),
  (⟨31, 23, 32, 23, BROWN, 0⟩ : Step),
  (⟨26, 34, 26, 34, BROWN, 0⟩ : Step),
  (⟨27, 35, 27, 35, BROWN, 0⟩ : Step),
  (⟨28, 36, 29, 36, BROWN, 0⟩ : Step),
  (⟨31, 28, 31, 28, PINK, 0⟩ : Step),
  (⟨34, 28, 34, 28, PINK, 0⟩ : Step),
  -- LEFT HAND
  (⟨22, 30, 26, 31, PINK, 0⟩ : Step),
  (⟨22, 32, 25, 32, PINK, 0⟩ : Step),
  (⟨23, 33, 25, 33, PINK, 0⟩ : Step),
  -- RIGHT HAND
  (⟨35, 23, 37, 25, PINK, 0⟩ : Step),
  (⟨36, 22, 36, 26, PINK, 0⟩ : Step),
  (⟨35, 26, 35, 28, BROWN, 0⟩ : Step),
  (⟨36, 27, 36, 27, BROWN, 0⟩ : Step),
  (⟨37, 26, 37, 26, BROWN, 0⟩ : Step),
  -- RIGHT LEG
  (⟨33, 31, 37, 37, BROWN, 0⟩ : Step),
  (⟨35, 31, 36, 31, BLACK, 0⟩ : Step),
  (⟨35, 32, 35, 32, BLACK, 0⟩ : Step),
  (⟨33, 31, 34, 32, RED, 0⟩ : Step),
  -- LEFT LEG
  (⟨23, 37, 25, 40, BROWN, 0⟩ : Step),
  (⟨22, 36, 24, 38, BROWN, 0⟩ : Step),
  (⟨24, 41, 26, 41, BROWN, 0⟩ : Step),
  (⟨24, 35, 24, 35, BROWN, 0⟩ : Step),
  (⟨26, 38, 26, 38, BROWN, 0⟩ : Step)
]

/-- The value of `count` for a script: `sizeof(steps) / sizeof(*steps)` stored in a `uint8_t`. -/
def scriptCount (script : List Step) : Nat := script.length % 256

/-- The variable `count` of the program. -/
def count : Nat := scriptCount steps

/-- The element `steps[i]`.  `oob` stands for what a read one element past the end of the table
finds in memory; the program reads no element further out. -/
def stepAt (script : List Step) (oob : Step) (i : Nat) : Step := script.getD i oob

/-! ## The animation interpreter -/

/-- The arguments of one call of `paintArea`. -/
structure PaintCall where
  /-- Argument `x1`. -/
  x1 : Nat
  /-- Argument `y1`. -/
  y1 : Nat
  /-- Argument `x2`. -/
  x2 : Nat
  /-- Argument `y2`. -/
  y2 : Nat
  /-- Argument `color`. -/
  color : Nat
deriving DecidableEq, Repr

/-- The call a step gives rise to at a horizontal offset:
`paintArea(x1 + offset, y1, x2 + offset, y2, color)`.  The operands of the sums are `uint8_t`
values promoted to `int`, so the sums do not wrap. -/
def callOf (offset : Nat) (s : Step) : PaintCall :=
  ⟨s.x1 + offset, s.y1, s.x2 + offset, s.y2, s.color⟩

/-- Performing a call on the buffer. -/
def PaintCall.run (c : PaintCall) (m : Mem) : Option Mem :=
  paintArea m c.x1 c.y1 c.x2 c.y2 c.color

/-- The variables of the interpreter: the buffer and `wait`, `step`, `offset`. -/
structure Interp where
  /-- The array `colorMap` and the memory after it. -/
  colorMap : Mem
  /-- The variable `wait` (`uint16_t`). -/
  wait : Nat
  /-- The variable `step` (`uint8_t`). -/
  step : Nat
  /-- The variable `offset` (`uint8_t`, static in the handler). -/
  offset : Nat

/-- The state at startup: `colorMap` filled with `BLACK`, the three variables zero. -/
def Interp.init : Interp := ⟨fun _ => BLACK, 0, 0, 0⟩

/-- The statement `if (offset == 60) offset = 0;` that opens the handler. -/
def wrapOffset (offset : Nat) : Nat := if offset = 60 then 0 else offset

/-- The loop `do { paintArea(...); step++; } while (steps[step].wait == 0 && step < count)`.
Returns the buffer, the value of `step` when the loop is left, and the calls made, in order. -/
def chain (script : List Step) (oob : Step) (offset : Nat) :
    Nat → Mem → Nat → Option (Mem × Nat × List PaintCall)
  | 0, _, _ => none
  | fuel + 1, m, step =>
    let c := callOf offset (stepAt script oob step)
    match c.run m with
    | none => none
    | some m' =>
      let step' := (step + 1) % 256
      if (stepAt script oob step').wait = 0 ∧ step' < scriptCount script then
        match chain script oob offset fuel m' step' with
        | none => none
        | some (m'', j, calls) => some (m'', j, c :: calls)
      else some (m', step', [c])

/-- The handler `ISR(TCC0_OVF_vect)`: one tick of the interpreter.  Returns the new state and the
calls of `paintArea` made during the tick, in order.  The loop is entered with `step < count`, so
it runs at most `255` times. -/
def tick (script : List Step) (oob : Step) (st : Interp) : Option (Interp × List PaintCall) :=
  let offset := wrapOffset st.offset
  if st.step < scriptCount script then
    if st.wait = 0 then
      match chain script oob offset 256 st.colorMap st.step with
      | none => none
      | some (m, step, calls) =>
        some (⟨m, (stepAt script oob step).wait, step, (offset + 4) % 256⟩, calls)
    else
      some (⟨st.colorMap, (st.wait + 65535) % 65536, st.step, offset⟩, [])
  else
    some (⟨st.colorMap, (stepAt script oob 0).wait, 0, offset⟩, [])

/-- A run of ticks: one tick per element of `oobs`, the element being what the read past the
end of the table finds during that tick.  Returns the final state and the calls of every tick. -/
def runTicks (script : List Step) : List Step → Interp → Option (Interp × List (List PaintCall))
  | [], st => some (st, [])
  | oob :: oobs, st =>
    match tick script oob st with
    | none => none
    | some (st', calls) =>
      match runTicks script oobs st' with
      | none => none
      | some (st'', log) => some (st'', calls :: log)

/-- The ticks of a run that draw, that is, make at least one call: their calls, in order. -/
def drawingTicks (logs : List (List PaintCall)) : List (List PaintCall) :=
  logs.filter (fun calls => !calls.isEmpty)

/-- The control part of a state: `(step, wait, offset)`. -/
def Interp.ctrl (st : Interp) : Nat × Nat × Nat := (st.step, st.wait, st.offset)

/-- Performing a list of calls on the buffer, first to last. -/
def replay : List PaintCall → Mem → Option Mem
  | [], m => some m
  | c :: cs, m =>
    match c.run m with
    | none => none
    | some m' => replay cs m'

/-- The value of `step` when the loop of `chain` is left: the control flow of the loop without
the buffer. -/
def chainEnd (script : List Step) (oob : Step) : Nat → Nat → Nat
  | 0, step => step
  | fuel + 1, step =>
    let step' := (step + 1) % 256
    if (stepAt script oob step').wait = 0 ∧ step' < scriptCount script then
      chainEnd script oob fuel step'
    else step'

/-- One tick on the control part `(step, wait, offset)` alone: the control flow of `tick` without
the buffer. -/
def ctrlTick (script : List Step) (oob : Step) (c : Nat × Nat × Nat) : Nat × Nat × Nat :=
  let offset := wrapOffset c.2.2
  if c.1 < scriptCount script then
    if c.2.1 = 0 then
      let j := chainEnd script oob 256 c.1
      (j, (stepAt script oob j).wait, (offset + 4) % 256)
    else (c.1, (c.2.1 + 65535) % 65536, offset)
  else (0, (stepAt script oob 0).wait, offset)

/-- The calls of one tick, from the control part alone: those of the steps of the chain on a
tick entered with `step < count` and `wait = 0`, none on another tick. -/
def tickCalls (script : List Step) (oob : Step) (c : Nat × Nat × Nat) : List PaintCall :=
  if c.1 < scriptCount script ∧ c.2.1 = 0 then
    (List.range' c.1 (chainEnd script oob 256 c.1 - c.1)).map
      (fun k => callOf (wrapOffset c.2.2) (stepAt script oob k))
  else []

/-- A run of `ctrlTick`, one tick per element of `oobs`. -/
def ctrlRun (script : List Step) : List Step → Nat × Nat × Nat → Nat × Nat × Nat
  | [], c => c
  | oob :: oobs, c => ctrlRun script oobs (ctrlTick script oob c)

/-- The calls of every tick of a run of `ctrlTick`. -/
def ctrlLog (script : List Step) : List Step → Nat × Nat × Nat → List (List PaintCall)
  | [], _ => []
  | oob :: oobs, c => tickCalls script oob c :: ctrlLog script oobs (ctrlTick script oob c)

/-- Two control parts agree up to the value read past the end of the table: same `step`, same
`offset`, and same `wait` unless `step` is past the end. -/
def CtrlAgree (script : List Step) (c c' : Nat × Nat × Nat) : Prop :=
  c.1 = c'.1 ∧ c.2.2 = c'.2.2 ∧ (c.1 < scriptCount script → c.2.1 = c'.2.1)

/-- The value of `step` of the shipped script `r` ticks into its cycle of `28` ticks: the closed
form used to state the invariant of the cycle. -/
def phaseStep (r : Nat) : Nat :=
  if r = 0 then 0 else if r ≤ 9 then 54 else if r ≤ 18 then 109 else if r = 19 then 171 else 0

/-- The value of `wait` of the shipped script `r` ticks into its cycle of `28` ticks, for
`r ≠ 19`. -/
def phaseWait (r : Nat) : Nat :=
  if r = 0 then 0 else if r ≤ 9 then 9 - r else if r ≤ 18 then 18 - r else 28 - r

/-- The control part `c` is the one of the shipped script `r` ticks into its cycle. -/
def PhaseOk (r : Nat) (c : Nat × Nat × Nat) : Prop :=
  c.1 = phaseStep r ∧ (r ≠ 19 → c.2.1 = phaseWait r)

/-- The script of the end-to-end scenario: clear the whole buffer (wait 2), set cell `(0, 0)` to
colour 7 (wait 0), set cell `(1, 1)` to colour 9 (wait 3). -/
def scenarioScript : List Step :=
  [(⟨0, 0, 59, 59, 0, 2⟩ : Step), (⟨0, 0, 0, 0, 7, 0⟩ : Step), (⟨1, 1, 1, 1, 9, 3⟩ : Step)]

/-! ## The raster routine -/

/-- The clock frequency `F_CPU`. -/
def F_CPU : Nat := 64000000

/-- The constant `front_porch`: `0.63555114200596 * F_CPU / 1000000 - 3` truncated to `uint16_t`. -/
def front_porch : Nat := (63555114200596 * F_CPU / (100000000000000 * 1000000) - 3) % 65536
/-- The constant `back_porch`: `1.9066534260179 * F_CPU / 1000000 - 60` truncated to `uint16_t`. -/
def back_porch : Nat := (19066534260179 * F_CPU / (10000000000000 * 1000000) - 60) % 65536
/-- The constant `hsync_pulse`: `3.8133068520357 * F_CPU / 1000000 - 3` truncated to `uint16_t`. -/
def hsync_pulse : Nat := (38133068520357 * F_CPU / (10000000000000 * 1000000) - 3) % 65536

/-- Bit `HSYNC` of the sync port. -/
def HSYNC : Nat := 1 <<< 0
/-- Bit `VSYNC` of the sync port. -/
def VSYNC : Nat := 1 <<< 1

/-- What the raster routine does to the outside, in order. -/
inductive PortEvent
  /-- A busy wait `_(cycles)`. -/
  | delay (cycles : Nat)
  /-- A write `SYNC.OUTCLR = bits`, which asserts the (active low) sync lines in `bits`. -/
  | syncOutClr (bits : Nat)
  /-- A write `SYNC.OUTSET = bits`, which deasserts the sync lines in `bits`. -/
  | syncOutSet (bits : Nat)
  /-- A write `VGA.OUT = v` of a value to the colour port. -/
  | vgaOut (v : Nat)
  /-- A write `VGA.OUTCLR = bits`, which blanks the colour lines in `bits`. -/
  | vgaOutClr (bits : Nat)
deriving DecidableEq, Repr

/-- The variables `line` and `tile` of the raster routine (both `uint16_t`). -/
structure Raster where
  /-- The scanline counter. -/
  line : Nat
  /-- The index in `colorMap` of the next cell to show. -/
  tile : Nat
deriving DecidableEq, Repr

/-- The state at startup. -/
def Raster.init : Raster := ⟨0, 0⟩

/-- The unrolled code `REP(n, VGA.OUT = colorMap[tile++]; _(2);)`: the events and the final `tile`. -/
def streamCells (m : Mem) : Nat → Nat → List PortEvent × Nat
  | 0, tile => ([], tile)
  | n + 1, tile =>
    let r := streamCells m n ((tile + 1) % 65536)
    (PortEvent.vgaOut (m tile) :: PortEvent.delay 2 :: r.1, r.2)

/-- The handler `ISR(TCC1_OVF_vect)`: one scanline. -/
def rasterISR (m : Mem) (st : Raster) : Raster × List PortEvent :=
  let sync := [PortEvent.delay front_porch, PortEvent.syncOutClr HSYNC,
    PortEvent.delay hsync_pulse, PortEvent.syncOutSet HSYNC, PortEvent.delay back_porch]
  let von := if 490 = st.line then [PortEvent.syncOutClr VSYNC] else []
  let voff := if 492 = st.line then [PortEvent.syncOutSet VSYNC] else []
  if 524 = st.line then
    let line := 0
    (⟨line, ((line + 1) % 65536 / multY * colorsX) % 65536⟩, sync ++ von ++ voff)
  else
    let vis :=
      if st.line < 480 then
        let r := streamCells m 60 st.tile
        (r.1 ++ [PortEvent.delay 18, PortEvent.vgaOutClr COLORS], r.2)
      else ([], st.tile)
    let line := (st.line + 1) % 65536
    (⟨line, (line / multY * colorsX) % 65536⟩, sync ++ von ++ voff ++ vis.1)

/-- The writes to the colour port `VGA` among the events, in order. -/
def vgaEvents : List PortEvent → List PortEvent
  | [] => []
  | PortEvent.vgaOut v :: es => PortEvent.vgaOut v :: vgaEvents es
  | PortEvent.vgaOutClr b :: es => PortEvent.vgaOutClr b :: vgaEvents es
  | _ :: es => vgaEvents es

/-- The states of the raster routine reachable from startup, whatever the buffer holds at each
invocation. -/
inductive Raster.Reachable : Raster → Prop
  | init : Raster.Reachable Raster.init
  | step (m : Mem) (st : Raster) : Raster.Reachable st → Raster.Reachable (rasterISR m st).1

/-! ## The sync port -/

/-- The sync lines set by `initVGA`: `VSYNC_OFF; HSYNC_OFF;`, that is `SYNC.OUTSET = VSYNC` and
`SYNC.OUTSET = HSYNC`, on the 8-bit output register of the sync port. -/
def initVGA (sync : Nat) : Nat := (sync ||| VSYNC) ||| HSYNC

/-- The effect of one event on the 8-bit output register of the sync port: `OUTCLR` clears the
bits written, `OUTSET` sets them. -/
def syncPort (sync : Nat) : PortEvent → Nat
  | PortEvent.syncOutClr bits => sync &&& (255 ^^^ bits)
  | PortEvent.syncOutSet bits => sync ||| bits
  | _ => sync

/-- The register of the sync port after a list of events. -/
def syncPortAfter (sync : Nat) (events : List PortEvent) : Nat := events.foldl syncPort sync

/-- Vertical sync is asserted: the (active low) line `VSYNC` is low. -/
def vsyncAsserted (sync : Nat) : Prop := sync &&& VSYNC = 0

instance (sync : Nat) : Decidable (vsyncAsserted sync) := by
  unfold vsyncAsserted; infer_instance

/-- The writes to the sync port among the events, in order. -/
def syncEvents : List PortEvent → List PortEvent
  | [] => []
  | PortEvent.syncOutClr b :: es => PortEvent.syncOutClr b :: syncEvents es
  | PortEvent.syncOutSet b :: es => PortEvent.syncOutSet b :: syncEvents es
  | _ :: es => syncEvents es

/-- A run of the raster routine on its variables and the register of the sync port: one
invocation per element of the list, the element being the buffer at that invocation. -/
def rasterRun : List Mem → Raster × Nat → Raster × Nat
  | [], s => s
  | m :: ms, s => rasterRun ms ((rasterISR m s.1).1, syncPortAfter s.2 (rasterISR m s.1).2)

/-! ## The states of the buffer -/

/-- The buffers reachable from startup: `main` fills `colorMap` with `BLACK`
(`memset(colorMap, BLACK, colors)`, whatever the memory held), and then `paint` and `paintArea`
are called any number of times with any arguments. -/
inductive GridReachable : Mem → Prop
  | start (m : Mem) : GridReachable (memset m 0 BLACK colors)
  | paint (m : Mem) (x y color : Nat) : GridReachable m → GridReachable (paint m x y color)
  | paintArea (m m' : Mem) (x1 y1 x2 y2 color : Nat) :
      GridReachable m → paintArea m x1 y1 x2 y2 color = some m' → GridReachable m'

/-! ## The timing constants -/

/-- The macro `FRONT_PORCH`, in exact arithmetic. -/
def FRONT_PORCH : ℚ := 0.63555114200596 * (F_CPU : ℚ) / 1000000 - 3
/-- The macro `BACK_PORCH`, in exact arithmetic. -/
def BACK_PORCH : ℚ := 1.9066534260179 * (F_CPU : ℚ) / 1000000 - 60
/-- The macro `HSYNC_PULSE`, in exact arithmetic. -/
def HSYNC_PULSE : ℚ := 3.8133068520357 * (F_CPU : ℚ) / 1000000 - 3
/-- The macro `WHOLE_LINE`, in exact arithmetic. -/
def WHOLE_LINE : ℚ := 31.777557100298 * (F_CPU : ℚ) / 1000000
/-- The macro `VISIBLE_AREA`, in exact arithmetic. -/
def VISIBLE_AREA : ℚ := 25.422045680238 * (F_CPU : ℚ) / 1000000

/-- The value that `initVGATimer` writes to the 16-bit period register of the line timer,
`TCC1.PER = WHOLE_LINE`: the macro truncated to an integer. -/
def TCC1_PER : Nat := (31777557100298 * F_CPU / (1000000000000 * 1000000)) % 65536

/-! ## The cycles of the raster routine -/

/-- The numbers of cycles that the compiled statements of the raster routine take, one field
per statement and, for a test, one per outcome.  The source does not fix them (its comments note
some of them), so they are a parameter; a busy wait `_(n)` takes `n` cycles. -/
structure CycleTable where
  /-- Entering the handler. -/
  prologue : Nat
  /-- A write `SYNC.OUTCLR = bits`. -/
  syncClr : Nat
  /-- A write `SYNC.OUTSET = bits`. -/
  syncSet : Nat
  /-- The test `490 == line` when it holds. -/
  test490Taken : Nat
  /-- The test `490 == line` when it fails. -/
  test490Skipped : Nat
  /-- The test `492 == line` when it holds. -/
  test492Taken : Nat
  /-- The test `492 == line` when it fails. -/
  test492Skipped : Nat
  /-- The test `524 == line` when it holds. -/
  test524Taken : Nat
  /-- The test `524 == line` when it fails. -/
  test524Skipped : Nat
  /-- The statements `line = 0; tile = ((line + 1) / multY) * colorsX;`. -/
  wrapLine : Nat
  /-- The test `line < 480` when it holds. -/
  testVisibleTaken : Nat
  /-- The test `line < 480` when it fails. -/
  testVisibleSkipped : Nat
  /-- A statement `VGA.OUT = colorMap[tile++];`. -/
  cellOut : Nat
  /-- The statement `VGA.OUTCLR = COLORS;`. -/
  blank : Nat
  /-- The statements `line++; tile = (line / multY) * colorsX;`. -/
  nextLine : Nat
  /-- Leaving the handler. -/
  epilogue : Nat

/-- The cycles of a list of events: the cycles of the busy waits and of the port writes. -/
def eventCycles (c : CycleTable) : List PortEvent → Nat
  | [] => 0
  | PortEvent.delay n :: es => n + eventCycles c es
  | PortEvent.syncOutClr _ :: es => c.syncClr + eventCycles c es
  | PortEvent.syncOutSet _ :: es => c.syncSet + eventCycles c es
  | PortEvent.vgaOut _ :: es => c.cellOut + eventCycles c es
  | PortEvent.vgaOutClr _ :: es => c.blank + eventCycles c es

/-- The cycles of one invocation of the raster routine: those of its events, of the tests it
evaluates, with their outcomes, and of the statements that update `line` and `tile`. -/
def rasterCycles (c : CycleTable) (m : Mem) (st : Raster) : Nat :=
  c.prologue + eventCycles c (rasterISR m st).2 +
    (if 490 = st.line then c.test490Taken else c.test490Skipped) +
    (if 492 = st.line then c.test492Taken else c.test492Skipped) +
    (if 524 = st.line then c.test524Taken + c.wrapLine
      else c.test524Skipped +
        (if st.line < 480 then c.testVisibleTaken else c.testVisibleSkipped) + c.nextLine) +
    c.epilogue

/-! ## The bytes written by the calls of the interpreter -/

/-- The bytes that a call of `paintArea` with `x1 ≤ x2` writes: in every row `y` from `y1` to
`y2`, the offsets from `x1 + y * colorsX` to `x2 + y * colorsX`. -/
def PaintCall.covers (c : PaintCall) (i : Nat) : Prop :=
  ∃ y, c.y1 ≤ y ∧ y ≤ c.y2 ∧ c.x1 + y * colorsX ≤ i ∧ i ≤ c.x2 + y * colorsX

/-- The arguments of a call are ordered and small: `x1 ≤ x2 < 1000` and `y1 ≤ y2 < 1000`. -/
def PaintCall.ordered (c : PaintCall) : Prop :=
  c.x1 ≤ c.x2 ∧ c.x2 < 1000 ∧ c.y1 ≤ c.y2 ∧ c.y2 < 1000

/-- The step that opens each of the three frames of the shipped script. -/
def clearStep : Step := ⟨16, 10, 40, 45, BLACK, 8⟩

/-- A step of the shipped script other than `clearStep` lies in columns `20 .. 37` and rows
`10 .. 41`. -/
def Step.inSprite (s : Step) : Prop :=
  20 ≤ s.x1 ∧ s.x1 ≤ s.x2 ∧ s.x2 ≤ 37 ∧ 10 ≤ s.y1 ∧ s.y1 ≤ s.y2 ∧ s.y2 ≤ 41

instance (s : Step) : Decidable s.inSprite := by unfold Step.inSprite; infer_instance

/-- The bytes of columns `20 .. 37` and rows `10 .. 41` moved by an offset. -/
def spriteBox (o i : Nat) : Prop :=
  ∃ y, 10 ≤ y ∧ y ≤ 41 ∧ 20 + o + y * colorsX ≤ i ∧ i ≤ 37 + o + y * colorsX

/-- The invariant of the runs of the shipped script: `step` is at the start of a frame or past
the end, `offset` is at most `60`, and every byte that is not `BLACK` lies in the sprite box at
the offset `o` of the latest drawing tick, the offset being `o + 4`, wrapped or not. -/
def FrameInv (st : Interp) : Prop :=
  (st.step = 0 ∨ st.step = 54 ∨ st.step = 109 ∨ st.step = 171) ∧ st.offset ≤ 60 ∧
    ∃ o, o ≤ 56 ∧ o % 4 = 0 ∧ wrapOffset st.offset = wrapOffset (o + 4) ∧
      ∀ i, st.colorMap i ≠ BLACK → spriteBox o i

/-! ## Rectangle paint: the row loop -/

/-- The row loop terminates when `y2 < 65535`; it sets the `x` bytes of every row from `y1` to
`y2` to the masked colour and leaves every other byte as it was. -/
theorem paintRows_spec (x1 y2 color x : Nat) (hy2 : y2 < 65535) :
    ∀ (fuel y1 : Nat) (m : Mem), y1 ≤ y2 + 1 → y2 + 2 ≤ fuel + y1 →
      ∃ m', paintRows x1 y2 color x fuel y1 m = some m' ∧
        (∀ i, (∃ y, y1 ≤ y ∧ y ≤ y2 ∧ x1 + (y * colorsX) % 65536 ≤ i ∧
            i < x1 + (y * colorsX) % 65536 + x) → m' i = (COLORS &&& color) % 256) ∧
        (∀ i, (∀ y, y1 ≤ y → y ≤ y2 → ¬ (x1 + (y * colorsX) % 65536 ≤ i ∧
            i < x1 + (y * colorsX) % 65536 + x)) → m' i = m i) := by
  intro fuel
  induction fuel with
  | zero => intro y1 m h1 h2; omega
  | succ n ih =>
    intro y1 m h1 h2
    by_cases hle : y1 ≤ y2
    · have hmod : (y1 + 1) % 65536 = y1 + 1 := Nat.mod_eq_of_lt (by omega)
      obtain ⟨m', hrun, hin, hout⟩ := ih (y1 + 1)
        (memset m (x1 + (y1 * colorsX) % 65536) (COLORS &&& color) x) (by omega) (by omega)
      refine ⟨m', ?_, ?_, ?_⟩
      · simp only [paintRows, hle, if_true, hmod]; exact hrun
      · rintro i ⟨y, hy1, hy2, hlo, hhi⟩
        by_cases hnext : ∃ y, y1 + 1 ≤ y ∧ y ≤ y2 ∧ x1 + (y * colorsX) % 65536 ≤ i ∧
            i < x1 + (y * colorsX) % 65536 + x
        · exact hin i hnext
        · have hyeq : y = y1 := by
            by_contra hne
            exact hnext ⟨y, by omega, hy2, hlo, hhi⟩
          subst hyeq
          rw [hout i (fun y' h1' h2' hc => hnext ⟨y', h1', h2', hc.1, hc.2⟩)]
          simp [memset, hlo, hhi]
      · intro i hno
        rw [hout i (fun y' h1' h2' => hno y' (by omega) h2')]
        have := hno y1 (le_refl _) hle
        simp only [memset]
        rw [if_neg this]
    · refine ⟨m, ?_, ?_, ?_⟩
      · simp [paintRows, hle]
      · rintro i ⟨y, hy1, hy2, -, -⟩; omega
      · intro i _; rfl


theorem COLORS_eq : COLORS = 207 := by decide

theorem masked_lt (color : Nat) : (COLORS &&& color) % 256 = COLORS &&& color := by
  apply Nat.mod_eq_of_lt
  have h : COLORS &&& color ≤ COLORS := Nat.and_le_left
  rw [COLORS_eq] at h ⊢
  omega

/-- A call of `paintArea` returns whenever `y2 < 65535`. -/
theorem paintArea_isSome (m : Mem) (x1 y1 x2 y2 color : Nat) (hy2 : y2 < 65535) :
    ∃ m', paintArea m x1 y1 x2 y2 color = some m' := by
  by_cases h : y1 ≤ y2 + 1
  · obtain ⟨m', hrun, -, -⟩ := paintRows_spec x1 y2 color ((x2 + 65536 - x1 + 1) % 65536) hy2
      65536 y1 m h (by omega)
    exact ⟨m', hrun⟩
  · refine ⟨m, ?_⟩
    have : ¬ y1 ≤ y2 := by omega
    simp [paintArea, paintRows, this]

/-- The effect of `paintArea` on a rectangle that lies inside a row: a byte at offset `i` is set
to the masked colour when column `i % 60` and row `i / 60` lie in the rectangle, and is left
alone otherwise. -/
theorem paintArea_spec (m : Mem) (x1 y1 x2 y2 color : Nat)
    (hx : x1 ≤ x2) (hx2 : x2 < 60) (hy : y1 ≤ y2) (hy2 : y2 < 1000) :
    ∃ m', paintArea m x1 y1 x2 y2 color = some m' ∧
      ∀ i, m' i = if x1 ≤ i % 60 ∧ i % 60 ≤ x2 ∧ y1 ≤ i / 60 ∧ i / 60 ≤ y2
        then COLORS &&& color else m i := by
  have hx' : (x2 + 65536 - x1 + 1) % 65536 = x2 - x1 + 1 := by
    rw [show x2 + 65536 - x1 + 1 = (x2 - x1 + 1) + 65536 by omega, Nat.add_mod_right]
    exact Nat.mod_eq_of_lt (by omega)
  obtain ⟨m', hrun, hin, hout⟩ := paintRows_spec x1 y2 color (x2 - x1 + 1) (by omega)
    65536 y1 m (by omega) (by omega)
  refine ⟨m', by simp only [paintArea, hx']; exact hrun, ?_⟩
  have hX : colorsX = 60 := by decide
  intro i
  split
  · rename_i h
    rw [hin i ⟨i / 60, h.2.2.1, h.2.2.2, ?_, ?_⟩, masked_lt]
    · rw [hX, Nat.mod_eq_of_lt (by omega)]; omega
    · rw [hX, Nat.mod_eq_of_lt (by omega)]; omega
  · rename_i h
    apply hout
    intro y hy1 hy2' hc
    rw [hX, Nat.mod_eq_of_lt (by omega)] at hc
    apply h
    have h1 : i / 60 = y := by omega
    have h2 : i % 60 = i - y * 60 := by omega
    omega

/-! ## C1 and C2: what `paintArea` writes -/

/-- C1, counterexample: `paintArea(1, 1, 2, 2, 0x10)` on an all-zero buffer returns and leaves
cell `(1, 1)` equal to `0`, not to the colour argument `0x10`. -/
theorem c1_paintArea_stores_masked_counterexample :
    (paintArea (fun _ => 0) 1 1 2 2 0x10).map (fun m => cell m 1 1) = some 0 ∧
      (0x10 : Nat) < 256 ∧ (0 : Nat) ≠ 0x10 := by
  decide

/-- C1, amended: for every buffer, every colour argument `C` and every rectangle with
`x1 ≤ x2 < 60` and `y1 ≤ y2 < 60`, the call `paintArea(x1, y1, x2, y2, C)` returns and every cell
`(x, y)` of the rectangle then holds `COLORS & C`, the argument with its two non-colour bits
cleared; it holds `C` itself when `C` has no other bit than the six colour bits. -/
theorem c1_paintArea_sets_rectangle (m : Mem) (C x1 y1 x2 y2 : Nat)
    (hx : x1 ≤ x2) (hx2 : x2 < 60) (hy : y1 ≤ y2) (hy2 : y2 < 60) :
    ∃ m', paintArea m x1 y1 x2 y2 C = some m' ∧
      (∀ x y, x1 ≤ x → x ≤ x2 → y1 ≤ y → y ≤ y2 → cell m' x y = COLORS &&& C) ∧
      (COLORS &&& C = C →
        ∀ x y, x1 ≤ x → x ≤ x2 → y1 ≤ y → y ≤ y2 → cell m' x y = C) := by
  obtain ⟨m', hrun, hspec⟩ := paintArea_spec m x1 y1 x2 y2 C hx hx2 hy (by omega)
  have key : ∀ x y, x1 ≤ x → x ≤ x2 → y1 ≤ y → y ≤ y2 → cell m' x y = COLORS &&& C := by
    intro x y h1 h2 h3 h4
    have hX : colorsX = 60 := by decide
    have hm : (x + y * 60) % 60 = x := by omega
    have hd : (x + y * 60) / 60 = y := by omega
    simp only [cell, hX, hspec, hm, hd]
    rw [if_pos ⟨h1, h2, h3, h4⟩]
  refine ⟨m', hrun, key, ?_⟩
  intro hC x y h1 h2 h3 h4
  rw [key x y h1 h2 h3 h4, hC]

/-- C1, witness: the call `paintArea(1, 1, 2, 2, 5)` on the all-zero buffer. -/
theorem c1_paintArea_sets_rectangle_witness :
    ∃ m', paintArea (fun _ => 0) 1 1 2 2 5 = some m' ∧
      (∀ x y, 1 ≤ x → x ≤ 2 → 1 ≤ y → y ≤ 2 → cell m' x y = COLORS &&& 5) ∧
      (COLORS &&& 5 = 5 → ∀ x y, 1 ≤ x → x ≤ 2 → 1 ≤ y → y ≤ 2 → cell m' x y = 5) :=
  c1_paintArea_sets_rectangle (fun _ => 0) 5 1 1 2 2 (by decide) (by decide) (by decide)
    (by decide)

/-- C2: for every buffer, colour `C` and rectangle with `x1 ≤ x2 < 60` and `y1 ≤ y2 < 60`, the call
`paintArea(x1, y1, x2, y2, C)` returns; every cell outside the rectangle, in any row and column,
and every byte after the array keeps its value; the bytes whose value is set are those of the
cells of the rectangle, and there are `(x2 - x1 + 1) * (y2 - y1 + 1)` of them, all inside the
array. -/
theorem c2_paintArea_frame (m : Mem) (C x1 y1 x2 y2 : Nat)
    (hx : x1 ≤ x2) (hx2 : x2 < 60) (hy : y1 ≤ y2) (hy2 : y2 < 60) :
    ∃ m', paintArea m x1 y1 x2 y2 C = some m' ∧
      (∀ x y, x < 60 → ¬ (x1 ≤ x ∧ x ≤ x2 ∧ y1 ≤ y ∧ y ≤ y2) → cell m' x y = cell m x y) ∧
      (∀ i, m' i = if x1 ≤ i % 60 ∧ i % 60 ≤ x2 ∧ y1 ≤ i / 60 ∧ i / 60 ≤ y2
        then COLORS &&& C else m i) ∧
      ((Finset.range COLORS_T).filter
        (fun i => x1 ≤ i % 60 ∧ i % 60 ≤ x2 ∧ y1 ≤ i / 60 ∧ i / 60 ≤ y2)).card
          = (x2 - x1 + 1) * (y2 - y1 + 1) ∧
      (∀ i, (x1 ≤ i % 60 ∧ i % 60 ≤ x2 ∧ y1 ≤ i / 60 ∧ i / 60 ≤ y2) → i < COLORS_T) := by
  obtain ⟨m', hrun, hspec⟩ := paintArea_spec m x1 y1 x2 y2 C hx hx2 hy (by omega)
  have hT : COLORS_T = 3600 := by decide
  refine ⟨m', hrun, ?_, hspec, ?_, ?_⟩
  · intro x y hx60 hout
    have hX : colorsX = 60 := by decide
    have hm : (x + y * 60) % 60 = x := by omega
    have hd : (x + y * 60) / 60 = y := by omega
    simp only [cell, hX, hspec, hm, hd]
    rw [if_neg hout]
  · have himg : (Finset.range COLORS_T).filter
        (fun i => x1 ≤ i % 60 ∧ i % 60 ≤ x2 ∧ y1 ≤ i / 60 ∧ i / 60 ≤ y2)
        = (Finset.Icc x1 x2 ×ˢ Finset.Icc y1 y2).image (fun p => p.1 + p.2 * 60) := by
      ext i
      simp only [Finset.mem_filter, Finset.mem_range, Finset.mem_image, Finset.mem_product,
        Finset.mem_Icc, Prod.exists, hT]
      constructor
      · rintro ⟨-, h1, h2, h3, h4⟩
        exact ⟨i % 60, i / 60, ⟨⟨h1, h2⟩, h3, h4⟩, by omega⟩
      · rintro ⟨x, y, ⟨⟨h1, h2⟩, h3, h4⟩, rfl⟩
        have hm : (x + y * 60) % 60 = x := by omega
        have hd : (x + y * 60) / 60 = y := by omega
        rw [hm, hd]
        exact ⟨by omega, h1, h2, h3, h4⟩
    rw [himg, Finset.card_image_of_injOn, Finset.card_product, Nat.card_Icc, Nat.card_Icc]
    · congr 1 <;> omega
    · rintro ⟨x, y⟩ hp ⟨x', y'⟩ hp' heq
      simp only [Finset.coe_product, Finset.coe_Icc, Set.mem_prod, Set.mem_Icc] at hp hp'
      simp only at heq
      have e1 : x = x' := by omega
      have e2 : y = y' := by omega
      rw [e1, e2]
  · rintro i ⟨-, h2, -, h4⟩
    rw [hT]; omega

/-- C2, witness: the call `paintArea(1, 1, 2, 2, 5)` on the all-zero buffer. -/
theorem c2_paintArea_frame_witness :
    ∃ m', paintArea (fun _ => 0) 1 1 2 2 5 = some m' ∧
      (∀ x y, x < 60 → ¬ (1 ≤ x ∧ x ≤ 2 ∧ 1 ≤ y ∧ y ≤ 2) →
        cell m' x y = cell (fun _ => 0) x y) ∧
      (∀ i, m' i = if 1 ≤ i % 60 ∧ i % 60 ≤ 2 ∧ 1 ≤ i / 60 ∧ i / 60 ≤ 2
        then COLORS &&& 5 else (fun _ => 0) i) ∧
      ((Finset.range COLORS_T).filter
        (fun i => 1 ≤ i % 60 ∧ i % 60 ≤ 2 ∧ 1 ≤ i / 60 ∧ i / 60 ≤ 2)).card
          = (2 - 1 + 1) * (2 - 1 + 1) ∧
      (∀ i, (1 ≤ i % 60 ∧ i % 60 ≤ 2 ∧ 1 ≤ i / 60 ∧ i / 60 ≤ 2) → i < COLORS_T) :=
  c2_paintArea_frame (fun _ => 0) 5 1 1 2 2 (by decide) (by decide) (by decide) (by decide)

/-! ## The interpreter: the chain of a drawing tick -/

theorem scriptCount_lt (script : List Step) : scriptCount script < 256 :=
  Nat.mod_lt _ (by decide)

theorem scriptCount_le_length (script : List Step) : scriptCount script ≤ script.length :=
  Nat.mod_le _ _

/-- An index below `count` reads an element of the table. -/
theorem stepAt_mem (script : List Step) (oob : Step) (k : Nat) (hk : k < scriptCount script) :
    stepAt script oob k ∈ script := by
  have hlen : k < script.length := lt_of_lt_of_le hk (scriptCount_le_length script)
  simp only [stepAt, List.getD_eq_getElem?_getD, List.getElem?_eq_getElem hlen, Option.getD_some]
  exact List.getElem_mem hlen

/-- An index below `count` reads the same element whatever lies after the table. -/
theorem stepAt_oob_irrel (script : List Step) (oob oob' : Step) (k : Nat)
    (hk : k < scriptCount script) : stepAt script oob k = stepAt script oob' k := by
  have hlen : k < script.length := lt_of_lt_of_le hk (scriptCount_le_length script)
  simp only [stepAt, List.getD_eq_getElem?_getD, List.getElem?_eq_getElem hlen, Option.getD_some]

/-- The end of a chain entered at step `i < count`: it lies above `i` and is at most `count`; it
is `count` or a step with a nonzero wait; every step strictly between has wait `0`. -/
theorem chainEnd_spec (script : List Step) (oob : Step) :
    ∀ (fuel i : Nat), i < scriptCount script → scriptCount script ≤ fuel + i →
      i < chainEnd script oob fuel i ∧ chainEnd script oob fuel i ≤ scriptCount script ∧
      (chainEnd script oob fuel i = scriptCount script ∨
        (stepAt script oob (chainEnd script oob fuel i)).wait ≠ 0) ∧
      ∀ k, i < k → k < chainEnd script oob fuel i → (stepAt script oob k).wait = 0 := by
  intro fuel
  induction fuel with
  | zero => intro i h1 h2; omega
  | succ n ih =>
    intro i h1 h2
    have hc := scriptCount_lt script
    have hmod : (i + 1) % 256 = i + 1 := Nat.mod_eq_of_lt (by omega)
    by_cases hcond : (stepAt script oob (i + 1)).wait = 0 ∧ i + 1 < scriptCount script
    · obtain ⟨a, b, c, d⟩ := ih (i + 1) hcond.2 (by omega)
      have he : chainEnd script oob (n + 1) i = chainEnd script oob n (i + 1) := by
        simp only [chainEnd, hmod]; rw [if_pos hcond]
      rw [he]
      refine ⟨by omega, b, c, ?_⟩
      intro k hk1 hk2
      by_cases hk : k = i + 1
      · rw [hk]; exact hcond.1
      · exact d k (by omega) hk2
    · have he : chainEnd script oob (n + 1) i = i + 1 := by
        simp only [chainEnd, hmod]; rw [if_neg hcond]
      rw [he]
      refine ⟨by omega, by omega, ?_, ?_⟩
      · by_cases hw : (stepAt script oob (i + 1)).wait = 0
        · left
          have : ¬ i + 1 < scriptCount script := fun h => hcond ⟨hw, h⟩
          omega
        · right; exact hw
      · intro k hk1 hk2; omega

/-- The loop of a drawing tick returns when every `y2` of the table is below `65535`; it leaves
`step` at `chainEnd`, and the calls it makes are those of the steps from `i` up to there, in
order, each at the same offset. -/
theorem chain_run (script : List Step) (oob : Step) (offset : Nat)
    (hy : ∀ k, k < scriptCount script → (stepAt script oob k).y2 < 65535) :
    ∀ (fuel i : Nat) (m : Mem), i < scriptCount script → scriptCount script ≤ fuel + i →
      ∃ m', chain script oob offset fuel m i =
          some (m', chainEnd script oob fuel i,
            (List.range' i (chainEnd script oob fuel i - i)).map
              (fun k => callOf offset (stepAt script oob k))) ∧
        replay ((List.range' i (chainEnd script oob fuel i - i)).map
              (fun k => callOf offset (stepAt script oob k))) m = some m' := by
  intro fuel
  induction fuel with
  | zero => intro i m h1 h2; omega
  | succ n ih =>
    intro i m h1 h2
    have hc := scriptCount_lt script
    have hmod : (i + 1) % 256 = i + 1 := Nat.mod_eq_of_lt (by omega)
    obtain ⟨m1, hm1⟩ := paintArea_isSome m (callOf offset (stepAt script oob i)).x1
      (callOf offset (stepAt script oob i)).y1 (callOf offset (stepAt script oob i)).x2
      (callOf offset (stepAt script oob i)).y2 (callOf offset (stepAt script oob i)).color
      (hy i h1)
    have hrun1 : (callOf offset (stepAt script oob i)).run m = some m1 := hm1
    by_cases hcond : (stepAt script oob (i + 1)).wait = 0 ∧ i + 1 < scriptCount script
    · obtain ⟨m', hch, hrep⟩ := ih (i + 1) m1 hcond.2 (by omega)
      have hlt := (chainEnd_spec script oob n (i + 1) hcond.2 (by omega)).1
      have he : chainEnd script oob (n + 1) i = chainEnd script oob n (i + 1) := by
        simp only [chainEnd, hmod]; rw [if_pos hcond]
      have hlist : List.range' i (chainEnd script oob n (i + 1) - i)
          = i :: List.range' (i + 1) (chainEnd script oob n (i + 1) - (i + 1)) := by
        rw [show chainEnd script oob n (i + 1) - i
          = (chainEnd script oob n (i + 1) - (i + 1)) + 1 by omega]
        rfl
      refine ⟨m', ?_, ?_⟩
      · simp only [chain, hrun1, hmod]
        rw [if_pos hcond, hch, he, hlist]
        rfl
      · rw [he, hlist]
        simp only [List.map_cons, replay, hrun1]
        exact hrep
    · have he : chainEnd script oob (n + 1) i = i + 1 := by
        simp only [chainEnd, hmod]; rw [if_neg hcond]
      have hlist : List.range' i (i + 1 - i) = [i] := by
        rw [show i + 1 - i = 1 by omega]; rfl
      refine ⟨m1, ?_, ?_⟩
      · simp only [chain, hrun1, hmod]
        rw [if_neg hcond, he, hlist]
        rfl
      · rw [he, hlist]
        simp only [List.map_cons, List.map_nil, replay, hrun1]

/-- A table whose fields fit their C types has every `y2` below `65535`. -/
theorem fits_y2 (script : List Step) (oob : Step) (hfit : ∀ s ∈ script, s.fits) :
    ∀ k, k < scriptCount script → (stepAt script oob k).y2 < 65535 := by
  intro k hk
  have := (hfit _ (stepAt_mem script oob k hk)).2.2.2.1
  omega

/-- A drawing tick: entered with `wait = 0` and `step < count`, the tick returns, runs the chain
from `step` to `chainEnd` at the wrapped offset, and then adds `4` to the offset. -/
theorem tick_draw (script : List Step) (oob : Step) (st : Interp)
    (hy : ∀ k, k < scriptCount script → (stepAt script oob k).y2 < 65535)
    (hw : st.wait = 0) (hi : st.step < scriptCount script) :
    ∃ m', tick script oob st =
        some (⟨m', (stepAt script oob (chainEnd script oob 256 st.step)).wait,
            chainEnd script oob 256 st.step, (wrapOffset st.offset + 4) % 256⟩,
          (List.range' st.step (chainEnd script oob 256 st.step - st.step)).map
            (fun k => callOf (wrapOffset st.offset) (stepAt script oob k))) ∧
      replay ((List.range' st.step (chainEnd script oob 256 st.step - st.step)).map
            (fun k => callOf (wrapOffset st.offset) (stepAt script oob k))) st.colorMap
        = some m' := by
  have hc := scriptCount_lt script
  obtain ⟨m', hch, hrep⟩ := chain_run script oob (wrapOffset st.offset) hy 256 st.step
    st.colorMap hi (by omega)
  refine ⟨m', ?_, hrep⟩
  simp only [tick, hi, hw, if_true, hch]

/-- A waiting tick: entered with `wait > 0` and `step < count`, the tick makes no call and only
decrements `wait`. -/
theorem tick_wait (script : List Step) (oob : Step) (st : Interp)
    (hw : 0 < st.wait) (hw16 : st.wait < 65536) (hi : st.step < scriptCount script) :
    tick script oob st = some (⟨st.colorMap, st.wait - 1, st.step, wrapOffset st.offset⟩, []) := by
  have hne : ¬ st.wait = 0 := by omega
  have hdec : (st.wait + 65535) % 65536 = st.wait - 1 := by omega
  simp only [tick, hi, hne, if_true, if_false, hdec]

/-- A wrapping tick: entered with `step` not below `count`, the tick makes no call, sets `step` to
`0` and loads the wait of step `0`. -/
theorem tick_wrap (script : List Step) (oob : Step) (st : Interp)
    (hi : ¬ st.step < scriptCount script) :
    tick script oob st =
      some (⟨st.colorMap, (stepAt script oob 0).wait, 0, wrapOffset st.offset⟩, []) := by
  simp only [tick, hi, if_false]

/-! ## C3 to C6: one tick of the interpreter -/

/-- C3: a tick entered with `wait = 0` and `step = i < count` returns; with `j` the smallest index
above `i` such that `j = count` or `steps[j].wait ≠ 0`, the calls of `paintArea` it makes are, in
order, those of the steps `i, i + 1, ..., j - 1`, each with arguments
`(x1 + offset, y1, x2 + offset, y2, color)` for one and the same offset (the offset of the state,
with `60` read as `0`); the buffer it leaves is the result of these calls; it leaves `step = j`
and `wait = steps[j].wait`. -/
theorem c3_drawing_tick_runs_chain (script : List Step) (oob : Step) (st : Interp)
    (hfit : ∀ s ∈ script, s.fits) (hw : st.wait = 0) (hi : st.step < scriptCount script) :
    ∃ j m',
      (st.step < j ∧ (j = scriptCount script ∨ (stepAt script oob j).wait ≠ 0) ∧
        ∀ k, st.step < k → k < j →
          ¬ (k = scriptCount script ∨ (stepAt script oob k).wait ≠ 0)) ∧
      tick script oob st =
        some (⟨m', (stepAt script oob j).wait, j, (wrapOffset st.offset + 4) % 256⟩,
          (List.range' st.step (j - st.step)).map (fun k =>
            (⟨(stepAt script oob k).x1 + wrapOffset st.offset, (stepAt script oob k).y1,
              (stepAt script oob k).x2 + wrapOffset st.offset, (stepAt script oob k).y2,
              (stepAt script oob k).color⟩ : PaintCall))) ∧
      replay ((List.range' st.step (j - st.step)).map (fun k =>
            (⟨(stepAt script oob k).x1 + wrapOffset st.offset, (stepAt script oob k).y1,
              (stepAt script oob k).x2 + wrapOffset st.offset, (stepAt script oob k).y2,
              (stepAt script oob k).color⟩ : PaintCall))) st.colorMap = some m' := by
  obtain ⟨m', htick, hrep⟩ := tick_draw script oob st (fits_y2 script oob hfit) hw hi
  obtain ⟨h1, h2, h3, h4⟩ := chainEnd_spec script oob 256 st.step hi
    (by have := scriptCount_lt script; omega)
  refine ⟨chainEnd script oob 256 st.step, m', ⟨h1, h3, ?_⟩, htick, hrep⟩
  intro k hk1 hk2 hor
  rcases hor with hk | hk
  · omega
  · exact hk (h4 k hk1 hk2)

/-- C3, witness: the first tick of the scenario script from the startup state. -/
theorem c3_drawing_tick_runs_chain_witness :
    ∃ j m',
      (Interp.init.step < j ∧ (j = scriptCount scenarioScript ∨
          (stepAt scenarioScript ⟨0, 0, 0, 0, 0, 0⟩ j).wait ≠ 0) ∧
        ∀ k, Interp.init.step < k → k < j →
          ¬ (k = scriptCount scenarioScript ∨
            (stepAt scenarioScript ⟨0, 0, 0, 0, 0, 0⟩ k).wait ≠ 0)) ∧
      tick scenarioScript ⟨0, 0, 0, 0, 0, 0⟩ Interp.init =
        some (⟨m', (stepAt scenarioScript ⟨0, 0, 0, 0, 0, 0⟩ j).wait, j,
            (wrapOffset Interp.init.offset + 4) % 256⟩,
          (List.range' Interp.init.step (j - Interp.init.step)).map (fun k =>
            (⟨(stepAt scenarioScript ⟨0, 0, 0, 0, 0, 0⟩ k).x1 + wrapOffset Interp.init.offset,
              (stepAt scenarioScript ⟨0, 0, 0, 0, 0, 0⟩ k).y1,
              (stepAt scenarioScript ⟨0, 0, 0, 0, 0, 0⟩ k).x2 + wrapOffset Interp.init.offset,
              (stepAt scenarioScript ⟨0, 0, 0, 0, 0, 0⟩ k).y2,
              (stepAt scenarioScript ⟨0, 0, 0, 0, 0, 0⟩ k).color⟩ : PaintCall))) ∧
      replay ((List.range' Interp.init.step (j - Interp.init.step)).map (fun k =>
            (⟨(stepAt scenarioScript ⟨0, 0, 0, 0, 0, 0⟩ k).x1 + wrapOffset Interp.init.offset,
              (stepAt scenarioScript ⟨0, 0, 0, 0, 0, 0⟩ k).y1,
              (stepAt scenarioScript ⟨0, 0, 0, 0, 0, 0⟩ k).x2 + wrapOffset Interp.init.offset,
              (stepAt scenarioScript ⟨0, 0, 0, 0, 0, 0⟩ k).y2,
              (stepAt scenarioScript ⟨0, 0, 0, 0, 0, 0⟩ k).color⟩ : PaintCall)))
          Interp.init.colorMap = some m' :=
  c3_drawing_tick_runs_chain scenarioScript ⟨0, 0, 0, 0, 0, 0⟩ Interp.init (by decide) rfl
    (by decide)

/-- C4, counterexample: on the scenario script, when the read past the end of the table finds
`77`, the fifth tick leaves `step = 3 = count` and `wait = 77`; the sixth tick starts with
`wait > 0`, and it leaves `wait = 2`, not `76`, and `step = 0`, not `3`. -/
theorem c4_wait_not_decremented_past_end_counterexample :
    (runTicks scenarioScript (List.replicate 5 ⟨0, 0, 0, 0, 0, 77⟩) Interp.init).map
        (fun r => r.1.ctrl) = some (3, 77, 8) ∧
      (runTicks scenarioScript (List.replicate 6 ⟨0, 0, 0, 0, 0, 77⟩) Interp.init).map
        (fun r => r.1.ctrl) = some (0, 2, 8) ∧
      scriptCount scenarioScript = 3 := by
  decide

/-- C4, amended: a tick entered with `wait > 0` and `step < count` returns, makes no call of
`paintArea`, decrements `wait` by exactly one and leaves `step` and every byte of the buffer
unchanged. -/
theorem c4_waiting_tick_counts_down (script : List Step) (oob : Step) (st : Interp)
    (hi : st.step < scriptCount script) (hw : 0 < st.wait) (hw16 : st.wait < 65536) :
    ∃ st', tick script oob st = some (st', []) ∧ st'.wait + 1 = st.wait ∧
      st'.step = st.step ∧ st'.colorMap = st.colorMap := by
  refine ⟨_, tick_wait script oob st hw hw16 hi, ?_, rfl, rfl⟩
  show st.wait - 1 + 1 = st.wait
  omega

/-- C4, witness: the scenario script in a state with `step = 2` and `wait = 3`. -/
theorem c4_waiting_tick_counts_down_witness :
    ∃ st', tick scenarioScript ⟨0, 0, 0, 0, 0, 0⟩ ⟨fun _ => BLACK, 3, 2, 4⟩ = some (st', []) ∧
      st'.wait + 1 = (⟨fun _ => BLACK, 3, 2, 4⟩ : Interp).wait ∧
      st'.step = (⟨fun _ => BLACK, 3, 2, 4⟩ : Interp).step ∧
      st'.colorMap = (⟨fun _ => BLACK, 3, 2, 4⟩ : Interp).colorMap :=
  c4_waiting_tick_counts_down scenarioScript ⟨0, 0, 0, 0, 0, 0⟩ ⟨fun _ => BLACK, 3, 2, 4⟩
    (by decide) (by decide) (by decide)

/-- C5, counterexample: on the scenario script the fifth tick executes the last step, the call
`paintArea(5, 1, 5, 1, 9)`, and leaves `step = 3` and `wait = 0` (the value found past the end of
the table), not `step = 0` and `wait = 2`. -/
theorem c5_last_step_leaves_cursor_at_count_counterexample :
    (runTicks scenarioScript (List.replicate 5 ⟨0, 0, 0, 0, 0, 0⟩) Interp.init).map
        (fun r => (r.1.step, r.1.wait, r.2.getLast?)) = some (3, 0, some [⟨5, 1, 5, 1, 9⟩]) ∧
      (stepAt scenarioScript ⟨0, 0, 0, 0, 0, 0⟩ 0).wait = 2 := by
  decide

/-- C5, amended: when the chain of a tick executes the last step of the script, that tick leaves
`step = count`, one past the last step; the next tick, whatever `wait` holds, makes no call, leaves
the buffer as it is and sets `step` to `0` and `wait` to the wait of step `0`. -/
theorem c5_last_step_then_wrap (script : List Step) (oob : Step) (st : Interp)
    (hfit : ∀ s ∈ script, s.fits) (hw : st.wait = 0) (hi : st.step < scriptCount script)
    (hz : ∀ k, st.step < k → k < scriptCount script → (stepAt script oob k).wait = 0) :
    ∃ st1 calls, tick script oob st = some (st1, calls) ∧
      calls = (List.range' st.step (scriptCount script - st.step)).map
        (fun k => callOf (wrapOffset st.offset) (stepAt script oob k)) ∧
      st1.step = scriptCount script ∧
      ∀ oob', ∃ st2 s0, tick script oob' st1 = some (st2, []) ∧ script[0]? = some s0 ∧
        st2.step = 0 ∧ st2.wait = s0.wait ∧ st2.colorMap = st1.colorMap := by
  obtain ⟨m', htick, -⟩ := tick_draw script oob st (fits_y2 script oob hfit) hw hi
  obtain ⟨h1, h2, h3, h4⟩ := chainEnd_spec script oob 256 st.step hi
    (by have := scriptCount_lt script; omega)
  have hend : chainEnd script oob 256 st.step = scriptCount script := by
    rcases h3 with h | h
    · exact h
    · by_contra hne
      exact h (hz _ h1 (by omega))
  rw [hend] at htick
  refine ⟨_, _, htick, rfl, rfl, ?_⟩
  intro oob'
  have hlen : 0 < script.length :=
    lt_of_lt_of_le (by omega : 0 < scriptCount script) (scriptCount_le_length script)
  refine ⟨_, script[0], tick_wrap script oob' _ (by simp), ?_, rfl, ?_, rfl⟩
  · exact List.getElem?_eq_getElem hlen
  · show (stepAt script oob' 0).wait = script[0].wait
    simp only [stepAt, List.getD_eq_getElem?_getD, List.getElem?_eq_getElem hlen,
      Option.getD_some]

/-- C5, witness: the scenario script in the state before its last step. -/
theorem c5_last_step_then_wrap_witness :
    ∃ st1 calls,
      tick scenarioScript ⟨0, 0, 0, 0, 0, 0⟩ ⟨fun _ => BLACK, 0, 2, 4⟩ = some (st1, calls) ∧
      calls = (List.range' (⟨fun _ => BLACK, 0, 2, 4⟩ : Interp).step
          (scriptCount scenarioScript - (⟨fun _ => BLACK, 0, 2, 4⟩ : Interp).step)).map
        (fun k => callOf (wrapOffset (⟨fun _ => BLACK, 0, 2, 4⟩ : Interp).offset)
          (stepAt scenarioScript ⟨0, 0, 0, 0, 0, 0⟩ k)) ∧
      st1.step = scriptCount scenarioScript ∧
      ∀ oob', ∃ st2 s0, tick scenarioScript oob' st1 = some (st2, []) ∧
        scenarioScript[0]? = some s0 ∧
        st2.step = 0 ∧ st2.wait = s0.wait ∧ st2.colorMap = st1.colorMap :=
  c5_last_step_then_wrap scenarioScript ⟨0, 0, 0, 0, 0, 0⟩ ⟨fun _ => BLACK, 0, 2, 4⟩
    (by decide) rfl (by decide)
    (by
      intro k h1 h2
      have h3 : scriptCount scenarioScript = 3 := by decide
      have h4 : 2 < k := h1
      omega)

/-! ## The interpreter: control flow without the buffer -/

/-- A tick returns when every `y2` of the table is below `65535`; its calls and the control part
of its result are those computed without the buffer, and the buffer it leaves is the result of
its calls. -/
theorem tick_ctrl (script : List Step) (oob : Step) (st : Interp)
    (hy : ∀ k, k < scriptCount script → (stepAt script oob k).y2 < 65535) :
    ∃ st', tick script oob st = some (st', tickCalls script oob st.ctrl) ∧
      st'.ctrl = ctrlTick script oob st.ctrl ∧
      replay (tickCalls script oob st.ctrl) st.colorMap = some st'.colorMap := by
  by_cases hi : st.step < scriptCount script
  · by_cases hw : st.wait = 0
    · obtain ⟨m', htick, hrep⟩ := tick_draw script oob st hy hw hi
      refine ⟨⟨m', (stepAt script oob (chainEnd script oob 256 st.step)).wait,
        chainEnd script oob 256 st.step, (wrapOffset st.offset + 4) % 256⟩, ?_, ?_, ?_⟩
      · rw [htick]
        simp only [tickCalls, Interp.ctrl, hi, hw, and_self, if_true]
      · simp only [Interp.ctrl, ctrlTick, hi, hw, if_true]
      · simp only [tickCalls, Interp.ctrl, hi, hw, and_self, if_true]
        exact hrep
    · refine ⟨⟨st.colorMap, (st.wait + 65535) % 65536, st.step, wrapOffset st.offset⟩,
        ?_, ?_, ?_⟩
      · simp only [tick, tickCalls, Interp.ctrl, hi, hw, and_false, if_true, if_false]
      · simp only [Interp.ctrl, ctrlTick, hi, hw, if_true, if_false]
      · simp only [tickCalls, Interp.ctrl, hi, hw, and_false, if_false, replay]
  · refine ⟨⟨st.colorMap, (stepAt script oob 0).wait, 0, wrapOffset st.offset⟩, ?_, ?_, ?_⟩
    · simp only [tick, tickCalls, Interp.ctrl, hi, false_and, if_false]
    · simp only [Interp.ctrl, ctrlTick, hi, if_false]
    · simp only [tickCalls, Interp.ctrl, hi, false_and, if_false, replay]

/-- A run of ticks returns when the fields of the table fit their C types; the calls of its
ticks and the control part of its result are those computed without the buffer. -/
theorem runTicks_ctrl (script : List Step) (hfit : ∀ s ∈ script, s.fits) :
    ∀ (oobs : List Step) (st : Interp),
      ∃ st', runTicks script oobs st = some (st', ctrlLog script oobs st.ctrl) ∧
        st'.ctrl = ctrlRun script oobs st.ctrl := by
  intro oobs
  induction oobs with
  | nil => intro st; exact ⟨st, rfl, rfl⟩
  | cons oob oobs ih =>
    intro st
    obtain ⟨st1, h1, hc1, -⟩ := tick_ctrl script oob st (fits_y2 script oob hfit)
    obtain ⟨st2, h2, hc2⟩ := ih st1
    refine ⟨st2, ?_, ?_⟩
    · simp only [runTicks, h1, h2, ctrlLog, hc1]
    · simp only [ctrlRun, hc2, hc1]

theorem scenarioScript_fits : ∀ s ∈ scenarioScript, s.fits := by decide

set_option maxRecDepth 100000 in
theorem steps_fits : ∀ s ∈ steps, s.fits := by decide

set_option maxRecDepth 100000 in
theorem count_eq : count = 171 := by decide

/-- The end of a chain is determined by the waits of the table: it is the only `j` above `i`, at
most `count`, with `j = count` or `steps[j].wait ≠ 0` and with no such index between. -/
theorem chainEnd_eq (script : List Step) (oob : Step) (i j : Nat) (hi : i < j)
    (hj : j ≤ scriptCount script)
    (hz : ∀ k, i < k → k < j → (stepAt script oob k).wait = 0)
    (hend : j = scriptCount script ∨ (stepAt script oob j).wait ≠ 0) :
    chainEnd script oob 256 i = j := by
  have hc := scriptCount_lt script
  obtain ⟨h1, h2, h3, h4⟩ := chainEnd_spec script oob 256 i (by omega) (by omega)
  rcases Nat.lt_trichotomy (chainEnd script oob 256 i) j with hlt | heq | hgt
  · rcases h3 with h | h
    · omega
    · exact absurd (hz _ h1 hlt) h
  · exact heq
  · rcases hend with h | h
    · omega
    · exact absurd (h4 j hi hgt) h

/-- The end of a chain does not depend on what lies after the table. -/
theorem chainEnd_oob_irrel (script : List Step) (oob oob' : Step) (i : Nat)
    (hi : i < scriptCount script) :
    chainEnd script oob 256 i = chainEnd script oob' 256 i := by
  have hc := scriptCount_lt script
  obtain ⟨h1, h2, h3, h4⟩ := chainEnd_spec script oob' 256 i hi (by omega)
  apply chainEnd_eq script oob i _ h1 h2
  · intro k hk1 hk2
    rw [stepAt_oob_irrel script oob oob' k (by omega)]
    exact h4 k hk1 hk2
  · rcases h3 with h | h
    · left; exact h
    · by_cases hlt : chainEnd script oob' 256 i < scriptCount script
      · right
        rw [stepAt_oob_irrel script oob oob' _ hlt]
        exact h
      · left; omega

/-- The calls of a tick do not depend on what lies after the table. -/
theorem tickCalls_agree (script : List Step) (oob oob' : Step) (c c' : Nat × Nat × Nat)
    (h : CtrlAgree script c c') : tickCalls script oob c = tickCalls script oob' c' := by
  obtain ⟨s, w, o⟩ := c
  obtain ⟨s', w', o'⟩ := c'
  obtain ⟨h1, h2, h3⟩ := h
  simp only at h1 h2 h3
  subst h1 h2
  by_cases hi : s < scriptCount script
  · have hw := h3 hi
    subst hw
    by_cases hw0 : w = 0
    · have hc := scriptCount_lt script
      obtain ⟨-, hle, -, -⟩ := chainEnd_spec script oob' 256 s hi (by omega)
      simp only [tickCalls, hi, hw0, and_self, if_true,
        chainEnd_oob_irrel script oob oob' s hi]
      apply List.map_congr_left
      intro k hk
      rw [List.mem_range'_1] at hk
      rw [stepAt_oob_irrel script oob oob' k (by omega)]
    · simp only [tickCalls, hw0, and_false, if_false]
  · simp only [tickCalls, hi, false_and, if_false]

/-- A tick keeps two control parts in agreement, whatever lies after the table. -/
theorem ctrlTick_agree (script : List Step) (oob oob' : Step) (c c' : Nat × Nat × Nat)
    (h : CtrlAgree script c c') :
    CtrlAgree script (ctrlTick script oob c) (ctrlTick script oob' c') := by
  obtain ⟨s, w, o⟩ := c
  obtain ⟨s', w', o'⟩ := c'
  obtain ⟨h1, h2, h3⟩ := h
  simp only at h1 h2 h3
  subst h1 h2
  by_cases hi : s < scriptCount script
  · have hw := h3 hi
    subst hw
    by_cases hw0 : w = 0
    · simp only [ctrlTick, hi, hw0, if_true, chainEnd_oob_irrel script oob oob' s hi]
      refine ⟨rfl, rfl, ?_⟩
      intro hlt
      exact congrArg Step.wait (stepAt_oob_irrel script oob oob' _ hlt)
    · simp only [ctrlTick, hi, hw0, if_true, if_false]
      exact ⟨rfl, rfl, fun _ => rfl⟩
  · simp only [ctrlTick, hi, if_false]
    refine ⟨rfl, rfl, ?_⟩
    intro hlt
    exact congrArg Step.wait (stepAt_oob_irrel script oob oob' 0 hlt)

/-- The calls of a run do not depend on what lies after the table, and the control parts of two
runs of the same length stay in agreement. -/
theorem ctrlRun_agree (script : List Step) (oob' : Step) :
    ∀ (oobs : List Step) (c c' : Nat × Nat × Nat), CtrlAgree script c c' →
      ctrlLog script oobs c = ctrlLog script (List.replicate oobs.length oob') c' ∧
      CtrlAgree script (ctrlRun script oobs c)
        (ctrlRun script (List.replicate oobs.length oob') c') := by
  intro oobs
  induction oobs with
  | nil => intro c c' h; exact ⟨rfl, h⟩
  | cons oob oobs ih =>
    intro c c' h
    obtain ⟨hl, hr⟩ := ih _ _ (ctrlTick_agree script oob oob' c c' h)
    refine ⟨?_, ?_⟩
    · simp only [ctrlLog, List.length_cons, List.replicate_succ, hl,
        tickCalls_agree script oob oob' c c' h]
    · simp only [ctrlRun, List.length_cons, List.replicate_succ]
      exact hr

theorem CtrlAgree.refl (script : List Step) (c : Nat × Nat × Nat) : CtrlAgree script c c :=
  ⟨rfl, rfl, fun _ => rfl⟩

theorem CtrlAgree.eq_of_lt (script : List Step) (c c' : Nat × Nat × Nat)
    (h : CtrlAgree script c c') (hlt : c'.1 < scriptCount script) : c = c' := by
  obtain ⟨s, w, o⟩ := c
  obtain ⟨s', w', o'⟩ := c'
  obtain ⟨h1, h2, h3⟩ := h
  simp only at h1 h2 h3 hlt
  subst h1 h2
  rw [h3 hlt]

/-- A run from the startup state returns; its control part and calls are those computed without
the buffer. -/
theorem runTicks_init (script : List Step) (hfit : ∀ s ∈ script, s.fits) (oobs : List Step) :
    (runTicks script oobs Interp.init).map (fun r => (r.1.ctrl, r.2)) =
      some (ctrlRun script oobs (0, 0, 0), ctrlLog script oobs (0, 0, 0)) := by
  obtain ⟨st', h, hc⟩ := runTicks_ctrl script hfit oobs Interp.init
  rw [h, Option.map_some', hc]
  rfl

/-- The calls of a run of `n` ticks are those of the run in which every read past the end of
the table finds `z`. -/
theorem ctrlLog_const (script : List Step) (z : Step) (n : Nat) (oobs : List Step)
    (c : Nat × Nat × Nat) (h : oobs.length = n) :
    ctrlLog script oobs c = ctrlLog script (List.replicate n z) c := by
  subst h
  exact (ctrlRun_agree script z oobs c c (CtrlAgree.refl script c)).1

/-- The control part after a run of `n` ticks is that of the run in which every read past the
end of the table finds `z`, when that run does not end with `step` past the end. -/
theorem ctrlRun_const (script : List Step) (z : Step) (n : Nat) (oobs : List Step)
    (c : Nat × Nat × Nat) (h : oobs.length = n)
    (hlt : (ctrlRun script (List.replicate n z) c).1 < scriptCount script) :
    ctrlRun script oobs c = ctrlRun script (List.replicate n z) c := by
  subst h
  exact CtrlAgree.eq_of_lt script _ _
    (ctrlRun_agree script z oobs c c (CtrlAgree.refl script c)).2 hlt

/-- C6, counterexample: from the startup state (`wait = 0`) the first tick of the scenario script
makes two calls of `paintArea` and leaves `wait = 3`; it does not draw nothing and leave
`wait = 1`. -/
theorem c6_first_tick_draws_counterexample :
    (tick scenarioScript ⟨0, 0, 0, 0, 0, 0⟩ Interp.init).map (fun r => (r.1.wait, r.2)) =
      some (3, [⟨0, 0, 59, 59, 0⟩, ⟨0, 0, 0, 0, 7⟩]) := by
  decide

/-- C6, amended: running the scenario script from the startup state, whatever the reads past the
end of the table find: tick 1 executes the clear and the colour-7 step and leaves `wait = 3`;
ticks 2, 3 and 4 make no call and count `wait` down to `0`; tick 5 executes the colour-9 step, at
offset `4`, and leaves `step = 3` past the end of the script; tick 6 makes no call and returns
`step` to `0`, with `wait = 2`.  Each line gives `(step, wait, offset)` and the calls of every
tick so far. -/
theorem c6_scenario_trace (o1 o2 o3 o4 o5 o6 : Step) :
    (runTicks scenarioScript [o1] Interp.init).map (fun r => (r.1.ctrl, r.2)) =
      some ((2, 3, 4), [[⟨0, 0, 59, 59, 0⟩, ⟨0, 0, 0, 0, 7⟩]]) ∧
    (runTicks scenarioScript [o1, o2] Interp.init).map (fun r => (r.1.ctrl, r.2)) =
      some ((2, 2, 4), [[⟨0, 0, 59, 59, 0⟩, ⟨0, 0, 0, 0, 7⟩], []]) ∧
    (runTicks scenarioScript [o1, o2, o3] Interp.init).map (fun r => (r.1.ctrl, r.2)) =
      some ((2, 1, 4), [[⟨0, 0, 59, 59, 0⟩, ⟨0, 0, 0, 0, 7⟩], [], []]) ∧
    (runTicks scenarioScript [o1, o2, o3, o4] Interp.init).map (fun r => (r.1.ctrl, r.2)) =
      some ((2, 0, 4), [[⟨0, 0, 59, 59, 0⟩, ⟨0, 0, 0, 0, 7⟩], [], [], []]) ∧
    (runTicks scenarioScript [o1, o2, o3, o4, o5] Interp.init).map (fun r => (r.1.ctrl, r.2)) =
      some ((3, o5.wait, 8),
        [[⟨0, 0, 59, 59, 0⟩, ⟨0, 0, 0, 0, 7⟩], [], [], [], [⟨5, 1, 5, 1, 9⟩]]) ∧
    (runTicks scenarioScript [o1, o2, o3, o4, o5, o6] Interp.init).map
        (fun r => (r.1.ctrl, r.2)) =
      some ((0, 2, 8),
        [[⟨0, 0, 59, 59, 0⟩, ⟨0, 0, 0, 0, 7⟩], [], [], [], [⟨5, 1, 5, 1, 9⟩], []]) := by
  have h4 : ctrlRun scenarioScript [o1, o2, o3, o4] (0, 0, 0) = (2, 0, 4) := by
    rw [ctrlRun_const scenarioScript ⟨0, 0, 0, 0, 0, 0⟩ 4 [o1, o2, o3, o4] _ rfl (by decide)]; decide
  have h5 : ctrlRun scenarioScript [o1, o2, o3, o4, o5] (0, 0, 0) = (3, o5.wait, 8) := by
    have hsplit : ctrlRun scenarioScript [o1, o2, o3, o4, o5] (0, 0, 0) =
        ctrlTick scenarioScript o5 (ctrlRun scenarioScript [o1, o2, o3, o4] (0, 0, 0)) := rfl
    have he : chainEnd scenarioScript o5 256 2 = 3 := by
      rw [chainEnd_oob_irrel scenarioScript o5 ⟨0, 0, 0, 0, 0, 0⟩ 2 (by decide)]; decide
    rw [hsplit, h4]
    have hlt : (2 : Nat) < scriptCount scenarioScript := by decide
    simp only [ctrlTick, hlt, if_true, he]
    rfl
  refine ⟨?_, ?_, ?_, ?_, ?_, ?_⟩
  · rw [runTicks_init _ scenarioScript_fits,
      ctrlLog_const scenarioScript ⟨0, 0, 0, 0, 0, 0⟩ 1 [o1] _ rfl,
      ctrlRun_const scenarioScript ⟨0, 0, 0, 0, 0, 0⟩ 1 [o1] _ rfl (by decide)]
    decide
  · rw [runTicks_init _ scenarioScript_fits,
      ctrlLog_const scenarioScript ⟨0, 0, 0, 0, 0, 0⟩ 2 [o1, o2] _ rfl,
      ctrlRun_const scenarioScript ⟨0, 0, 0, 0, 0, 0⟩ 2 [o1, o2] _ rfl (by decide)]
    decide
  · rw [runTicks_init _ scenarioScript_fits,
      ctrlLog_const scenarioScript ⟨0, 0, 0, 0, 0, 0⟩ 3 [o1, o2, o3] _ rfl,
      ctrlRun_const scenarioScript ⟨0, 0, 0, 0, 0, 0⟩ 3 [o1, o2, o3] _ rfl (by decide)]
    decide
  · rw [runTicks_init _ scenarioScript_fits,
      ctrlLog_const scenarioScript ⟨0, 0, 0, 0, 0, 0⟩ 4 [o1, o2, o3, o4] _ rfl,
      ctrlRun_const scenarioScript ⟨0, 0, 0, 0, 0, 0⟩ 4 [o1, o2, o3, o4] _ rfl (by decide)]
    decide
  · rw [runTicks_init _ scenarioScript_fits,
      ctrlLog_const scenarioScript ⟨0, 0, 0, 0, 0, 0⟩ 5 [o1, o2, o3, o4, o5] _ rfl, h5]
    have hl : ctrlLog scenarioScript (List.replicate 5 ⟨0, 0, 0, 0, 0, 0⟩) (0, 0, 0) =
        [[⟨0, 0, 59, 59, 0⟩, ⟨0, 0, 0, 0, 7⟩], [], [], [], [⟨5, 1, 5, 1, 9⟩]] := by decide
    rw [hl]
  · rw [runTicks_init _ scenarioScript_fits,
      ctrlLog_const scenarioScript ⟨0, 0, 0, 0, 0, 0⟩ 6 [o1, o2, o3, o4, o5, o6] _ rfl,
      ctrlRun_const scenarioScript ⟨0, 0, 0, 0, 0, 0⟩ 6 [o1, o2, o3, o4, o5, o6] _ rfl (by decide)]
    decide

/-! ## The shipped script: its three frames and its cycle -/

theorem ctrlTick_wait (script : List Step) (oob : Step) (s w o : Nat)
    (hi : s < scriptCount script) (hw : 0 < w) (hw16 : w < 65536) :
    ctrlTick script oob (s, w, o) = (s, w - 1, wrapOffset o) := by
  have hne : ¬ w = 0 := by omega
  have hdec : (w + 65535) % 65536 = w - 1 := by omega
  simp only [ctrlTick, hi, hne, if_true, if_false, hdec]

theorem ctrlTick_draw (script : List Step) (oob : Step) (s o : Nat)
    (hi : s < scriptCount script) :
    ctrlTick script oob (s, 0, o) =
      (chainEnd script oob 256 s, (stepAt script oob (chainEnd script oob 256 s)).wait,
        (wrapOffset o + 4) % 256) := by
  simp only [ctrlTick, hi, if_true]

theorem ctrlTick_wrap (script : List Step) (oob : Step) (s w o : Nat)
    (hi : ¬ s < scriptCount script) :
    ctrlTick script oob (s, w, o) = (0, (stepAt script oob 0).wait, wrapOffset o) := by
  simp only [ctrlTick, hi, if_false]

theorem scriptCount_steps : scriptCount steps = 171 := count_eq

set_option maxRecDepth 100000 in
/-- The steps of the shipped script with a nonzero wait are steps `0`, `54` and `109`. -/
theorem steps_wait_zero :
    ∀ k, k < 171 → k ≠ 0 → k ≠ 54 → k ≠ 109 →
      (stepAt steps ⟨0, 0, 0, 0, 0, 0⟩ k).wait = 0 := by
  decide

set_option maxRecDepth 100000 in
theorem steps_wait_eight :
    (stepAt steps ⟨0, 0, 0, 0, 0, 0⟩ 0).wait = 8 ∧ (stepAt steps ⟨0, 0, 0, 0, 0, 0⟩ 54).wait = 8 ∧
      (stepAt steps ⟨0, 0, 0, 0, 0, 0⟩ 109).wait = 8 := by
  decide

theorem steps_wait_at (oob : Step) (k : Nat) (hk : k < 171) :
    (stepAt steps oob k).wait = (stepAt steps ⟨0, 0, 0, 0, 0, 0⟩ k).wait := by
  rw [stepAt_oob_irrel steps oob ⟨0, 0, 0, 0, 0, 0⟩ k (by rw [scriptCount_steps]; exact hk)]

/-- The chain of the first frame of the shipped script runs from step `0` to step `54`. -/
theorem chainEnd_steps_0 (oob : Step) : chainEnd steps oob 256 0 = 54 := by
  apply chainEnd_eq steps oob 0 54 (by omega) (by rw [scriptCount_steps]; omega)
  · intro k h1 h2
    rw [steps_wait_at oob k (by omega)]
    exact steps_wait_zero k (by omega) (by omega) (by omega) (by omega)
  · right
    rw [steps_wait_at oob 54 (by omega), steps_wait_eight.2.1]
    omega

/-- The chain of the second frame runs from step `54` to step `109`. -/
theorem chainEnd_steps_54 (oob : Step) : chainEnd steps oob 256 54 = 109 := by
  apply chainEnd_eq steps oob 54 109 (by omega) (by rw [scriptCount_steps]; omega)
  · intro k h1 h2
    rw [steps_wait_at oob k (by omega)]
    exact steps_wait_zero k (by omega) (by omega) (by omega) (by omega)
  · right
    rw [steps_wait_at oob 109 (by omega), steps_wait_eight.2.2]
    omega

/-- The chain of the third frame runs from step `109` to the end of the table. -/
theorem chainEnd_steps_109 (oob : Step) : chainEnd steps oob 256 109 = 171 := by
  apply chainEnd_eq steps oob 109 171 (by omega) (by rw [scriptCount_steps])
  · intro k h1 h2
    rw [steps_wait_at oob k (by omega)]
    exact steps_wait_zero k (by omega) (by omega) (by omega) (by omega)
  · left
    rw [scriptCount_steps]

theorem phaseStep_a (r : Nat) (h1 : 1 ≤ r) (h2 : r ≤ 9) : phaseStep r = 54 := by
  unfold phaseStep; rw [if_neg (by omega), if_pos h2]

theorem phaseStep_b (r : Nat) (h1 : 10 ≤ r) (h2 : r ≤ 18) : phaseStep r = 109 := by
  unfold phaseStep; rw [if_neg (by omega), if_neg (by omega), if_pos h2]

theorem phaseStep_c (r : Nat) (h1 : 20 ≤ r) : phaseStep r = 0 := by
  unfold phaseStep; rw [if_neg (by omega), if_neg (by omega), if_neg (by omega),
    if_neg (by omega)]

theorem phaseWait_a (r : Nat) (h1 : 1 ≤ r) (h2 : r ≤ 9) : phaseWait r = 9 - r := by
  unfold phaseWait; rw [if_neg (by omega), if_pos h2]

theorem phaseWait_b (r : Nat) (h1 : 10 ≤ r) (h2 : r ≤ 18) : phaseWait r = 18 - r := by
  unfold phaseWait; rw [if_neg (by omega), if_neg (by omega), if_pos h2]

theorem phaseWait_c (r : Nat) (h1 : 20 ≤ r) : phaseWait r = 28 - r := by
  unfold phaseWait; rw [if_neg (by omega), if_neg (by omega), if_neg (by omega)]

/-- One tick of the shipped script moves the control part one tick on in the cycle. -/
theorem phase_tick (oob : Step) (c : Nat × Nat × Nat) (r : Nat) (hr : r < 28)
    (h : PhaseOk r c) : PhaseOk ((r + 1) % 28) (ctrlTick steps oob c) := by
  obtain ⟨s, w, o⟩ := c
  obtain ⟨hs, hw⟩ := h
  simp only at hs hw
  have hcases : r = 0 ∨ (1 ≤ r ∧ r ≤ 8) ∨ r = 9 ∨ (10 ≤ r ∧ r ≤ 17) ∨ r = 18 ∨ r = 19 ∨
      (20 ≤ r ∧ r ≤ 27) := by omega
  have h171 : (stepAt steps oob 0).wait = 8 := by
    rw [steps_wait_at oob 0 (by omega)]; exact steps_wait_eight.1
  have h54 : (stepAt steps oob 54).wait = 8 := by
    rw [steps_wait_at oob 54 (by omega)]; exact steps_wait_eight.2.1
  have h109 : (stepAt steps oob 109).wait = 8 := by
    rw [steps_wait_at oob 109 (by omega)]; exact steps_wait_eight.2.2
  rcases hcases with h0 | h1 | h9 | h10 | h18 | h19 | h20
  · subst h0
    have hw0 : w = 0 := hw (by omega)
    have hs0 : s = 0 := hs
    subst hw0 hs0
    rw [ctrlTick_draw steps oob 0 o (by rw [scriptCount_steps]; omega), chainEnd_steps_0, h54]
    exact ⟨rfl, fun _ => rfl⟩
  · have hs' : s = 54 := by rw [hs, phaseStep_a r (by omega) (by omega)]
    have hw' : w = 9 - r := by rw [hw (by omega), phaseWait_a r (by omega) (by omega)]
    subst hs'
    rw [ctrlTick_wait steps oob 54 w o (by rw [scriptCount_steps]; omega) (by omega)
      (by omega)]
    have hm : (r + 1) % 28 = r + 1 := by omega
    rw [hm]
    refine ⟨?_, fun _ => ?_⟩
    · show 54 = phaseStep (r + 1)
      rw [phaseStep_a (r + 1) (by omega) (by omega)]
    · show w - 1 = phaseWait (r + 1)
      rw [phaseWait_a (r + 1) (by omega) (by omega)]; omega
  · subst h9
    have hw0 : w = 0 := hw (by omega)
    have hs0 : s = 54 := hs
    subst hw0 hs0
    rw [ctrlTick_draw steps oob 54 o (by rw [scriptCount_steps]; omega), chainEnd_steps_54,
      h109]
    exact ⟨rfl, fun _ => rfl⟩
  · have hs' : s = 109 := by rw [hs, phaseStep_b r (by omega) (by omega)]
    have hw' : w = 18 - r := by rw [hw (by omega), phaseWait_b r (by omega) (by omega)]
    subst hs'
    rw [ctrlTick_wait steps oob 109 w o (by rw [scriptCount_steps]; omega) (by omega)
      (by omega)]
    have hm : (r + 1) % 28 = r + 1 := by omega
    rw [hm]
    refine ⟨?_, fun _ => ?_⟩
    · show 109 = phaseStep (r + 1)
      rw [phaseStep_b (r + 1) (by omega) (by omega)]
    · show w - 1 = phaseWait (r + 1)
      rw [phaseWait_b (r + 1) (by omega) (by omega)]; omega
  · subst h18
    have hw0 : w = 0 := hw (by omega)
    have hs0 : s = 109 := hs
    subst hw0 hs0
    rw [ctrlTick_draw steps oob 109 o (by rw [scriptCount_steps]; omega), chainEnd_steps_109]
    exact ⟨rfl, fun hne => absurd rfl hne⟩
  · subst h19
    have hs0 : s = 171 := hs
    subst hs0
    rw [ctrlTick_wrap steps oob 171 w o (by rw [scriptCount_steps]; omega), h171]
    exact ⟨rfl, fun _ => rfl⟩
  · have hs' : s = 0 := by rw [hs, phaseStep_c r (by omega)]
    have hw' : w = 28 - r := by rw [hw (by omega), phaseWait_c r (by omega)]
    subst hs'
    rw [ctrlTick_wait steps oob 0 w o (by rw [scriptCount_steps]; omega) (by omega)
      (by omega)]
    rcases Nat.lt_or_ge r 27 with hlt | hge
    · have hm : (r + 1) % 28 = r + 1 := by omega
      rw [hm]
      refine ⟨?_, fun _ => ?_⟩
      · show 0 = phaseStep (r + 1)
        rw [phaseStep_c (r + 1) (by omega)]
      · show w - 1 = phaseWait (r + 1)
        rw [phaseWait_c (r + 1) (by omega)]; omega
    · have hr27 : r = 27 := by omega
      subst hr27
      refine ⟨rfl, fun _ => ?_⟩
      show w - 1 = phaseWait ((27 + 1) % 28)
      have : phaseWait ((27 + 1) % 28) = 0 := rfl
      rw [this]; omega

/-- After a run of the shipped script the control part is the one of the cycle, the length of the
run further on. -/
theorem phase_run : ∀ (oobs : List Step) (c : Nat × Nat × Nat) (r : Nat), r < 28 →
    PhaseOk r c → PhaseOk ((r + oobs.length) % 28) (ctrlRun steps oobs c) := by
  intro oobs
  induction oobs with
  | nil =>
    intro c r hr h
    have hm : (r + ([] : List Step).length) % 28 = r := by
      simp only [List.length_nil]; omega
    rw [hm]; exact h
  | cons oob oobs ih =>
    intro c r hr h
    have h1 := phase_tick oob c r hr h
    have h2 := ih (ctrlTick steps oob c) ((r + 1) % 28) (Nat.mod_lt _ (by omega)) h1
    have hm : ((r + 1) % 28 + oobs.length) % 28 = (r + (oob :: oobs).length) % 28 := by
      simp only [List.length_cons]; omega
    rw [hm] at h2
    exact h2

/-! ## C7: the cycle of the shipped script -/

set_option maxRecDepth 100000 in
/-- C7, counterexample: the waits of the shipped script sum to `24`, and `24` ticks after startup
the interpreter is at `step = 0` with `wait = 4`, not with the `wait = 0` it started with. -/
theorem c7_after_24_ticks_counterexample :
    (steps.map Step.wait).sum = 24 ∧
      (runTicks steps (List.replicate 24 ⟨0, 0, 0, 0, 0, 0⟩) Interp.init).map
        (fun r => (r.1.step, r.1.wait)) = some (0, 4) ∧
      Interp.init.wait = 0 := by
  decide

/-- C7, amended: with the shipped script every run from the startup state returns; after a number
of ticks that is a multiple of `28` (the wait sum `24`, the three drawing ticks and the wrapping
tick) the interpreter is back at `step = 0` with the `wait = 0` it started with; after two runs
whose lengths agree modulo `28` the values of `step` agree, and so do the values of `wait` unless
that length is `19` modulo `28`, right after the tick that executes the last step, when `wait`
holds what was read past the end of the table. -/
theorem c7_cycle_of_28_ticks (oobs oobs' : List Step)
    (h : oobs.length % 28 = oobs'.length % 28) :
    ∃ st logs st' logs',
      runTicks steps oobs Interp.init = some (st, logs) ∧
      runTicks steps oobs' Interp.init = some (st', logs') ∧
      (oobs.length % 28 = 0 → st.step = 0 ∧ st.wait = Interp.init.wait) ∧
      st.step = st'.step ∧ (oobs.length % 28 ≠ 19 → st.wait = st'.wait) := by
  obtain ⟨st, hrun, hc⟩ := runTicks_ctrl steps steps_fits oobs Interp.init
  obtain ⟨st', hrun', hc'⟩ := runTicks_ctrl steps steps_fits oobs' Interp.init
  have h0 : PhaseOk 0 Interp.init.ctrl := ⟨rfl, fun _ => rfl⟩
  have hp := phase_run oobs Interp.init.ctrl 0 (by omega) h0
  have hp' := phase_run oobs' Interp.init.ctrl 0 (by omega) h0
  rw [← hc, Nat.zero_add] at hp
  rw [← hc', Nat.zero_add, ← h] at hp'
  refine ⟨st, _, st', _, hrun, hrun', ?_, ?_, ?_⟩
  · intro hz
    rw [hz] at hp
    exact ⟨hp.1, hp.2 (by omega)⟩
  · exact hp.1.trans hp'.1.symm
  · intro hne
    exact (hp.2 hne).trans (hp'.2 hne).symm

/-- C7, witness: a run of `28` ticks compared with the empty run. -/
theorem c7_cycle_of_28_ticks_witness :
    ∃ st logs st' logs',
      runTicks steps (List.replicate 28 ⟨0, 0, 0, 0, 0, 0⟩) Interp.init = some (st, logs) ∧
      runTicks steps [] Interp.init = some (st', logs') ∧
      ((List.replicate 28 (⟨0, 0, 0, 0, 0, 0⟩ : Step)).length % 28 = 0 →
        st.step = 0 ∧ st.wait = Interp.init.wait) ∧
      st.step = st'.step ∧
      ((List.replicate 28 (⟨0, 0, 0, 0, 0, 0⟩ : Step)).length % 28 ≠ 19 →
        st.wait = st'.wait) :=
  c7_cycle_of_28_ticks (List.replicate 28 ⟨0, 0, 0, 0, 0, 0⟩) [] (by decide)

/-! ## The offset along a run -/

/-- A tick entered with `step < count` and `wait = 0` makes at least one call, each the call of
a step of the table at the wrapped offset. -/
theorem tickCalls_draw (script : List Step) (oob : Step) (c : Nat × Nat × Nat)
    (hi : c.1 < scriptCount script) (hw : c.2.1 = 0) :
    (tickCalls script oob c).isEmpty = false ∧
      ∀ call ∈ tickCalls script oob c, ∃ s ∈ script, call = callOf (wrapOffset c.2.2) s := by
  have hc := scriptCount_lt script
  obtain ⟨h1, h2, -, -⟩ := chainEnd_spec script oob 256 c.1 hi (by omega)
  simp only [tickCalls, hi, hw, and_self, if_true]
  refine ⟨?_, ?_⟩
  · rw [show chainEnd script oob 256 c.1 - c.1 = (chainEnd script oob 256 c.1 - c.1 - 1) + 1
      by omega]
    rfl
  · intro call hcall
    rw [List.mem_map] at hcall
    obtain ⟨k, hk, rfl⟩ := hcall
    rw [List.mem_range'_1] at hk
    exact ⟨_, stepAt_mem script oob k (by omega), rfl⟩

/-- A tick that is not entered with `step < count` and `wait = 0` makes no call. -/
theorem tickCalls_idle (script : List Step) (oob : Step) (c : Nat × Nat × Nat)
    (h : ¬ (c.1 < scriptCount script ∧ c.2.1 = 0)) : tickCalls script oob c = [] := by
  simp only [tickCalls, h, if_false]

/-- The offset after a tick: the wrapped offset plus `4` on a tick entered with `step < count`
and `wait = 0`, the wrapped offset on another tick. -/
theorem ctrlTick_offset (script : List Step) (oob : Step) (c : Nat × Nat × Nat) :
    (ctrlTick script oob c).2.2 =
      if c.1 < scriptCount script ∧ c.2.1 = 0 then (wrapOffset c.2.2 + 4) % 256
      else wrapOffset c.2.2 := by
  by_cases hi : c.1 < scriptCount script
  · by_cases hw : c.2.1 = 0
    · simp only [ctrlTick, hi, hw, and_self, if_true]
    · simp only [ctrlTick, hi, hw, and_false, if_true, if_false]
  · simp only [ctrlTick, hi, false_and, if_false]

/-- Along a run that starts with `d` drawing ticks behind it, at wrapped offset `4 * (d % 15)`,
the `k`-th drawing tick makes the calls of steps of the table at offset `4 * ((d + k) % 15)`,
and the wrapped offset at the end is `4 * ((d + n) % 15)` for `n` drawing ticks in the run. -/
theorem offset_run (script : List Step) :
    ∀ (oobs : List Step) (c : Nat × Nat × Nat) (d : Nat),
      wrapOffset c.2.2 = 4 * (d % 15) →
      (∀ k calls, (drawingTicks (ctrlLog script oobs c))[k]? = some calls →
        ∀ call ∈ calls, ∃ s ∈ script, call = callOf (4 * ((d + k) % 15)) s) ∧
      wrapOffset (ctrlRun script oobs c).2.2 =
        4 * ((d + (drawingTicks (ctrlLog script oobs c)).length) % 15) := by
  intro oobs
  induction oobs with
  | nil =>
    intro c d h
    refine ⟨?_, ?_⟩
    · intro k calls hk
      simp [drawingTicks, ctrlLog] at hk
    · simpa [drawingTicks, ctrlLog, ctrlRun] using h
  | cons oob oobs ih =>
    intro c d h
    by_cases hdraw : c.1 < scriptCount script ∧ c.2.1 = 0
    · obtain ⟨hne, hcalls⟩ := tickCalls_draw script oob c hdraw.1 hdraw.2
      have hoff : wrapOffset (ctrlTick script oob c).2.2 = 4 * ((d + 1) % 15) := by
        rw [ctrlTick_offset, if_pos hdraw, h]
        unfold wrapOffset
        split_ifs <;> omega
      obtain ⟨ih1, ih2⟩ := ih (ctrlTick script oob c) (d + 1) hoff
      have hlog : drawingTicks (ctrlLog script (oob :: oobs) c) =
          tickCalls script oob c ::
            drawingTicks (ctrlLog script oobs (ctrlTick script oob c)) := by
        simp only [drawingTicks, ctrlLog, List.filter_cons, hne, Bool.not_false, if_true]
      rw [hlog]
      refine ⟨?_, ?_⟩
      · intro k calls hk call hcall
        cases k with
        | zero =>
          simp only [List.getElem?_cons_zero, Option.some.injEq] at hk
          subst hk
          obtain ⟨s, hs, rfl⟩ := hcalls call hcall
          exact ⟨s, hs, by rw [h, Nat.add_zero]⟩
        | succ k =>
          simp only [List.getElem?_cons_succ] at hk
          obtain ⟨s, hs, rfl⟩ := ih1 k calls hk call hcall
          exact ⟨s, hs, by rw [show d + 1 + k = d + (k + 1) by omega]⟩
      · simp only [ctrlRun, List.length_cons]
        rw [ih2, show d + 1 + (drawingTicks (ctrlLog script oobs
          (ctrlTick script oob c))).length = d + ((drawingTicks (ctrlLog script oobs
          (ctrlTick script oob c))).length + 1) by omega]
    · have hnil := tickCalls_idle script oob c hdraw
      have hoff : wrapOffset (ctrlTick script oob c).2.2 = 4 * (d % 15) := by
        rw [ctrlTick_offset, if_neg hdraw]
        have : wrapOffset c.2.2 ≠ 60 := by omega
        rw [← h]
        generalize wrapOffset c.2.2 = o at this
        unfold wrapOffset
        rw [if_neg this]
      obtain ⟨ih1, ih2⟩ := ih (ctrlTick script oob c) d hoff
      have hlog : drawingTicks (ctrlLog script (oob :: oobs) c) =
          drawingTicks (ctrlLog script oobs (ctrlTick script oob c)) := by
        simp only [drawingTicks, ctrlLog, List.filter_cons, hnil, List.isEmpty_nil,
          Bool.not_true]
        rfl
      rw [hlog]
      exact ⟨ih1, by simp only [ctrlRun]; exact ih2⟩

/-! ## C8: the offset sequence -/

set_option maxRecDepth 100000 in
/-- The drawing ticks of the first `19` ticks of the shipped script: the three frames, at
offsets `0`, `4` and `8`. -/
theorem steps_first_pass :
    drawingTicks (ctrlLog steps (List.replicate 19 ⟨0, 0, 0, 0, 0, 0⟩) (0, 0, 0)) =
      [(steps.take 54).map (callOf 0), ((steps.drop 54).take 55).map (callOf 4),
        (steps.drop 109).map (callOf 8)] := by
  decide

/-- C8: for every script whose fields fit their C types, a run from the startup state returns;
the `k`-th tick of the run that draws (`k = 0, 1, 2, ...`) makes only calls of steps of the
script at horizontal offset `4 * (k mod 15)`; after the run the offset, with `60` read as `0`, is
`4 * (n mod 15)` for `n` the number of ticks that drew, so it advances once per drawing tick and
never on another tick; the next tick leaves the offset `4` higher when it draws and at the
wrapped value when it does not; the offset `60` is wrapped to `0`; and the drawing ticks of the
first `19` ticks of the shipped script are its three frames, at offsets `0`, `4` and `8`. -/
theorem c8_offset_sequence (script : List Step) (hfit : ∀ s ∈ script, s.fits)
    (oobs : List Step) :
    ∃ st logs, runTicks script oobs Interp.init = some (st, logs) ∧
      (∀ k calls, (drawingTicks logs)[k]? = some calls → ∀ c ∈ calls, ∃ s ∈ script,
        c = (⟨s.x1 + 4 * (k % 15), s.y1, s.x2 + 4 * (k % 15), s.y2, s.color⟩ : PaintCall)) ∧
      wrapOffset st.offset = 4 * ((drawingTicks logs).length % 15) ∧
      (∀ oob, ∃ st' calls, tick script oob st = some (st', calls) ∧
        st'.offset =
          if calls.isEmpty then wrapOffset st.offset else wrapOffset st.offset + 4) ∧
      wrapOffset 60 = 0 ∧
      (∀ oobs' : List Step, oobs'.length = 19 →
        ∃ st' logs', runTicks steps oobs' Interp.init = some (st', logs') ∧
          drawingTicks logs' =
            [(steps.take 54).map (callOf 0), ((steps.drop 54).take 55).map (callOf 4),
              (steps.drop 109).map (callOf 8)]) := by
  obtain ⟨st, hrun, hc⟩ := runTicks_ctrl script hfit oobs Interp.init
  obtain ⟨h1, h2⟩ := offset_run script oobs Interp.init.ctrl 0 rfl
  rw [← hc] at h2
  simp only [Nat.zero_add] at h1 h2
  have hoff : wrapOffset st.offset = 4 * ((drawingTicks
      (ctrlLog script oobs Interp.init.ctrl)).length % 15) := h2
  refine ⟨st, _, hrun, ?_, hoff, ?_, rfl, ?_⟩
  · intro k calls hk c hcin
    obtain ⟨s, hs, rfl⟩ := h1 k calls hk c hcin
    exact ⟨s, hs, rfl⟩
  · intro oob
    obtain ⟨st', htick, hc', -⟩ := tick_ctrl script oob st (fits_y2 script oob hfit)
    refine ⟨st', _, htick, ?_⟩
    have ho : st'.offset = (ctrlTick script oob st.ctrl).2.2 := by rw [← hc']; rfl
    rw [ho, ctrlTick_offset]
    by_cases hdraw : st.ctrl.1 < scriptCount script ∧ st.ctrl.2.1 = 0
    · rw [if_pos hdraw, (tickCalls_draw script oob st.ctrl hdraw.1 hdraw.2).1]
      have hw : wrapOffset st.ctrl.2.2 = wrapOffset st.offset := rfl
      rw [hw]
      simp only [Bool.false_eq_true, if_false]
      omega
    · rw [if_neg hdraw, tickCalls_idle script oob st.ctrl hdraw]
      rfl
  · intro oobs' hlen
    obtain ⟨st', hrun', -⟩ := runTicks_ctrl steps steps_fits oobs' Interp.init
    refine ⟨st', _, hrun', ?_⟩
    rw [ctrlLog_const steps ⟨0, 0, 0, 0, 0, 0⟩ 19 oobs' _ hlen]
    exact steps_first_pass

/-- C8, witness: the scenario script, run for six ticks. -/
theorem c8_offset_sequence_witness :
    ∃ st logs,
      runTicks scenarioScript (List.replicate 6 ⟨0, 0, 0, 0, 0, 0⟩) Interp.init =
        some (st, logs) ∧
      (∀ k calls, (drawingTicks logs)[k]? = some calls → ∀ c ∈ calls, ∃ s ∈ scenarioScript,
        c = (⟨s.x1 + 4 * (k % 15), s.y1, s.x2 + 4 * (k % 15), s.y2, s.color⟩ : PaintCall)) ∧
      wrapOffset st.offset = 4 * ((drawingTicks logs).length % 15) ∧
      (∀ oob, ∃ st' calls, tick scenarioScript oob st = some (st', calls) ∧
        st'.offset =
          if calls.isEmpty then wrapOffset st.offset else wrapOffset st.offset + 4) ∧
      wrapOffset 60 = 0 ∧
      (∀ oobs' : List Step, oobs'.length = 19 →
        ∃ st' logs', runTicks steps oobs' Interp.init = some (st', logs') ∧
          drawingTicks logs' =
            [(steps.take 54).map (callOf 0), ((steps.drop 54).take 55).map (callOf 4),
              (steps.drop 109).map (callOf 8)]) :=
  c8_offset_sequence scenarioScript (by decide) (List.replicate 6 ⟨0, 0, 0, 0, 0, 0⟩)

/-! ## C9: the columns of the shipped script under the offset -/

set_option maxRecDepth 1000000 in
/-- C9, counterexample: tick `131` of the shipped script is its fifteenth drawing tick and draws
at offset `56`; its first call is `paintArea(72, 10, 96, 45, BLACK)`, the clear step
`{16, 10, 40, 45}` moved by `56`, with both columns outside `[0, 60)`. -/
theorem c9_columns_leave_grid_counterexample :
    (runTicks steps (List.replicate 131 ⟨0, 0, 0, 0, 0, 0⟩) Interp.init).map
        (fun r => (r.2.getLast?.bind List.head?, (drawingTicks r.2).length)) =
      some (some ⟨72, 10, 96, 45, 0⟩, 15) ∧
      steps.head? = some ⟨16, 10, 40, 45, BLACK, 8⟩ ∧ ¬ (16 + 56 < 60) ∧ ¬ (40 + 56 < 60) := by
  decide

set_option maxRecDepth 100000 in
theorem steps_columns : ∀ s ∈ steps, 16 ≤ s.x1 ∧ s.x1 ≤ s.x2 ∧ s.x2 ≤ 40 := by
  decide

/-! ## C10: the raster routine -/

theorem vgaEvents_append (a b : List PortEvent) :
    vgaEvents (a ++ b) = vgaEvents a ++ vgaEvents b := by
  induction a with
  | nil => rfl
  | cons e a ih =>
    cases e <;> simp_all [vgaEvents]

/-- The unrolled output code writes the `n` bytes from `tile` on to the colour port, in order,
and leaves `tile` advanced by `n`. -/
theorem streamCells_spec (m : Mem) : ∀ (n tile : Nat), tile + n < 65536 →
    vgaEvents (streamCells m n tile).1 =
        (List.range' tile n).map (fun i => PortEvent.vgaOut (m i)) ∧
      (streamCells m n tile).2 = tile + n := by
  intro n
  induction n with
  | zero => intro tile _; exact ⟨rfl, rfl⟩
  | succ n ih =>
    intro tile h
    have hmod : (tile + 1) % 65536 = tile + 1 := Nat.mod_eq_of_lt (by omega)
    obtain ⟨h1, h2⟩ := ih (tile + 1) (by omega)
    refine ⟨?_, ?_⟩
    · simp only [streamCells, hmod, vgaEvents, h1, List.range'_succ, List.map_cons]
    · simp only [streamCells, hmod, h2]
      omega

/-- In every reachable state of the raster routine the scanline counter is at most `524` and
`tile` is the index of the first cell of the row of the scanline. -/
theorem raster_invariant (st : Raster) (h : st.Reachable) :
    st.line ≤ 524 ∧ st.tile = st.line / 8 * 60 := by
  induction h with
  | init => exact ⟨by decide, by decide⟩
  | step m st _ ih =>
    obtain ⟨hl, _⟩ := ih
    have hY : multY = 8 := by decide
    have hX : colorsX = 60 := by decide
    by_cases h524 : 524 = st.line
    · obtain ⟨line, tile⟩ := st
      simp only at h524
      subst h524
      have h1 : (rasterISR m ⟨524, tile⟩).1 = ⟨0, 0⟩ := rfl
      rw [h1]
      exact ⟨by decide, by decide⟩
    · have hlt : st.line < 524 := by omega
      have hmod : (st.line + 1) % 65536 = st.line + 1 := Nat.mod_eq_of_lt (by omega)
      simp only [rasterISR, h524, if_false, hmod, hY, hX]
      refine ⟨by omega, Nat.mod_eq_of_lt ?_⟩
      have : (st.line + 1) / 8 ≤ 65 := by omega
      omega

/-- C10: in every state of the raster routine reachable from startup the scanline counter is at
most `524`; an invocation entered with scanline `L < 480` writes to the colour port the `60` cells
of row `L / 8` in column order, which are the bytes `60 * (L / 8) .. 60 * (L / 8) + 59` of the
array of `3600`, and then blanks the colour lines; an invocation entered with `L ≥ 480` writes
nothing to the colour port; the invocation leaves `tile = (newLine / 8) * 60`, where the new
scanline is `L + 1`, or `0` when `L = 524`. -/
theorem c10_raster_streams_row (st : Raster) (hreach : st.Reachable) (m : Mem) :
    st.line ≤ 524 ∧
      (st.line < 480 →
        vgaEvents (rasterISR m st).2 =
          (List.range 60).map (fun x => PortEvent.vgaOut (cell m x (st.line / 8))) ++
            [PortEvent.vgaOutClr COLORS] ∧
        ∀ x, x < 60 → x + st.line / 8 * colorsX = 60 * (st.line / 8) + x ∧
          60 * (st.line / 8) + x < COLORS_T) ∧
      (480 ≤ st.line → vgaEvents (rasterISR m st).2 = []) ∧
      (rasterISR m st).1.line = (if st.line = 524 then 0 else st.line + 1) ∧
      (rasterISR m st).1.tile = (rasterISR m st).1.line / 8 * 60 := by
  obtain ⟨hl, ht⟩ := raster_invariant st hreach
  obtain ⟨-, hnext⟩ := raster_invariant _ (Raster.Reachable.step m st hreach)
  have hX : colorsX = 60 := by decide
  have hT : COLORS_T = 3600 := by decide
  refine ⟨hl, ?_, ?_, ?_, hnext⟩
  · intro hvis
    have h524 : ¬ 524 = st.line := by omega
    have h490 : ¬ 490 = st.line := by omega
    have h492 : ¬ 492 = st.line := by omega
    obtain ⟨hs, -⟩ := streamCells_spec m 60 st.tile (by omega)
    refine ⟨?_, ?_⟩
    · simp only [rasterISR, h524, h490, h492, hvis, if_true, if_false, vgaEvents_append,
        hs, List.append_nil]
      simp only [vgaEvents, List.nil_append]
      congr 1
      rw [List.range'_eq_map_range, List.map_map]
      apply List.map_congr_left
      intro x _
      simp only [Function.comp, cell, hX, ht]
      rw [Nat.add_comm]
    · intro x hx
      rw [hX, hT]
      constructor <;> omega
  · intro hinv
    have hvis : ¬ st.line < 480 := by omega
    by_cases h524 : 524 = st.line
    · obtain ⟨line, tile⟩ := st
      simp only at h524
      subst h524
      rfl
    · by_cases h490 : 490 = st.line
      · obtain ⟨line, tile⟩ := st
        simp only at h490
        subst h490
        rfl
      · by_cases h492 : 492 = st.line
        · obtain ⟨line, tile⟩ := st
          simp only at h492
          subst h492
          rfl
        · simp only [rasterISR, h524, h490, h492, hvis, if_false, vgaEvents_append]
          rfl
  · by_cases h524 : 524 = st.line
    · obtain ⟨line, tile⟩ := st
      simp only at h524
      subst h524
      rfl
    · have hmod : (st.line + 1) % 65536 = st.line + 1 := Nat.mod_eq_of_lt (by omega)
      have hne : ¬ st.line = 524 := fun h => h524 h.symm
      simp only [rasterISR, h524, hne, if_false, hmod]

/-- C10, witness: the first invocation after startup. -/
theorem c10_raster_streams_row_witness :
    Raster.init.line ≤ 524 ∧
      (Raster.init.line < 480 →
        vgaEvents (rasterISR (fun _ => BLACK) Raster.init).2 =
          (List.range 60).map
              (fun x => PortEvent.vgaOut (cell (fun _ => BLACK) x (Raster.init.line / 8))) ++
            [PortEvent.vgaOutClr COLORS] ∧
        ∀ x, x < 60 → x + Raster.init.line / 8 * colorsX = 60 * (Raster.init.line / 8) + x ∧
          60 * (Raster.init.line / 8) + x < COLORS_T) ∧
      (480 ≤ Raster.init.line → vgaEvents (rasterISR (fun _ => BLACK) Raster.init).2 = []) ∧
      (rasterISR (fun _ => BLACK) Raster.init).1.line =
        (if Raster.init.line = 524 then 0 else Raster.init.line + 1) ∧
      (rasterISR (fun _ => BLACK) Raster.init).1.tile =
        (rasterISR (fun _ => BLACK) Raster.init).1.line / 8 * 60 :=
  c10_raster_streams_row Raster.init Raster.Reachable.init (fun _ => BLACK)

/-! ## C11: vertical sync -/

theorem syncEvents_append (a b : List PortEvent) :
    syncEvents (a ++ b) = syncEvents a ++ syncEvents b := by
  induction a with
  | nil => rfl
  | cons e a ih =>
    cases e <;> simp_all [syncEvents]

/-- The register of the sync port only depends on the writes to the sync port. -/
theorem syncPortAfter_syncEvents (events : List PortEvent) :
    ∀ sync, syncPortAfter sync events = syncPortAfter sync (syncEvents events) := by
  induction events with
  | nil => intro sync; rfl
  | cons e es ih =>
    intro sync
    cases e <;> simp only [syncPortAfter, List.foldl_cons, syncEvents, syncPort] <;>
      exact ih _

/-- The unrolled output code does not write to the sync port. -/
theorem streamCells_syncEvents (m : Mem) : ∀ (n tile : Nat),
    syncEvents (streamCells m n tile).1 = [] := by
  intro n
  induction n with
  | zero => intro tile; rfl
  | succ n ih =>
    intro tile
    simp only [streamCells, syncEvents, ih]

/-- The writes of one invocation to the sync port: the horizontal pulse, then the assertion of
vertical sync on scanline `490` and its deassertion on scanline `492`. -/
theorem rasterISR_syncEvents (m : Mem) (st : Raster) :
    syncEvents (rasterISR m st).2 =
      [PortEvent.syncOutClr HSYNC, PortEvent.syncOutSet HSYNC] ++
        (if st.line = 490 then [PortEvent.syncOutClr VSYNC] else []) ++
        (if st.line = 492 then [PortEvent.syncOutSet VSYNC] else []) := by
  obtain ⟨line, tile⟩ := st
  by_cases h524 : line = 524
  · subst h524; rfl
  · by_cases h490 : line = 490
    · subst h490; rfl
    · by_cases h492 : line = 492
      · subst h492; rfl
      · have a1 : ¬ 524 = line := fun h => h524 h.symm
        have a2 : ¬ 490 = line := fun h => h490 h.symm
        have a3 : ¬ 492 = line := fun h => h492 h.symm
        by_cases hvis : line < 480
        · simp only [rasterISR, a1, a2, a3, h490, h492, hvis, if_true, if_false,
            syncEvents_append, streamCells_syncEvents, List.append_nil]
          rfl
        · simp only [rasterISR, a1, a2, a3, h490, h492, hvis, if_false,
            syncEvents_append, List.append_nil]
          rfl

set_option maxRecDepth 100000 in
theorem syncPort_lemmas :
    ∀ p, p < 256 →
      ((p ||| VSYNC) ||| HSYNC) < 256 ∧ ¬ vsyncAsserted ((p ||| VSYNC) ||| HSYNC) ∧
      ((p &&& (255 ^^^ HSYNC)) ||| HSYNC) < 256 ∧
      (vsyncAsserted ((p &&& (255 ^^^ HSYNC)) ||| HSYNC) ↔ vsyncAsserted p) ∧
      (((p &&& (255 ^^^ HSYNC)) ||| HSYNC) &&& (255 ^^^ VSYNC)) < 256 ∧
      vsyncAsserted (((p &&& (255 ^^^ HSYNC)) ||| HSYNC) &&& (255 ^^^ VSYNC)) ∧
      (((p &&& (255 ^^^ HSYNC)) ||| HSYNC) ||| VSYNC) < 256 ∧
      ¬ vsyncAsserted (((p &&& (255 ^^^ HSYNC)) ||| HSYNC) ||| VSYNC) := by
  decide

/-- The scanline counter after an invocation: one more, and `0` after `524`. -/
theorem rasterISR_line (m : Mem) (st : Raster) (h : st.line ≤ 524) :
    (rasterISR m st).1.line = (st.line + 1) % 525 := by
  obtain ⟨line, tile⟩ := st
  by_cases h524 : line = 524
  · subst h524
    have h1 : (rasterISR m ⟨524, tile⟩).1 = ⟨0, 0⟩ := rfl
    rw [h1]
    show (0 : Nat) = (524 + 1) % 525
    decide
  · have a1 : ¬ 524 = line := fun h => h524 h.symm
    have h' : line ≤ 524 := h
    have hmod : (line + 1) % 65536 = line + 1 := Nat.mod_eq_of_lt (by omega)
    simp only [rasterISR, a1, if_false, hmod]
    omega

/-- The register of the sync port after an invocation, from the register before. -/
theorem rasterISR_syncPort (m : Mem) (st : Raster) (p : Nat) :
    syncPortAfter p (rasterISR m st).2 =
      if st.line = 490 then ((p &&& (255 ^^^ HSYNC)) ||| HSYNC) &&& (255 ^^^ VSYNC)
      else if st.line = 492 then ((p &&& (255 ^^^ HSYNC)) ||| HSYNC) ||| VSYNC
      else (p &&& (255 ^^^ HSYNC)) ||| HSYNC := by
  rw [syncPortAfter_syncEvents, rasterISR_syncEvents]
  by_cases h490 : st.line = 490
  · have h492 : ¬ st.line = 492 := by omega
    simp only [h490, h492, if_true, if_false]
    rfl
  · by_cases h492 : st.line = 492
    · simp only [h490, h492, if_true, if_false]
      rfl
    · simp only [h490, h492, if_false]
      rfl

/-- The invariant of the raster routine with the sync port: the counter is at most `524`, the
register fits 8 bits, and vertical sync is asserted exactly on entry to scanlines `491` and
`492`. -/
theorem rasterRun_invariant :
    ∀ (ms : List Mem) (s : Raster × Nat),
      (s.1.line ≤ 524 ∧ s.2 < 256 ∧ (vsyncAsserted s.2 ↔ s.1.line = 491 ∨ s.1.line = 492)) →
      ((rasterRun ms s).1.line ≤ 524 ∧ (rasterRun ms s).2 < 256 ∧
        (vsyncAsserted (rasterRun ms s).2 ↔
          (rasterRun ms s).1.line = 491 ∨ (rasterRun ms s).1.line = 492)) ∧
      (rasterRun ms s).1.line = (s.1.line + ms.length) % 525 := by
  intro ms
  induction ms with
  | nil =>
    intro s h
    refine ⟨h, ?_⟩
    simp only [rasterRun, List.length_nil, Nat.add_zero]
    omega
  | cons m ms ih =>
    intro s h
    obtain ⟨hl, hp8, hv⟩ := h
    obtain ⟨q1, q2, q3, q4, q5, q6, q7, q8⟩ := syncPort_lemmas s.2 hp8
    have hline := rasterISR_line m s.1 hl
    have hport := rasterISR_syncPort m s.1 s.2
    have hnext : ((rasterISR m s.1).1.line ≤ 524 ∧
        syncPortAfter s.2 (rasterISR m s.1).2 < 256 ∧
        (vsyncAsserted (syncPortAfter s.2 (rasterISR m s.1).2) ↔
          (rasterISR m s.1).1.line = 491 ∨ (rasterISR m s.1).1.line = 492)) := by
      rw [hport]
      by_cases h490 : s.1.line = 490
      · rw [if_pos h490]
        exact ⟨by omega, q5, ⟨fun _ => by omega, fun _ => q6⟩⟩
      · by_cases h492 : s.1.line = 492
        · rw [if_neg h490, if_pos h492]
          exact ⟨by omega, q7, ⟨fun h => absurd h q8, fun h => by omega⟩⟩
        · rw [if_neg h490, if_neg h492]
          refine ⟨by omega, q3, ?_⟩
          rw [q4, hv]
          constructor <;> intro h <;> omega
    obtain ⟨ih1, ih2⟩ := ih ((rasterISR m s.1).1, syncPortAfter s.2 (rasterISR m s.1).2) hnext
    refine ⟨ih1, ?_⟩
    simp only [rasterRun, List.length_cons]
    rw [ih2, hline]
    omega

/-- C11: from startup, with the sync lines as `initVGA` leaves them, the scanline counter after
`n` invocations is `n mod 525`, so it cycles through `0 .. 524` with period `525`; the writes of
an invocation to the sync port are the horizontal pulse, one assertion of vertical sync exactly
when it is entered with scanline `490`, and one deassertion exactly when it is entered with
scanline `492`; and at the end of an invocation entered with scanline `L` vertical sync is
asserted if and only if `L` is `490` or `491`. -/
theorem c11_vsync_one_pulse_per_frame (ms : List Mem) (p0 : Nat) (hp : p0 < 256) (m : Mem) :
    (rasterRun ms (Raster.init, initVGA p0)).1.line = ms.length % 525 ∧
      (rasterISR m (rasterRun ms (Raster.init, initVGA p0)).1).1.line =
        ((rasterRun ms (Raster.init, initVGA p0)).1.line + 1) % 525 ∧
      syncEvents (rasterISR m (rasterRun ms (Raster.init, initVGA p0)).1).2 =
        [PortEvent.syncOutClr HSYNC, PortEvent.syncOutSet HSYNC] ++
          (if (rasterRun ms (Raster.init, initVGA p0)).1.line = 490
            then [PortEvent.syncOutClr VSYNC] else []) ++
          (if (rasterRun ms (Raster.init, initVGA p0)).1.line = 492
            then [PortEvent.syncOutSet VSYNC] else []) ∧
      (vsyncAsserted (syncPortAfter (rasterRun ms (Raster.init, initVGA p0)).2
          (rasterISR m (rasterRun ms (Raster.init, initVGA p0)).1).2) ↔
        (rasterRun ms (Raster.init, initVGA p0)).1.line = 490 ∨
          (rasterRun ms (Raster.init, initVGA p0)).1.line = 491) := by
  obtain ⟨q1, q2, -⟩ := syncPort_lemmas p0 hp
  have hinit : ((Raster.init, initVGA p0) : Raster × Nat).1.line ≤ 524 ∧
      ((Raster.init, initVGA p0) : Raster × Nat).2 < 256 ∧
      (vsyncAsserted ((Raster.init, initVGA p0) : Raster × Nat).2 ↔
        ((Raster.init, initVGA p0) : Raster × Nat).1.line = 491 ∨
          ((Raster.init, initVGA p0) : Raster × Nat).1.line = 492) := by
    refine ⟨Nat.zero_le _, q1, ⟨fun h => absurd h q2, fun h => ?_⟩⟩
    have h0 : ((Raster.init, initVGA p0) : Raster × Nat).1.line = 0 := rfl
    omega
  obtain ⟨⟨hl, hp8, hv⟩, hlen⟩ := rasterRun_invariant ms _ hinit
  obtain ⟨-, -, q3, q4, q5, q6, q7, q8⟩ := syncPort_lemmas _ hp8
  refine ⟨?_, rasterISR_line m _ hl, rasterISR_syncEvents m _, ?_⟩
  · rw [hlen]
    have h0 : ((Raster.init, initVGA p0) : Raster × Nat).1.line = 0 := rfl
    rw [h0, Nat.zero_add]
  · rw [rasterISR_syncPort]
    by_cases h490 : (rasterRun ms (Raster.init, initVGA p0)).1.line = 490
    · rw [if_pos h490]
      exact ⟨fun _ => Or.inl h490, fun _ => q6⟩
    · by_cases h492 : (rasterRun ms (Raster.init, initVGA p0)).1.line = 492
      · rw [if_neg h490, if_pos h492]
        exact ⟨fun h => absurd h q8, fun h => by omega⟩
      · rw [if_neg h490, if_neg h492, q4, hv]
        constructor <;> intro h <;> omega

/-- C11, witness: the first invocation after startup, from the register value `0`. -/
theorem c11_vsync_one_pulse_per_frame_witness :
    (rasterRun [] (Raster.init, initVGA 0)).1.line = ([] : List Mem).length % 525 ∧
      (rasterISR (fun _ => BLACK) (rasterRun [] (Raster.init, initVGA 0)).1).1.line =
        ((rasterRun [] (Raster.init, initVGA 0)).1.line + 1) % 525 ∧
      syncEvents (rasterISR (fun _ => BLACK) (rasterRun [] (Raster.init, initVGA 0)).1).2 =
        [PortEvent.syncOutClr HSYNC, PortEvent.syncOutSet HSYNC] ++
          (if (rasterRun [] (Raster.init, initVGA 0)).1.line = 490
            then [PortEvent.syncOutClr VSYNC] else []) ++
          (if (rasterRun [] (Raster.init, initVGA 0)).1.line = 492
            then [PortEvent.syncOutSet VSYNC] else []) ∧
      (vsyncAsserted (syncPortAfter (rasterRun [] (Raster.init, initVGA 0)).2
          (rasterISR (fun _ => BLACK) (rasterRun [] (Raster.init, initVGA 0)).1).2) ↔
        (rasterRun [] (Raster.init, initVGA 0)).1.line = 490 ∨
          (rasterRun [] (Raster.init, initVGA 0)).1.line = 491) :=
  c11_vsync_one_pulse_per_frame [] 0 (by decide) (fun _ => BLACK)

/-! ## C12: the cells hold colour bits only -/

/-- A masked colour has no other bit than the six colour bits. -/
theorem masked_bits (color : Nat) :
    ((COLORS &&& color) % 256) &&& 0xCF = (COLORS &&& color) % 256 := by
  rw [masked_lt, COLORS_eq, Nat.and_comm (207 &&& color) 0xCF, ← Nat.and_assoc]
  rfl

/-- The row loop leaves in every byte its old value or the masked colour. -/
theorem paintRows_values (x1 y2 color x : Nat) :
    ∀ (fuel y1 : Nat) (m m' : Mem), paintRows x1 y2 color x fuel y1 m = some m' →
      ∀ i, m' i = m i ∨ m' i = (COLORS &&& color) % 256 := by
  intro fuel
  induction fuel with
  | zero => intro y1 m m' h; simp [paintRows] at h
  | succ n ih =>
    intro y1 m m' h i
    by_cases hle : y1 ≤ y2
    · simp only [paintRows, hle, if_true] at h
      rcases ih _ _ _ h i with h1 | h1
      · rw [h1]
        simp only [memset]
        split
        · right; rfl
        · left; rfl
      · right; exact h1
    · simp only [paintRows, hle, if_false, Option.some.injEq] at h
      left; rw [h]

/-- In every buffer reachable from startup every cell of the array has no other bit than the six
colour bits. -/
theorem gridReachable_masked (m : Mem) (h : GridReachable m) :
    ∀ i, i < COLORS_T → m i &&& 0xCF = m i := by
  induction h with
  | start m0 =>
    intro i hi
    have hc : colors = 3600 := by decide
    have hT : COLORS_T = 3600 := by decide
    have hin : 0 ≤ i ∧ i < 0 + colors := by rw [hc]; omega
    simp only [memset, hin, and_self, if_true]
    rfl
  | paint m0 x y color _ ih =>
    intro i hi
    simp only [paint]
    split
    · exact masked_bits color
    · exact ih i hi
  | paintArea m0 m' x1 y1 x2 y2 color _ hrun ih =>
    intro i hi
    rcases paintRows_values _ _ _ _ _ _ _ _ hrun i with h1 | h1
    · rw [h1]; exact ih i hi
    · rw [h1]; exact masked_bits color

/-- A value written to the colour port by the unrolled output code is one of the `n` bytes from
`tile` on. -/
theorem streamCells_mem (m : Mem) (v : Nat) : ∀ (n tile : Nat), tile + n < 65536 →
    PortEvent.vgaOut v ∈ (streamCells m n tile).1 → ∃ i, tile ≤ i ∧ i < tile + n ∧ v = m i := by
  intro n
  induction n with
  | zero => intro tile _ h; simp [streamCells] at h
  | succ n ih =>
    intro tile hlt h
    have hmod : (tile + 1) % 65536 = tile + 1 := Nat.mod_eq_of_lt (by omega)
    simp only [streamCells, hmod, List.mem_cons, PortEvent.vgaOut.injEq] at h
    rcases h with h | h | h
    · exact ⟨tile, le_refl _, by omega, h⟩
    · exact absurd h (by simp)
    · obtain ⟨i, h1, h2, h3⟩ := ih (tile + 1) (by omega) h
      exact ⟨i, by omega, by omega, h3⟩

/-- A value written to the colour port by an invocation of the raster routine in a reachable
state is the value of a cell of the array. -/
theorem rasterISR_vgaOut (m : Mem) (st : Raster) (hreach : st.Reachable) (v : Nat)
    (h : PortEvent.vgaOut v ∈ (rasterISR m st).2) : ∃ i, i < COLORS_T ∧ v = m i := by
  obtain ⟨hl, ht⟩ := raster_invariant st hreach
  have hT : COLORS_T = 3600 := by decide
  by_cases h524 : 524 = st.line
  · have hev : (rasterISR m st).2 = [PortEvent.delay front_porch, PortEvent.syncOutClr HSYNC,
        PortEvent.delay hsync_pulse, PortEvent.syncOutSet HSYNC, PortEvent.delay back_porch]
        ++ (if 490 = st.line then [PortEvent.syncOutClr VSYNC] else [])
        ++ (if 492 = st.line then [PortEvent.syncOutSet VSYNC] else []) := by
      unfold rasterISR
      rw [if_pos h524]
    rw [hev] at h
    have h490 : ¬ 490 = st.line := by omega
    have h492 : ¬ 492 = st.line := by omega
    rw [if_neg h490, if_neg h492] at h
    simp at h
  · have hev : (rasterISR m st).2 = [PortEvent.delay front_porch, PortEvent.syncOutClr HSYNC,
        PortEvent.delay hsync_pulse, PortEvent.syncOutSet HSYNC, PortEvent.delay back_porch]
        ++ (if 490 = st.line then [PortEvent.syncOutClr VSYNC] else [])
        ++ (if 492 = st.line then [PortEvent.syncOutSet VSYNC] else [])
        ++ (if st.line < 480 then
            ((streamCells m 60 st.tile).1 ++ [PortEvent.delay 18, PortEvent.vgaOutClr COLORS],
              (streamCells m 60 st.tile).2)
          else ([], st.tile)).1 := by
      unfold rasterISR
      rw [if_neg h524]
    rw [hev] at h
    by_cases hvis : st.line < 480
    · rw [if_pos hvis] at h
      have hmem : PortEvent.vgaOut v ∈ (streamCells m 60 st.tile).1 := by
        simp only [List.mem_append, List.mem_cons, List.mem_singleton] at h
        rcases h with ((h | h) | h) | h
        · exact absurd h (by simp)
        · split at h <;> simp at h
        · split at h <;> simp at h
        · rcases h with h | h
          · exact h
          · simp at h
      obtain ⟨i, h1, h2, h3⟩ := streamCells_mem m v 60 st.tile (by omega) hmem
      exact ⟨i, by rw [hT]; omega, h3⟩
    · rw [if_neg hvis] at h
      simp only [List.mem_append, List.mem_cons, List.mem_singleton, List.append_nil] at h
      rcases h with (h | h) | h
      · exact absurd h (by simp)
      · split at h <;> simp at h
      · split at h <;> simp at h

/-- C12: in every buffer reachable from startup (the array filled with `BLACK`) by calls of
`paint` and `paintArea` with any arguments, every cell `v` of the array has `v & 0xCF = v`, that
is, bits 4 and 5 (and every bit above bit 7) are zero; so every value that the raster routine, in
a state reachable from its startup, writes from the buffer to the colour port has no other bit
than the six colour bits. -/
theorem c12_cells_hold_colour_bits (m : Mem) (h : GridReachable m) :
    (∀ i, i < COLORS_T →
      m i &&& 0xCF = m i ∧ (m i).testBit 4 = false ∧ (m i).testBit 5 = false) ∧
    (∀ st : Raster, st.Reachable → ∀ v, PortEvent.vgaOut v ∈ (rasterISR m st).2 →
      v &&& 0xCF = v) := by
  have key := gridReachable_masked m h
  refine ⟨?_, ?_⟩
  · intro i hi
    have hk := key i hi
    refine ⟨hk, ?_, ?_⟩
    · rw [← hk, Nat.testBit_and]
      have : (0xCF : Nat).testBit 4 = false := by decide
      rw [this, Bool.and_false]
    · rw [← hk, Nat.testBit_and]
      have : (0xCF : Nat).testBit 5 = false := by decide
      rw [this, Bool.and_false]
  · intro st hreach v hv
    obtain ⟨i, hi, rfl⟩ := rasterISR_vgaOut m st hreach v hv
    exact key i hi

/-- C12, witness: the buffer after startup, from memory full of `0xFF`, and `paint(1, 1, 0xFF)`. -/
theorem c12_cells_hold_colour_bits_witness :
    (∀ i, i < COLORS_T →
      paint (memset (fun _ => 0xFF) 0 BLACK colors) 1 1 0xFF i &&& 0xCF =
          paint (memset (fun _ => 0xFF) 0 BLACK colors) 1 1 0xFF i ∧
        (paint (memset (fun _ => 0xFF) 0 BLACK colors) 1 1 0xFF i).testBit 4 = false ∧
        (paint (memset (fun _ => 0xFF) 0 BLACK colors) 1 1 0xFF i).testBit 5 = false) ∧
    (∀ st : Raster, st.Reachable → ∀ v,
      PortEvent.vgaOut v ∈
        (rasterISR (paint (memset (fun _ => 0xFF) 0 BLACK colors) 1 1 0xFF) st).2 →
      v &&& 0xCF = v) :=
  c12_cells_hold_colour_bits _
    (GridReachable.paint _ 1 1 0xFF (GridReachable.start (fun _ => 0xFF)))

/-! ## C13: the timing of a scanline -/

theorem floor_FRONT_PORCH : ⌊FRONT_PORCH⌋ = 37 := by
  rw [Int.floor_eq_iff]; unfold FRONT_PORCH F_CPU; constructor <;> norm_num

theorem floor_HSYNC_PULSE : ⌊HSYNC_PULSE⌋ = 241 := by
  rw [Int.floor_eq_iff]; unfold HSYNC_PULSE F_CPU; constructor <;> norm_num

theorem floor_BACK_PORCH : ⌊BACK_PORCH⌋ = 62 := by
  rw [Int.floor_eq_iff]; unfold BACK_PORCH F_CPU; constructor <;> norm_num

theorem floor_VISIBLE_AREA : ⌊VISIBLE_AREA⌋ = 1627 := by
  rw [Int.floor_eq_iff]; unfold VISIBLE_AREA F_CPU; constructor <;> norm_num

theorem floor_WHOLE_LINE : ⌊WHOLE_LINE⌋ = 2033 := by
  rw [Int.floor_eq_iff]; unfold WHOLE_LINE F_CPU; constructor <;> norm_num

/-- C13: at `F_CPU = 64000000`, in exact arithmetic, the stored constants are the macros
truncated to integers, `front_porch = 37`, `hsync_pulse = 241`, `back_porch = 62`, and the value
written to the period register of the line timer is `WHOLE_LINE` truncated, `2033`; the effective
front porch `37 + 3`, sync pulse `241 + 3` and back porch `62 + 60`, plus `VISIBLE_AREA` truncated,
`1627`, sum exactly to that value. -/
theorem c13_timing_closure :
    F_CPU = 64000000 ∧
      (front_porch : ℤ) = ⌊FRONT_PORCH⌋ ∧ (hsync_pulse : ℤ) = ⌊HSYNC_PULSE⌋ ∧
      (back_porch : ℤ) = ⌊BACK_PORCH⌋ ∧ (TCC1_PER : ℤ) = ⌊WHOLE_LINE⌋ ∧
      (⌊FRONT_PORCH⌋ + 3) + (⌊HSYNC_PULSE⌋ + 3) + (⌊BACK_PORCH⌋ + 60) + ⌊VISIBLE_AREA⌋
        = ⌊WHOLE_LINE⌋ ∧
      ((front_porch + 3) + (hsync_pulse + 3) + (back_porch + 60) : ℤ) + ⌊VISIBLE_AREA⌋
        = TCC1_PER ∧
      TCC1_PER = 2033 := by
  have h1 : front_porch = 37 := by decide
  have h2 : hsync_pulse = 241 := by decide
  have h3 : back_porch = 62 := by decide
  have h4 : TCC1_PER = 2033 := by decide
  rw [floor_FRONT_PORCH, floor_HSYNC_PULSE, floor_BACK_PORCH, floor_VISIBLE_AREA,
    floor_WHOLE_LINE, h1, h2, h3, h4]
  refine ⟨rfl, ?_, ?_, ?_, ?_, ?_, ?_, rfl⟩ <;> norm_num

/-! ## C14: filling a single cell -/

/-- C14: for every buffer, every cell `(x, y)` with `x < 60` and `y < 60` and every colour `C`,
the call `paintArea(x, y, x, y, C)` returns and leaves exactly the buffer that `paint(x, y, C)`
leaves. -/
theorem c14_single_cell_fill_is_paint (m : Mem) (x y C : Nat) (hx : x < 60) (hy : y < 60) :
    paintArea m x y x y C = some (paint m x y C) := by
  obtain ⟨m', hrun, hspec⟩ := paintArea_spec m x y x y C (le_refl _) hx (le_refl _) (by omega)
  rw [hrun]
  congr 1
  funext i
  have hX : colorsX = 60 := by decide
  have hidx : (x + y * 60) % 65536 = x + y * 60 := Nat.mod_eq_of_lt (by omega)
  rw [hspec i]
  simp only [paint, hX, hidx, masked_lt]
  by_cases hi : i = x + y * 60
  · have hm : i % 60 = x := by omega
    have hd : i / 60 = y := by omega
    rw [if_pos ⟨by omega, by omega, by omega, by omega⟩, if_pos hi]
  · have hne : ¬ (x ≤ i % 60 ∧ i % 60 ≤ x ∧ y ≤ i / 60 ∧ i / 60 ≤ y) := by
      rintro ⟨h1, h2, h3, h4⟩
      apply hi
      have hm : i % 60 = x := by omega
      have hd : i / 60 = y := by omega
      omega
    rw [if_neg hne, if_neg hi]

/-- C14, witness: the cell `(1, 1)` of the all-zero buffer, colour `0xFF`. -/
theorem c14_single_cell_fill_is_paint_witness :
    paintArea (fun _ => 0) 1 1 1 1 0xFF = some (paint (fun _ => 0) 1 1 0xFF) :=
  c14_single_cell_fill_is_paint (fun _ => 0) 1 1 0xFF (by decide) (by decide)

/-! ## The cycles of the paths of the raster routine -/

theorem eventCycles_append (c : CycleTable) (a b : List PortEvent) :
    eventCycles c (a ++ b) = eventCycles c a + eventCycles c b := by
  induction a with
  | nil => simp [eventCycles]
  | cons e a ih =>
    have ih' : eventCycles c (a.append b) = eventCycles c a + eventCycles c b := ih
    cases e <;> simp only [List.cons_append, eventCycles] <;> omega

/-- The cycles of the unrolled output code: `n` cell outputs, each with its wait of `2`. -/
theorem streamCells_cycles (c : CycleTable) (m : Mem) : ∀ (n tile : Nat),
    eventCycles c (streamCells m n tile).1 = n * (c.cellOut + 2) := by
  intro n
  induction n with
  | zero => intro tile; simp [streamCells, eventCycles]
  | succ n ih =>
    intro tile
    simp only [streamCells, eventCycles, ih]
    rw [Nat.succ_mul]
    omega

/-- The cycles of the events of an invocation on a visible scanline. -/
theorem rasterISR_cycles_visible (c : CycleTable) (m : Mem) (st : Raster)
    (h : st.line < 480) :
    eventCycles c (rasterISR m st).2 =
      front_porch + c.syncClr + hsync_pulse + c.syncSet + back_porch +
        60 * (c.cellOut + 2) + 18 + c.blank := by
  have a1 : ¬ 524 = st.line := by omega
  have a2 : ¬ 490 = st.line := by omega
  have a3 : ¬ 492 = st.line := by omega
  simp only [rasterISR, a1, a2, a3, h, if_true, if_false, eventCycles_append,
    streamCells_cycles, List.append_nil]
  simp only [eventCycles]
  omega

/-- The cycles of the events of an invocation on a scanline that is neither visible nor one of
`490`, `492`. -/
theorem rasterISR_cycles_blank (c : CycleTable) (m : Mem) (st : Raster)
    (h : 480 ≤ st.line) (h490 : st.line ≠ 490) (h492 : st.line ≠ 492) :
    eventCycles c (rasterISR m st).2 =
      front_porch + c.syncClr + hsync_pulse + c.syncSet + back_porch := by
  have a2 : ¬ 490 = st.line := fun h => h490 h.symm
  have a3 : ¬ 492 = st.line := fun h => h492 h.symm
  have a4 : ¬ st.line < 480 := by omega
  by_cases a1 : 524 = st.line
  · obtain ⟨line, tile⟩ := st
    simp only at a1
    subst a1
    simp only [rasterISR, if_true, eventCycles_append]
    simp [eventCycles]
    omega
  · simp only [rasterISR, a1, a2, a3, a4, if_false, eventCycles_append, List.append_nil]
    simp only [eventCycles]
    omega

/-- For a table of cycles in which the failing test `line < 480` does not take `138` cycles more
than the succeeding one, the invocation entered with scanline `0` and the invocation entered with
scanline `481` do not take the same number of cycles. -/
theorem rasterCycles_differ_of_test_bound :
    ¬ ∃ c : CycleTable, c.testVisibleSkipped < c.testVisibleTaken + 138 ∧
      rasterCycles c (fun _ => BLACK) ⟨0, 0⟩ = rasterCycles c (fun _ => BLACK) ⟨481, 3600⟩ := by
  rintro ⟨c, hskew, heq⟩
  have h1 := rasterISR_cycles_visible c (fun _ => BLACK) ⟨0, 0⟩ (by decide)
  have h2 := rasterISR_cycles_blank c (fun _ => BLACK) ⟨481, 3600⟩ (by decide) (by decide)
    (by decide)
  simp only [rasterCycles, h1, h2] at heq
  have e1 : ¬ (490 = (0 : Nat)) := by decide
  have e2 : ¬ (492 = (0 : Nat)) := by decide
  have e3 : ¬ (524 = (0 : Nat)) := by decide
  have e4 : (0 : Nat) < 480 := by decide
  have f1 : ¬ (490 = (481 : Nat)) := by decide
  have f2 : ¬ (492 = (481 : Nat)) := by decide
  have f3 : ¬ (524 = (481 : Nat)) := by decide
  have f4 : ¬ ((481 : Nat) < 480) := by decide
  simp only [e1, e2, e3, e4, f1, f2, f3, f4, if_true, if_false] at heq
  omega

/-- For every table of cycles, an invocation on a visible scanline takes the cycles of an
invocation on a scanline that is not visible and not one of `490`, `492`, `524`, with the
succeeding test `line < 480` in place of the failing one, plus those of `60` cell outputs with
their waits of `2` cycles, of the wait of `18` cycles and of the blanking write; so it takes
longer when the failing test does not take `138` cycles more than the succeeding one.  The value
`2033` is the period written to the line timer. -/
theorem rasterCycles_visible_blank (c : CycleTable) (m m' : Mem) (st st' : Raster)
    (hvis : st.line < 480) (hblank : 480 ≤ st'.line) (h490 : st'.line ≠ 490)
    (h492 : st'.line ≠ 492) (h524 : st'.line ≠ 524) :
    rasterCycles c m st + c.testVisibleSkipped =
        rasterCycles c m' st' + c.testVisibleTaken + 60 * (c.cellOut + 2) + 18 + c.blank ∧
      (c.testVisibleSkipped < c.testVisibleTaken + 138 →
        rasterCycles c m' st' < rasterCycles c m st) ∧
      TCC1_PER = 2033 := by
  have h1 := rasterISR_cycles_visible c m st hvis
  have h2 := rasterISR_cycles_blank c m' st' hblank h490 h492
  have e1 : ¬ (490 = st.line) := by omega
  have e2 : ¬ (492 = st.line) := by omega
  have e3 : ¬ (524 = st.line) := by omega
  have f1 : ¬ (490 = st'.line) := fun h => h490 h.symm
  have f2 : ¬ (492 = st'.line) := fun h => h492 h.symm
  have f3 : ¬ (524 = st'.line) := fun h => h524 h.symm
  have f4 : ¬ (st'.line < 480) := by omega
  have key : rasterCycles c m st + c.testVisibleSkipped =
      rasterCycles c m' st' + c.testVisibleTaken + 60 * (c.cellOut + 2) + 18 + c.blank := by
    simp only [rasterCycles, h1, h2, e1, e2, e3, hvis, f1, f2, f3, f4, if_true, if_false]
    omega
  refine ⟨key, ?_, by decide⟩
  intro hskew
  omega

/-- The source does not settle whether the paths take the same number of cycles: with `138`
cycles for the failing test `line < 480` and none for any other statement, the invocations
entered with scanlines `0` and `481` take `478` cycles each; with `3` cycles for a port write,
`9` or `10` for a test and `12` for the update of `line`, as the comments of the source note,
they take different numbers of cycles. -/
theorem rasterCycles_depend_on_table :
    (∃ c : CycleTable,
        rasterCycles c (fun _ => BLACK) ⟨0, 0⟩ = rasterCycles c (fun _ => BLACK) ⟨481, 3600⟩) ∧
      (∃ c : CycleTable,
        rasterCycles c (fun _ => BLACK) ⟨0, 0⟩ ≠ rasterCycles c (fun _ => BLACK) ⟨481, 3600⟩) := by
  refine ⟨⟨⟨0, 0, 0, 0, 0, 0, 0, 0, 0, 0, 0, 138, 0, 0, 0, 0⟩, ?_⟩,
    ⟨⟨30, 3, 3, 9, 9, 10, 10, 10, 10, 20, 9, 9, 20, 3, 12, 30⟩, ?_⟩⟩
  · have h1 := rasterISR_cycles_visible ⟨0, 0, 0, 0, 0, 0, 0, 0, 0, 0, 0, 138, 0, 0, 0, 0⟩
      (fun _ => BLACK) ⟨0, 0⟩ (by decide)
    have h2 := rasterISR_cycles_blank ⟨0, 0, 0, 0, 0, 0, 0, 0, 0, 0, 0, 138, 0, 0, 0, 0⟩
      (fun _ => BLACK) ⟨481, 3600⟩ (by decide) (by decide) (by decide)
    simp only [rasterCycles, h1, h2]
    decide
  · have h1 := rasterISR_cycles_visible ⟨30, 3, 3, 9, 9, 10, 10, 10, 10, 20, 9, 9, 20, 3, 12, 30⟩
      (fun _ => BLACK) ⟨0, 0⟩ (by decide)
    have h2 := rasterISR_cycles_blank ⟨30, 3, 3, 9, 9, 10, 10, 10, 10, 20, 9, 9, 20, 3, 12, 30⟩
      (fun _ => BLACK) ⟨481, 3600⟩ (by decide) (by decide) (by decide)
    simp only [rasterCycles, h1, h2]
    decide

/-! ## The bytes written by a call and by a list of calls -/

/-- A call with ordered arguments returns; it sets the bytes it covers to the masked colour and
leaves every other byte as it was. -/
theorem run_covers (c : PaintCall) (m : Mem) (h : c.ordered) :
    ∃ m', c.run m = some m' ∧
      ∀ i, (c.covers i → m' i = COLORS &&& c.color) ∧ (¬ c.covers i → m' i = m i) := by
  obtain ⟨hx, hx2, hy, hy2⟩ := h
  have hX : colorsX = 60 := by decide
  have hx' : (c.x2 + 65536 - c.x1 + 1) % 65536 = c.x2 - c.x1 + 1 := by
    rw [show c.x2 + 65536 - c.x1 + 1 = (c.x2 - c.x1 + 1) + 65536 by omega, Nat.add_mod_right]
    exact Nat.mod_eq_of_lt (by omega)
  obtain ⟨m', hrun, hin, hout⟩ := paintRows_spec c.x1 c.y2 c.color (c.x2 - c.x1 + 1)
    (by omega) 65536 c.y1 m (by omega) (by omega)
  refine ⟨m', by simp only [PaintCall.run, paintArea, hx']; exact hrun, ?_⟩
  intro i
  refine ⟨?_, ?_⟩
  · rintro ⟨y, h1, h2, h3, h4⟩
    rw [hin i ⟨y, h1, h2, ?_, ?_⟩, masked_lt]
    · rw [hX, Nat.mod_eq_of_lt (by omega)]; rw [hX] at h3; exact h3
    · rw [hX, Nat.mod_eq_of_lt (by omega)]; rw [hX] at h4; omega
  · intro hno
    apply hout
    intro y h1 h2 hc
    rw [hX, Nat.mod_eq_of_lt (by omega)] at hc
    exact hno ⟨y, h1, h2, by rw [hX]; exact hc.1, by rw [hX]; omega⟩

/-- A list of calls with ordered arguments returns; a byte covered by one of the calls holds the
masked colour of one of the calls that cover it, and a byte covered by none is as it was. -/
theorem replay_covers : ∀ (cs : List PaintCall) (m : Mem), (∀ c ∈ cs, c.ordered) →
    ∃ m', replay cs m = some m' ∧
      ∀ i, (∃ c ∈ cs, c.covers i ∧ m' i = COLORS &&& c.color) ∨
        ((∀ c ∈ cs, ¬ c.covers i) ∧ m' i = m i) := by
  intro cs
  induction cs with
  | nil =>
    intro m _
    exact ⟨m, rfl, fun i => Or.inr ⟨fun c hc => absurd hc (List.not_mem_nil c), rfl⟩⟩
  | cons c cs ih =>
    intro m h
    obtain ⟨m1, hrun, hspec⟩ := run_covers c m (h c (List.mem_cons_self _ _))
    obtain ⟨m', hrep, hrest⟩ := ih m1 (fun c' hc' => h c' (List.mem_cons_of_mem _ hc'))
    refine ⟨m', by simp only [replay, hrun]; exact hrep, ?_⟩
    intro i
    rcases hrest i with ⟨c', hc', hcov, hval⟩ | ⟨hnone, hval⟩
    · exact Or.inl ⟨c', List.mem_cons_of_mem _ hc', hcov, hval⟩
    · by_cases hcov : c.covers i
      · exact Or.inl ⟨c, List.mem_cons_self _ _, hcov, by rw [hval]; exact (hspec i).1 hcov⟩
      · refine Or.inr ⟨?_, by rw [hval]; exact (hspec i).2 hcov⟩
        intro c' hc'
        rcases List.mem_cons.mp hc' with rfl | hc''
        · exact hcov
        · exact hnone c' hc''

/-! ## The frames of the shipped script -/

set_option maxRecDepth 100000 in
/-- The steps `0`, `54` and `109` of the shipped script are the clear step. -/
theorem steps_clear :
    stepAt steps ⟨0, 0, 0, 0, 0, 0⟩ 0 = clearStep ∧
      stepAt steps ⟨0, 0, 0, 0, 0, 0⟩ 54 = clearStep ∧
      stepAt steps ⟨0, 0, 0, 0, 0, 0⟩ 109 = clearStep := by
  decide

set_option maxRecDepth 100000 in
/-- The other steps of the shipped script lie in columns `20 .. 37` and rows `10 .. 41`. -/
theorem steps_sprite :
    ∀ k, k < 171 → k ≠ 0 → k ≠ 54 → k ≠ 109 →
      (stepAt steps ⟨0, 0, 0, 0, 0, 0⟩ k).inSprite := by
  decide

theorem stepAt_steps (oob : Step) (k : Nat) (hk : k < 171) :
    stepAt steps oob k = stepAt steps ⟨0, 0, 0, 0, 0, 0⟩ k :=
  stepAt_oob_irrel steps oob ⟨0, 0, 0, 0, 0, 0⟩ k (by rw [scriptCount_steps]; exact hk)

/-- The calls of a drawing tick of the shipped script entered at the start of a frame: the clear
step, then sprite steps, all at the wrapped offset. -/
theorem tickCalls_frame (oob : Step) (c : Nat × Nat × Nat)
    (hs : c.1 = 0 ∨ c.1 = 54 ∨ c.1 = 109) (hw : c.2.1 = 0) :
    ∃ rest, tickCalls steps oob c = callOf (wrapOffset c.2.2) clearStep :: rest ∧
      ∀ call ∈ rest, ∃ s : Step, s.inSprite ∧ call = callOf (wrapOffset c.2.2) s := by
  obtain ⟨s, w, o⟩ := c
  simp only at hs hw
  subst hw
  have hframe : ∀ i j, i < j → j ≤ 171 → chainEnd steps oob 256 i = j →
      stepAt steps ⟨0, 0, 0, 0, 0, 0⟩ i = clearStep →
      (∀ k, i < k → k < j → (stepAt steps ⟨0, 0, 0, 0, 0, 0⟩ k).inSprite) →
      ∃ rest, tickCalls steps oob (i, 0, o) = callOf (wrapOffset o) clearStep :: rest ∧
        ∀ call ∈ rest, ∃ s : Step, s.inSprite ∧ call = callOf (wrapOffset o) s := by
    intro i j hij hj hend hclear hsprite
    have hi : i < scriptCount steps := by rw [scriptCount_steps]; omega
    have hlist : List.range' i (j - i) = i :: List.range' (i + 1) (j - i - 1) := by
      rw [show j - i = (j - i - 1) + 1 by omega]; rfl
    refine ⟨(List.range' (i + 1) (j - i - 1)).map
      (fun k => callOf (wrapOffset o) (stepAt steps oob k)), ?_, ?_⟩
    · simp only [tickCalls, hi, and_self, if_true, hend, hlist, List.map_cons]
      rw [stepAt_steps oob i (by omega), hclear]
    · intro call hcall
      rw [List.mem_map] at hcall
      obtain ⟨k, hk, rfl⟩ := hcall
      rw [List.mem_range'_1] at hk
      refine ⟨stepAt steps oob k, ?_, rfl⟩
      rw [stepAt_steps oob k (by omega)]
      exact hsprite k (by omega) (by omega)
  rcases hs with h | h | h
  · subst h
    exact hframe 0 54 (by omega) (by omega) (chainEnd_steps_0 oob) steps_clear.1
      (fun k h1 h2 => steps_sprite k (by omega) (by omega) (by omega) (by omega))
  · subst h
    exact hframe 54 109 (by omega) (by omega) (chainEnd_steps_54 oob) steps_clear.2.1
      (fun k h1 h2 => steps_sprite k (by omega) (by omega) (by omega) (by omega))
  · subst h
    exact hframe 109 171 (by omega) (by omega) (chainEnd_steps_109 oob) steps_clear.2.2
      (fun k h1 h2 => steps_sprite k (by omega) (by omega) (by omega) (by omega))

theorem wrapOffset_cases (x : Nat) :
    (x = 60 ∧ wrapOffset x = 0) ∨ (x ≠ 60 ∧ wrapOffset x = x) := by
  unfold wrapOffset
  by_cases h : x = 60
  · left; exact ⟨h, by rw [if_pos h]⟩
  · right; exact ⟨h, by rw [if_neg h]⟩

/-- The clear step at the offset that follows `o` covers the sprite box at `o`, also when the
box runs over the end of a row and when the offset wraps from `56` to `0`. -/
theorem clear_covers_box (o i : Nat) (h : spriteBox o i) :
    (callOf (wrapOffset (o + 4)) clearStep).covers i := by
  obtain ⟨y, h1, h2, h3, h5⟩ := h
  have hX : colorsX = 60 := by decide
  rw [hX] at h3 h5
  rcases wrapOffset_cases (o + 4) with ⟨he, hw⟩ | ⟨hne, hw⟩
  · rw [hw]
    refine ⟨y + 1, ?_, ?_, ?_, ?_⟩
    · show 10 ≤ y + 1; omega
    · show y + 1 ≤ 45; omega
    · show 16 + 0 + (y + 1) * colorsX ≤ i; rw [hX]; omega
    · show i ≤ 40 + 0 + (y + 1) * colorsX; rw [hX]; omega
  · rw [hw]
    refine ⟨y, ?_, ?_, ?_, ?_⟩
    · show 10 ≤ y; omega
    · show y ≤ 45; omega
    · show 16 + (o + 4) + y * colorsX ≤ i; rw [hX]; omega
    · show i ≤ 40 + (o + 4) + y * colorsX; rw [hX]; omega

/-- A byte covered by the call of a sprite step at an offset lies in the sprite box at that
offset. -/
theorem sprite_in_box (o i : Nat) (s : Step) (hs : s.inSprite) (h : (callOf o s).covers i) :
    spriteBox o i := by
  obtain ⟨y, h1, h2, h3, h4⟩ := h
  obtain ⟨a1, a2, a3, a4, a5, a6⟩ := hs
  have b1 : s.y1 ≤ y := h1
  have b2 : y ≤ s.y2 := h2
  have b3 : s.x1 + o + y * colorsX ≤ i := h3
  have b4 : i ≤ s.x2 + o + y * colorsX := h4
  exact ⟨y, by omega, by omega, by omega, by omega⟩

theorem callOf_ordered (o : Nat) (s : Step) (ho : o ≤ 56)
    (hs : s.x1 ≤ s.x2 ∧ s.x2 ≤ 40 ∧ s.y1 ≤ s.y2 ∧ s.y2 ≤ 45) : (callOf o s).ordered := by
  obtain ⟨a1, a2, a3, a4⟩ := hs
  refine ⟨?_, ?_, ?_, ?_⟩
  · show s.x1 + o ≤ s.x2 + o; omega
  · show s.x2 + o < 1000; omega
  · show s.y1 ≤ s.y2; exact a3
  · show s.y2 < 1000; omega

theorem interp_init_frameInv : FrameInv Interp.init := by
  refine ⟨Or.inl rfl, by decide, 56, by decide, by decide, by decide, ?_⟩
  intro i h
  exact absurd rfl h

/-- One tick of the shipped script in a state that satisfies the invariant: the tick returns and
keeps the invariant.  On a drawing tick the calls are the clear step and then sprite steps; the
clear step covers every byte that was not `BLACK`, so every byte is `BLACK` after it, and every
byte that is not `BLACK` after the tick is covered by one of the sprite calls of the tick.  On
another tick there is no call and the buffer is unchanged. -/
theorem frame_tick (oob : Step) (st : Interp) (hinv : FrameInv st) :
    ∃ st', tick steps oob st = some (st', tickCalls steps oob st.ctrl) ∧ FrameInv st' ∧
      ((st.step < 171 ∧ st.wait = 0) →
        ∃ rest m1,
          tickCalls steps oob st.ctrl = callOf (wrapOffset st.offset) clearStep :: rest ∧
          (∀ call ∈ rest, ∃ s : Step, s.inSprite ∧ call = callOf (wrapOffset st.offset) s) ∧
          (callOf (wrapOffset st.offset) clearStep).run st.colorMap = some m1 ∧
          (∀ i, st.colorMap i ≠ BLACK → (callOf (wrapOffset st.offset) clearStep).covers i) ∧
          (∀ i, m1 i = BLACK) ∧
          replay rest m1 = some st'.colorMap ∧
          (∀ i, st'.colorMap i ≠ BLACK →
            ∃ call ∈ rest, call.covers i ∧ st'.colorMap i = COLORS &&& call.color)) ∧
      (¬ (st.step < 171 ∧ st.wait = 0) →
        tickCalls steps oob st.ctrl = [] ∧ st'.colorMap = st.colorMap) ∧
      wrapOffset st.offset ≤ 56 ∧ wrapOffset st.offset % 4 = 0 := by
  obtain ⟨hstep, hoff, o, ho, ho4, hwo, hmem⟩ := hinv
  obtain ⟨st', htick, hctrl, hrep⟩ := tick_ctrl steps oob st (fits_y2 steps oob steps_fits)
  have hc : st.ctrl = (st.step, st.wait, st.offset) := rfl
  have hs' : st'.step = (ctrlTick steps oob st.ctrl).1 := congrArg Prod.fst hctrl
  have ho' : st'.offset = (ctrlTick steps oob st.ctrl).2.2 :=
    congrArg (fun c : Nat × Nat × Nat => c.2.2) hctrl
  have hw56 : wrapOffset st.offset ≤ 56 ∧ wrapOffset st.offset % 4 = 0 := by
    rw [hwo]
    rcases wrapOffset_cases (o + 4) with ⟨_, hw⟩ | ⟨hne, hw⟩ <;> rw [hw] <;> omega
  refine ⟨st', htick, ?_, ?_, ?_, hw56.1, hw56.2⟩
  · -- the invariant after the tick
    by_cases hd : st.step < 171 ∧ st.wait = 0
    · obtain ⟨hlt, hw0⟩ := hd
      have hs3 : st.step = 0 ∨ st.step = 54 ∨ st.step = 109 := by omega
      obtain ⟨rest, hcalls, hrest⟩ := tickCalls_frame oob st.ctrl hs3 hw0
      have hdraw : st.ctrl.1 < scriptCount steps ∧ st.ctrl.2.1 = 0 := by
        rw [scriptCount_steps]; exact ⟨hlt, hw0⟩
      have hstep' : st'.step = 54 ∨ st'.step = 109 ∨ st'.step = 171 := by
        rw [hs', hc, hw0, ctrlTick_draw steps oob st.step st.offset hdraw.1]
        dsimp only
        rcases hs3 with h | h | h <;> rw [h]
        · left; exact chainEnd_steps_0 oob
        · right; left; exact chainEnd_steps_54 oob
        · right; right; exact chainEnd_steps_109 oob
      have hoff' : st'.offset = wrapOffset st.offset + 4 := by
        rw [ho', ctrlTick_offset, if_pos hdraw]
        have : wrapOffset st.ctrl.2.2 = wrapOffset st.offset := rfl
        rw [this]
        omega
      refine ⟨by omega, by omega, wrapOffset st.offset, hw56.1, hw56.2, by rw [hoff'], ?_⟩
      intro i hi
      have hordered : ∀ call ∈ rest, call.ordered := by
        intro call hcall
        obtain ⟨s, ⟨a1, a2, a3, a4, a5, a6⟩, rfl⟩ := hrest call hcall
        exact callOf_ordered _ s hw56.1 ⟨a2, by omega, a5, by omega⟩
      have hclear : (callOf (wrapOffset st.offset) clearStep).ordered :=
        callOf_ordered _ clearStep hw56.1 (by decide)
      obtain ⟨m1, hrun1, hspec1⟩ := run_covers _ st.colorMap hclear
      have hrep' : replay rest m1 = some st'.colorMap := by
        rw [hcalls] at hrep
        simp only [replay] at hrep
        have hrun1' : (callOf (wrapOffset st.ctrl.2.2) clearStep).run st.colorMap = some m1 :=
          hrun1
        rw [hrun1'] at hrep
        exact hrep
      obtain ⟨m2, hrep2, hcov2⟩ := replay_covers rest m1 hordered
      have hm2 : m2 = st'.colorMap := Option.some.inj (hrep2.symm.trans hrep')
      have hblack : ∀ j, m1 j = BLACK := by
        intro j
        by_cases hcj : (callOf (wrapOffset st.offset) clearStep).covers j
        · rw [(hspec1 j).1 hcj]
          show COLORS &&& BLACK = BLACK
          decide
        · rw [(hspec1 j).2 hcj]
          by_contra hne
          apply hcj
          rw [hwo]
          exact clear_covers_box o j (hmem j hne)
      rcases hcov2 i with ⟨call, hcall, hcov, -⟩ | ⟨-, hval⟩
      · obtain ⟨s, hsp, rfl⟩ := hrest call hcall
        exact sprite_in_box _ i s hsp hcov
      · rw [hm2] at hval
        exact absurd (hval.trans (hblack i)) hi
    · have hidle : ¬ (st.ctrl.1 < scriptCount steps ∧ st.ctrl.2.1 = 0) := by
        rw [scriptCount_steps]; exact hd
      have hnil := tickCalls_idle steps oob st.ctrl hidle
      have hmem' : st'.colorMap = st.colorMap := by
        rw [hnil] at hrep
        simp only [replay, Option.some.injEq] at hrep
        exact hrep.symm
      have hoff' : st'.offset = wrapOffset st.offset := by
        rw [ho', ctrlTick_offset, if_neg hidle]
        rfl
      have hstep' : st'.step = 0 ∨ st'.step = 54 ∨ st'.step = 109 ∨ st'.step = 171 := by
        rw [hs', hc]
        by_cases hlt : st.step < scriptCount steps
        · have hw0 : ¬ st.wait = 0 := fun h => hd ⟨by rw [← scriptCount_steps]; exact hlt, h⟩
          simp only [ctrlTick, hlt, hw0, if_true, if_false]
          exact hstep
        · simp only [ctrlTick, hlt, if_false]
          left; trivial
      refine ⟨hstep', by rw [hoff']; omega, o, ho, ho4, ?_, ?_⟩
      · rw [hoff', hwo]
        rcases wrapOffset_cases (o + 4) with ⟨_, hw⟩ | ⟨hne, hw⟩
        · rw [hw]; rfl
        · rw [hw]
          rcases wrapOffset_cases (o + 4) with ⟨h60, _⟩ | ⟨_, hw2⟩
          · exact absurd h60 hne
          · exact hw2
      · intro i hi
        rw [hmem'] at hi
        exact hmem i hi
  · -- the facts of a drawing tick
    rintro ⟨hlt, hw0⟩
    have hs3 : st.step = 0 ∨ st.step = 54 ∨ st.step = 109 := by omega
    obtain ⟨rest, hcalls, hrest⟩ := tickCalls_frame oob st.ctrl hs3 hw0
    have hordered : ∀ call ∈ rest, call.ordered := by
      intro call hcall
      obtain ⟨s, ⟨a1, a2, a3, a4, a5, a6⟩, rfl⟩ := hrest call hcall
      exact callOf_ordered _ s hw56.1 ⟨a2, by omega, a5, by omega⟩
    have hclear : (callOf (wrapOffset st.offset) clearStep).ordered :=
      callOf_ordered _ clearStep hw56.1 (by decide)
    obtain ⟨m1, hrun1, hspec1⟩ := run_covers _ st.colorMap hclear
    have hrep' : replay rest m1 = some st'.colorMap := by
      rw [hcalls] at hrep
      simp only [replay] at hrep
      have hrun1' : (callOf (wrapOffset st.ctrl.2.2) clearStep).run st.colorMap = some m1 :=
        hrun1
      rw [hrun1'] at hrep
      exact hrep
    obtain ⟨m2, hrep2, hcov2⟩ := replay_covers rest m1 hordered
    have hm2 : m2 = st'.colorMap := Option.some.inj (hrep2.symm.trans hrep')
    have hcovers : ∀ j, st.colorMap j ≠ BLACK →
        (callOf (wrapOffset st.offset) clearStep).covers j := by
      intro j hne
      rw [hwo]
      exact clear_covers_box o j (hmem j hne)
    have hblack : ∀ j, m1 j = BLACK := by
      intro j
      by_cases hcj : (callOf (wrapOffset st.offset) clearStep).covers j
      · rw [(hspec1 j).1 hcj]
        show COLORS &&& BLACK = BLACK
        decide
      · rw [(hspec1 j).2 hcj]
        by_contra hne
        exact hcj (hcovers j hne)
    refine ⟨rest, m1, hcalls, hrest, hrun1, hcovers, hblack, hrep', ?_⟩
    intro i hi
    rcases hcov2 i with ⟨call, hcall, hcov, hval⟩ | ⟨-, hval⟩
    · exact ⟨call, hcall, hcov, by rw [← hm2]; exact hval⟩
    · rw [hm2] at hval
      exact absurd (hval.trans (hblack i)) hi
  · -- another tick
    intro hd
    have hidle : ¬ (st.ctrl.1 < scriptCount steps ∧ st.ctrl.2.1 = 0) := by
      rw [scriptCount_steps]; exact hd
    have hnil := tickCalls_idle steps oob st.ctrl hidle
    refine ⟨hnil, ?_⟩
    rw [hnil] at hrep
    simp only [replay, Option.some.injEq] at hrep
    exact hrep.symm

/-- Every run of the shipped script from a state that satisfies the invariant returns, in a
state that satisfies the invariant. -/
theorem frame_run : ∀ (oobs : List Step) (st : Interp), FrameInv st →
    ∃ st' logs, runTicks steps oobs st = some (st', logs) ∧ FrameInv st' := by
  intro oobs
  induction oobs with
  | nil => intro st h; exact ⟨st, [], rfl, h⟩
  | cons oob oobs ih =>
    intro st h
    obtain ⟨st1, h1, hinv1, -⟩ := frame_tick oob st h
    obtain ⟨st2, logs, h2, hinv2⟩ := ih st1 hinv1
    exact ⟨st2, tickCalls steps oob st.ctrl :: logs, by simp only [runTicks, h1, h2], hinv2⟩

/-! ## C16: the clear step that opens a frame -/

/-- C17: in every run of the shipped script from startup, `step` is at most `171` and `offset`
at most `60`, so neither 8-bit variable overflows; every call `paintArea(x1, y1, x2, y2, c)` made
by a tick has `x1 ≤ x2`, `y1 ≤ y2` and `x2 + 60 * y2 < 3600`, writes only bytes of the array, and
leaves every byte after the array as it was, as does the whole tick. -/
theorem c17_calls_stay_in_array (oobs : List Step) (oob : Step) :
    ∃ st logs st' calls,
      runTicks steps oobs Interp.init = some (st, logs) ∧
      tick steps oob st = some (st', calls) ∧
      st.step ≤ 171 ∧ st.step + 1 < 256 ∧ st.offset ≤ 60 ∧ wrapOffset st.offset + 4 < 256 ∧
      (∀ c ∈ calls, c.x1 ≤ c.x2 ∧ c.y1 ≤ c.y2 ∧ c.x2 + 60 * c.y2 < 3600 ∧
        (∀ i, c.covers i → i < COLORS_T) ∧
        ∀ m, ∃ m', c.run m = some m' ∧ ∀ i, COLORS_T ≤ i → m' i = m i) ∧
      (∀ i, COLORS_T ≤ i → st'.colorMap i = st.colorMap i) := by
  obtain ⟨st, logs, hrun, hinv⟩ := frame_run oobs Interp.init interp_init_frameInv
  obtain ⟨st', htick, -, hdraw, hidle, ho56, -⟩ := frame_tick oob st hinv
  obtain ⟨st'', htick', -, hrep⟩ := tick_ctrl steps oob st (fits_y2 steps oob steps_fits)
  have hst : st'' = st' := by
    have := htick'.symm.trans htick
    simp only [Option.some.injEq, Prod.mk.injEq] at this
    exact this.1
  rw [hst] at hrep
  have hX : colorsX = 60 := by decide
  have hT : COLORS_T = 3600 := by decide
  have hstep := hinv.1
  have hoff := hinv.2.1
  have hcall : ∀ c ∈ tickCalls steps oob st.ctrl, c.ordered ∧ c.x2 ≤ 96 ∧ c.y2 ≤ 45 := by
    intro c hc
    by_cases hd : st.step < 171 ∧ st.wait = 0
    · obtain ⟨rest, m1, hcalls, hrest, -⟩ := hdraw hd
      rw [hcalls] at hc
      rcases List.mem_cons.mp hc with rfl | hc'
      · exact ⟨callOf_ordered _ clearStep ho56 (by decide),
          by show 40 + wrapOffset st.offset ≤ 96; omega, le_refl 45⟩
      · obtain ⟨s, ⟨a1, a2, a3, a4, a5, a6⟩, rfl⟩ := hrest c hc'
        exact ⟨callOf_ordered _ s ho56 ⟨a2, by omega, a5, by omega⟩,
          by show s.x2 + wrapOffset st.offset ≤ 96; omega, by show s.y2 ≤ 45; omega⟩
    · rw [(hidle hd).1] at hc
      exact absurd hc (List.not_mem_nil c)
  have hcov : ∀ c ∈ tickCalls steps oob st.ctrl, ∀ i, c.covers i → i < COLORS_T := by
    intro c hc i hi
    obtain ⟨⟨b1, b2, b3, b4⟩, b5, b6⟩ := hcall c hc
    obtain ⟨y, h1, h2, h3, h4⟩ := hi
    rw [hX] at h4
    rw [hT]
    omega
  refine ⟨st, logs, st', _, hrun, htick, by omega, by omega, hoff, by omega, ?_, ?_⟩
  · intro c hc
    obtain ⟨hord, b5, b6⟩ := hcall c hc
    refine ⟨hord.1, hord.2.2.1, by omega, hcov c hc, ?_⟩
    intro m
    obtain ⟨m', hrun', hspec⟩ := run_covers c m hord
    refine ⟨m', hrun', ?_⟩
    intro i hi
    apply (hspec i).2
    intro hci
    have := hcov c hc i hci
    omega
  · intro i hi
    obtain ⟨m2, hrep2, hcov2⟩ := replay_covers (tickCalls steps oob st.ctrl) st.colorMap
      (fun c hc => (hcall c hc).1)
    have hm2 : m2 = st'.colorMap := Option.some.inj (hrep2.symm.trans hrep)
    rcases hcov2 i with ⟨c, hc, hci, -⟩ | ⟨-, hval⟩
    · have := hcov c hc i hci
      omega
    · rw [← hm2]; exact hval

/-! ## C19: no residue of earlier frames -/

/-- C19: in every run of the shipped script from startup (the all-black buffer), after every
drawing tick every byte that is not `BLACK` is covered by a call of that same tick and holds the
masked colour of that call; the clear step that opens the tick, at the current offset, covers
every byte that was not `BLACK` before the tick; and the clear step at the offset that follows an
offset `o` covers every byte covered by a sprite step at `o`, for every `o`, also when the bytes
run over the end of a row and when the offset wraps from `56` to `0`. -/
theorem c19_no_residue (oobs : List Step) (oob : Step) :
    ∃ st logs st' calls,
      runTicks steps oobs Interp.init = some (st, logs) ∧
      tick steps oob st = some (st', calls) ∧
      (calls ≠ [] →
        (∀ i, st'.colorMap i ≠ BLACK →
          ∃ call ∈ calls, call.covers i ∧ st'.colorMap i = COLORS &&& call.color) ∧
        ∃ rest, calls = callOf (wrapOffset st.offset) clearStep :: rest ∧
          ∀ i, st.colorMap i ≠ BLACK → (callOf (wrapOffset st.offset) clearStep).covers i) ∧
      (∀ (o : Nat) (s : Step) (i : Nat), s.inSprite → (callOf o s).covers i →
        (callOf (wrapOffset (o + 4)) clearStep).covers i) ∧
      wrapOffset (56 + 4) = 0 := by
  obtain ⟨st, logs, hrun, hinv⟩ := frame_run oobs Interp.init interp_init_frameInv
  obtain ⟨st', htick, -, hdraw, hidle, -, -⟩ := frame_tick oob st hinv
  refine ⟨st, logs, st', _, hrun, htick, ?_, ?_, rfl⟩
  · intro hne
    have hd : st.step < 171 ∧ st.wait = 0 := by
      by_contra hnd
      exact hne (hidle hnd).1
    obtain ⟨rest, m1, hcalls, -, -, hcovers, -, -, hres⟩ := hdraw hd
    refine ⟨?_, rest, hcalls, hcovers⟩
    intro i hi
    obtain ⟨call, hcall, hcov, hval⟩ := hres i hi
    exact ⟨call, by rw [hcalls]; exact List.mem_cons_of_mem _ hcall, hcov, hval⟩
  · intro o s i hs hcov
    exact clear_covers_box o i (sprite_in_box o i s hs hcov)

/-! ## C18: the read past the end of the table -/

/-- A tick keeps two states with the same buffer and control parts in agreement so: it makes
the same calls and leaves the same buffer, whatever the reads past the end of the table find. -/
theorem tick_agree (script : List Step) (hfit : ∀ s ∈ script, s.fits) (o o' : Step)
    (st st' : Interp) (hm : st.colorMap = st'.colorMap)
    (hc : CtrlAgree script st.ctrl st'.ctrl) :
    ∃ r r' calls, tick script o st = some (r, calls) ∧ tick script o' st' = some (r', calls) ∧
      r.colorMap = r'.colorMap ∧ CtrlAgree script r.ctrl r'.ctrl ∧
      calls = tickCalls script o st.ctrl ∧ r.ctrl = ctrlTick script o st.ctrl := by
  obtain ⟨r, h1, hc1, hrep1⟩ := tick_ctrl script o st (fits_y2 script o hfit)
  obtain ⟨r', h2, hc2, hrep2⟩ := tick_ctrl script o' st' (fits_y2 script o' hfit)
  have hcalls := tickCalls_agree script o o' st.ctrl st'.ctrl hc
  refine ⟨r, r', _, h1, by rw [hcalls]; exact h2, ?_, ?_, rfl, hc1⟩
  · rw [hcalls, hm] at hrep1
    exact Option.some.inj (hrep1.symm.trans hrep2)
  · rw [hc1, hc2]
    exact ctrlTick_agree script o o' st.ctrl st'.ctrl hc

/-- Two runs of the same length from states in agreement make the same calls and end in states
in agreement, whatever the reads past the end of the table find. -/
theorem runTicks_agree (script : List Step) (hfit : ∀ s ∈ script, s.fits) :
    ∀ (oobs oobs' : List Step) (st st' : Interp), oobs.length = oobs'.length →
      st.colorMap = st'.colorMap → CtrlAgree script st.ctrl st'.ctrl →
      ∃ r r' logs, runTicks script oobs st = some (r, logs) ∧
        runTicks script oobs' st' = some (r', logs) ∧
        r.colorMap = r'.colorMap ∧ CtrlAgree script r.ctrl r'.ctrl := by
  intro oobs
  induction oobs with
  | nil =>
    intro oobs' st st' hlen hm hc
    cases oobs' with
    | nil => exact ⟨st, st', [], rfl, rfl, hm, hc⟩
    | cons a l => simp at hlen
  | cons o oobs ih =>
    intro oobs' st st' hlen hm hc
    cases oobs' with
    | nil => simp at hlen
    | cons o' oobs' =>
      obtain ⟨r1, r1', calls, h1, h1', hm1, hc1, -, -⟩ := tick_agree script hfit o o' st st' hm hc
      obtain ⟨r, r', logs, h2, h2', hm2, hc2⟩ := ih oobs' r1 r1'
        (by simpa using hlen) hm1 hc1
      exact ⟨r, r', calls :: logs, by simp only [runTicks, h1, h2],
        by simp only [runTicks, h1', h2'], hm2, hc2⟩

/-- C18: for every script that fits its C types and has at least one step, take two runs of the
same length from startup and one more tick, with any values found by the reads past the end of
the table.  The two runs make the same calls tick by tick and end with the same `step`, `offset`
and buffer, and with the same `wait` unless `step` is past the end; so does the further tick.
If that tick leaves `step` past the end, it has drawn and left `step = count`, `wait` holds
what its read past the end found, and the tick after it makes no call and sets `step` to `0` and
`wait` to the wait of step `0` in both runs, whatever `wait` held. -/
theorem c18_oob_read_never_drawn (script : List Step) (hfit : ∀ s ∈ script, s.fits)
    (hpos : 0 < scriptCount script) (oobs oobs' : List Step)
    (hlen : oobs.length = oobs'.length) (o o' : Step) :
    ∃ st st' logs r r' calls,
      runTicks script oobs Interp.init = some (st, logs) ∧
      runTicks script oobs' Interp.init = some (st', logs) ∧
      st.step = st'.step ∧ st.offset = st'.offset ∧ st.colorMap = st'.colorMap ∧
      (st.step < scriptCount script → st.wait = st'.wait) ∧
      tick script o st = some (r, calls) ∧ tick script o' st' = some (r', calls) ∧
      r.step = r'.step ∧ r.offset = r'.offset ∧ r.colorMap = r'.colorMap ∧
      (r.step < scriptCount script → r.wait = r'.wait) ∧
      (¬ r.step < scriptCount script →
        r.step = scriptCount script ∧ calls ≠ [] ∧
        (script.length < 256 → r.wait = o.wait ∧ r'.wait = o'.wait) ∧
        ∀ o3 o4 : Step, ∃ r2 r2' s0,
          tick script o3 r = some (r2, []) ∧ tick script o4 r' = some (r2', []) ∧
          script[0]? = some s0 ∧ r2.step = 0 ∧ r2'.step = 0 ∧
          r2.wait = s0.wait ∧ r2'.wait = s0.wait ∧
          r2.colorMap = r.colorMap ∧ r2'.colorMap = r'.colorMap ∧ r2.offset = r2'.offset) := by
  obtain ⟨st, st', logs, hrun, hrun', hm, hc⟩ := runTicks_agree script hfit oobs oobs'
    Interp.init Interp.init hlen rfl (CtrlAgree.refl script _)
  obtain ⟨r, r', calls, ht, ht', hm1, hc1, hcalls, hctrl⟩ :=
    tick_agree script hfit o o' st st' hm hc
  obtain ⟨r'', ht'', hctrl', -⟩ := tick_ctrl script o' st' (fits_y2 script o' hfit)
  have hr' : r'' = r' := by
    have := ht''.symm.trans ht'
    simp only [Option.some.injEq, Prod.mk.injEq] at this
    exact this.1
  rw [hr'] at hctrl'
  have hcnt := scriptCount_lt script
  refine ⟨st, st', logs, r, r', calls, hrun, hrun', hc.1, hc.2.1, hm, hc.2.2, ht, ht',
    hc1.1, hc1.2.1, hm1, hc1.2.2, ?_⟩
  intro hge
  have hlen0 : 0 < script.length := lt_of_lt_of_le hpos (scriptCount_le_length script)
  -- the tick was a drawing tick that ran to the end of the table
  have hstep : r.step = (ctrlTick script o st.ctrl).1 := congrArg Prod.fst hctrl
  have hwait : r.wait = (ctrlTick script o st.ctrl).2.1 :=
    congrArg (fun c : Nat × Nat × Nat => c.2.1) hctrl
  have hwait' : r'.wait = (ctrlTick script o' st'.ctrl).2.1 :=
    congrArg (fun c : Nat × Nat × Nat => c.2.1) hctrl'
  have hstep' : r'.step = (ctrlTick script o' st'.ctrl).1 := congrArg Prod.fst hctrl'
  have hdraw : st.ctrl.1 < scriptCount script ∧ st.ctrl.2.1 = 0 := by
    by_contra hnd
    by_cases hi : st.ctrl.1 < scriptCount script
    · have hw : ¬ st.ctrl.2.1 = 0 := fun h => hnd ⟨hi, h⟩
      apply hge
      have e : (ctrlTick script o st.ctrl).1 = st.ctrl.1 := by
        simp only [ctrlTick, hi, hw, if_true, if_false]
      rw [hstep, e]
      exact hi
    · apply hge
      have e : (ctrlTick script o st.ctrl).1 = 0 := by
        simp only [ctrlTick, hi, if_false]
      rw [hstep, e]
      exact hpos
  have hdraw' : st'.ctrl.1 < scriptCount script ∧ st'.ctrl.2.1 = 0 := by
    have h1 : st'.ctrl.1 = st.ctrl.1 := hc.1.symm
    have h2 : st'.ctrl.2.1 = st.ctrl.2.1 := (hc.2.2 hdraw.1).symm
    rw [h1, h2]; exact hdraw
  obtain ⟨e1, e2, -, -⟩ := chainEnd_spec script o 256 st.ctrl.1 hdraw.1 (by omega)
  have hstepEnd : r.step = chainEnd script o 256 st.ctrl.1 := by
    rw [hstep]
    simp only [ctrlTick, hdraw.1, hdraw.2, if_true]
  have hend : r.step = scriptCount script := by omega
  have hsame : r.step = r'.step := hc1.1
  have hend' : r'.step = scriptCount script := by rw [← hsame]; exact hend
  refine ⟨hend, ?_, ?_, ?_⟩
  · rw [hcalls]
    intro hnil
    have := (tickCalls_draw script o st.ctrl hdraw.1 hdraw.2).1
    rw [hnil] at this
    simp at this
  · intro hl
    have hsc : scriptCount script = script.length := Nat.mod_eq_of_lt hl
    have hget : ∀ x : Step, stepAt script x (scriptCount script) = x := by
      intro x
      simp only [stepAt, hsc, List.getD_eq_getElem?_getD]
      rw [List.getElem?_eq_none (le_refl _)]
      rfl
    have hstepEnd' : r'.step = chainEnd script o' 256 st'.ctrl.1 := by
      rw [hstep']
      simp only [ctrlTick, hdraw'.1, hdraw'.2, if_true]
    constructor
    · rw [hwait]
      simp only [ctrlTick, hdraw.1, hdraw.2, if_true]
      rw [← hstepEnd, hend, hget]
    · rw [hwait']
      simp only [ctrlTick, hdraw'.1, hdraw'.2, if_true]
      rw [← hstepEnd', hend', hget]
  · intro o3 o4
    have hge' : ¬ r'.step < scriptCount script := by rw [← hsame]; exact hge
    have hs0 : ∀ x : Step, (stepAt script x 0).wait = script[0].wait := by
      intro x
      simp only [stepAt, List.getD_eq_getElem?_getD, List.getElem?_eq_getElem hlen0,
        Option.getD_some]
    refine ⟨_, _, script[0], tick_wrap script o3 r hge, tick_wrap script o4 r' hge',
      List.getElem?_eq_getElem hlen0, rfl, rfl, hs0 o3, hs0 o4, rfl, rfl, ?_⟩
    show wrapOffset r.offset = wrapOffset r'.offset
    have hsameo : r.offset = r'.offset := hc1.2.1
    rw [hsameo]

/-- C18, witness: the scenario script after four ticks, the fifth tick executing its last step,
with reads past the end that find `0` in one run and `77` in the other. -/
theorem c18_oob_read_never_drawn_witness :
    ∃ st st' logs r r' calls,
      runTicks scenarioScript (List.replicate 4 ⟨0, 0, 0, 0, 0, 0⟩) Interp.init = some (st, logs) ∧
      runTicks scenarioScript (List.replicate 4 ⟨0, 0, 0, 0, 0, 77⟩) Interp.init = some (st', logs) ∧
      st.step = st'.step ∧ st.offset = st'.offset ∧ st.colorMap = st'.colorMap ∧
      (st.step < scriptCount scenarioScript → st.wait = st'.wait) ∧
      tick scenarioScript (⟨0, 0, 0, 0, 0, 0⟩ : Step) st = some (r, calls) ∧ tick scenarioScript (⟨0, 0, 0, 0, 0, 77⟩ : Step) st' = some (r', calls) ∧
      r.step = r'.step ∧ r.offset = r'.offset ∧ r.colorMap = r'.colorMap ∧
      (r.step < scriptCount scenarioScript → r.wait = r'.wait) ∧
      (¬ r.step < scriptCount scenarioScript →
        r.step = scriptCount scenarioScript ∧ calls ≠ [] ∧
        (scenarioScript.length < 256 → r.wait = (⟨0, 0, 0, 0, 0, 0⟩ : Step).wait ∧ r'.wait = (⟨0, 0, 0, 0, 0, 77⟩ : Step).wait) ∧
        ∀ o3 o4 : Step, ∃ r2 r2' s0,
          tick scenarioScript o3 r = some (r2, []) ∧ tick scenarioScript o4 r' = some (r2', []) ∧
          scenarioScript[0]? = some s0 ∧ r2.step = 0 ∧ r2'.step = 0 ∧
          r2.wait = s0.wait ∧ r2'.wait = s0.wait ∧
          r2.colorMap = r.colorMap ∧ r2'.colorMap = r'.colorMap ∧ r2.offset = r2'.offset) :=
  c18_oob_read_never_drawn scenarioScript (by decide) (by decide)
    (List.replicate 4 ⟨0, 0, 0, 0, 0, 0⟩) (List.replicate 4 ⟨0, 0, 0, 0, 0, 77⟩) (by decide)
    ⟨0, 0, 0, 0, 0, 0⟩ ⟨0, 0, 0, 0, 0, 77⟩

/-! ## C20: the return times of the shipped script -/

set_option maxRecDepth 1000000 in
/-- The control part of the shipped script after `28`, `56`, `84`, `112` and `140` ticks, when
the reads past the end of the table find zeros, and the three drawing ticks of the first `28`. -/
theorem steps_cycle_states :
    ctrlRun steps (List.replicate 28 ⟨0, 0, 0, 0, 0, 0⟩) (0, 0, 0) = (0, 0, 12) ∧
      ctrlRun steps (List.replicate 56 ⟨0, 0, 0, 0, 0, 0⟩) (0, 0, 0) = (0, 0, 24) ∧
      ctrlRun steps (List.replicate 84 ⟨0, 0, 0, 0, 0, 0⟩) (0, 0, 0) = (0, 0, 36) ∧
      ctrlRun steps (List.replicate 112 ⟨0, 0, 0, 0, 0, 0⟩) (0, 0, 0) = (0, 0, 48) ∧
      ctrlRun steps (List.replicate 140 ⟨0, 0, 0, 0, 0, 0⟩) (0, 0, 0) = (0, 0, 0) ∧
      (ctrlLog steps (List.replicate 28 ⟨0, 0, 0, 0, 0, 0⟩) (0, 0, 0)).map List.length =
        [54, 0, 0, 0, 0, 0, 0, 0, 0, 55, 0, 0, 0, 0, 0, 0, 0, 0, 62, 0, 0, 0, 0, 0, 0, 0, 0, 0]
      := by
  decide

/-- The control part of the shipped script after a run of `n` ticks that ends at `step = 0`
when the reads past the end find zeros. -/
theorem steps_ctrlRun_of_const (n : Nat) (oobs : List Step) (c : Nat × Nat × Nat)
    (hlen : oobs.length = n)
    (h : ctrlRun steps (List.replicate n ⟨0, 0, 0, 0, 0, 0⟩) (0, 0, 0) = c) (hc : c.1 = 0) :
    ctrlRun steps oobs (0, 0, 0) = c := by
  rw [ctrlRun_const steps ⟨0, 0, 0, 0, 0, 0⟩ n oobs (0, 0, 0) hlen
    (by rw [h, hc, scriptCount_steps]; omega), h]

/-- C20: with the shipped script every run from startup returns; `(step, wait)` is `(0, 0)`
exactly after the numbers of ticks that are multiples of `28`, so it first returns to `(0, 0)`
after `28` ticks, of which three draw (the chains of `54`, `55` and `62` steps at ticks `1`, `10`
and `19`); and `(step, wait, offset)` is not `(0, 0, 0)` after any number of ticks from `1` to
`139` and is `(0, 0, 0)` after `140` ticks. -/
theorem c20_return_times (oobs : List Step) :
    ∃ st logs, runTicks steps oobs Interp.init = some (st, logs) ∧
      ((st.step = 0 ∧ st.wait = 0) ↔ oobs.length % 28 = 0) ∧
      (oobs.length = 28 → logs.map List.length =
        [54, 0, 0, 0, 0, 0, 0, 0, 0, 55, 0, 0, 0, 0, 0, 0, 0, 0, 62, 0, 0, 0, 0, 0, 0, 0, 0, 0]) ∧
      (0 < oobs.length → oobs.length < 140 → st.ctrl ≠ (0, 0, 0)) ∧
      (oobs.length = 140 → st.ctrl = (0, 0, 0)) := by
  obtain ⟨st, hrun, hc⟩ := runTicks_ctrl steps steps_fits oobs Interp.init
  have h0 : PhaseOk 0 Interp.init.ctrl := ⟨rfl, fun _ => rfl⟩
  have hp := phase_run oobs Interp.init.ctrl 0 (by omega) h0
  rw [← hc, Nat.zero_add] at hp
  obtain ⟨hps, hpw⟩ := hp
  have hps' : st.step = phaseStep (oobs.length % 28) := hps
  have hpw' : oobs.length % 28 ≠ 19 → st.wait = phaseWait (oobs.length % 28) := hpw
  have hr : oobs.length % 28 < 28 := Nat.mod_lt _ (by omega)
  have hiff : (st.step = 0 ∧ st.wait = 0) ↔ oobs.length % 28 = 0 := by
    constructor
    · rintro ⟨hs, hw⟩
      by_contra hne
      have hcases : (1 ≤ oobs.length % 28 ∧ oobs.length % 28 ≤ 9) ∨
          (10 ≤ oobs.length % 28 ∧ oobs.length % 28 ≤ 18) ∨ oobs.length % 28 = 19 ∨
          20 ≤ oobs.length % 28 := by omega
      rcases hcases with h | h | h | h
      · rw [phaseStep_a _ h.1 h.2] at hps'; omega
      · rw [phaseStep_b _ h.1 h.2] at hps'; omega
      · rw [h] at hps'
        have : phaseStep 19 = 171 := rfl
        omega
      · have := hpw' (by omega)
        rw [phaseWait_c _ h] at this
        omega
    · intro hz
      rw [hz] at hps'
      have hw := hpw' (by omega)
      rw [hz] at hw
      exact ⟨hps', hw⟩
  have hctrl : st.ctrl = ctrlRun steps oobs (0, 0, 0) := hc
  obtain ⟨c28, c56, c84, c112, c140, l28⟩ := steps_cycle_states
  refine ⟨st, _, hrun, hiff, ?_, ?_, ?_⟩
  · intro hlen
    rw [ctrlLog_const steps ⟨0, 0, 0, 0, 0, 0⟩ 28 oobs _ hlen]
    exact l28
  · intro hpos hlt heq
    have hs : st.step = 0 := congrArg Prod.fst heq
    have hw : st.wait = 0 := congrArg (fun c : Nat × Nat × Nat => c.2.1) heq
    have hz := hiff.mp ⟨hs, hw⟩
    have hcases : oobs.length = 28 ∨ oobs.length = 56 ∨ oobs.length = 84 ∨
        oobs.length = 112 := by omega
    rw [hctrl] at heq
    rcases hcases with h | h | h | h
    · rw [steps_ctrlRun_of_const 28 oobs _ h c28 rfl] at heq
      exact absurd heq (by decide)
    · rw [steps_ctrlRun_of_const 56 oobs _ h c56 rfl] at heq
      exact absurd heq (by decide)
    · rw [steps_ctrlRun_of_const 84 oobs _ h c84 rfl] at heq
      exact absurd heq (by decide)
    · rw [steps_ctrlRun_of_const 112 oobs _ h c112 rfl] at heq
      exact absurd heq (by decide)
  · intro hlen
    rw [hctrl]
    exact steps_ctrlRun_of_const 140 oobs _ hlen c140 rfl

/-! ## C9: the columns of the calls of a drawing tick -/

/-- C9, amended: every step of the shipped script has `16 ≤ x1 ≤ x2 ≤ 40`, so `x1 + o` and
`x2 + o` lie in `[0, 60)` for every offset `o ≤ 19`; every call the interpreter makes is the call
of a step at an offset that is a multiple of `4` and at most `56`, the largest offset at which a
step is executed; at that offset `x1 + 56` and `x2 + 56` lie in `[72, 96]`, outside `[0, 60)`,
for every step.  In every run from startup, the first call of a drawing tick is the clear step at
the offset `o` of the tick, `paintArea(16 + o, 10, 40 + o, 45, BLACK)`: when `o ≤ 19` every call
of the tick has `x1 < 60` and `x2 < 60`, and when `20 ≤ o` the tick makes a call, this first one,
with `60 ≤ x2`. -/
theorem c9_script_columns (s : Step) (hs : s ∈ steps) :
    (16 ≤ s.x1 ∧ s.x1 ≤ s.x2 ∧ s.x2 ≤ 40) ∧
      (∀ o, o ≤ 19 → s.x1 + o < 60 ∧ s.x2 + o < 60) ∧
      (72 ≤ s.x1 + 56 ∧ s.x2 + 56 ≤ 96) ∧
      (∀ oobs : List Step, ∃ st logs, runTicks steps oobs Interp.init = some (st, logs) ∧
        ∀ calls ∈ logs, ∀ c ∈ calls, ∃ s' ∈ steps, ∃ o, o ≤ 56 ∧ o % 4 = 0 ∧
          c = (⟨s'.x1 + o, s'.y1, s'.x2 + o, s'.y2, s'.color⟩ : PaintCall)) ∧
      (∀ (oobs : List Step) (oob : Step), ∃ st logs st' calls,
        runTicks steps oobs Interp.init = some (st, logs) ∧
        tick steps oob st = some (st', calls) ∧
        (calls ≠ [] →
          calls.head? = some (⟨16 + wrapOffset st.offset, 10, 40 + wrapOffset st.offset, 45,
            BLACK⟩ : PaintCall) ∧
          (wrapOffset st.offset ≤ 19 → ∀ c ∈ calls, c.x1 < 60 ∧ c.x2 < 60) ∧
          (20 ≤ wrapOffset st.offset → ∃ c ∈ calls, 60 ≤ c.x2))) := by
  obtain ⟨h1, h2, h3⟩ := steps_columns s hs
  refine ⟨⟨h1, h2, h3⟩, fun o ho => ⟨by omega, by omega⟩, ⟨by omega, by omega⟩, ?_, ?_⟩
  · intro oobs
    obtain ⟨st, hrun, -⟩ := runTicks_ctrl steps steps_fits oobs Interp.init
    obtain ⟨hk, -⟩ := offset_run steps oobs Interp.init.ctrl 0 rfl
    refine ⟨st, _, hrun, ?_⟩
    intro calls hcalls c hc
    have hmem : calls ∈ drawingTicks (ctrlLog steps oobs Interp.init.ctrl) := by
      simp only [drawingTicks, List.mem_filter]
      refine ⟨hcalls, ?_⟩
      cases calls with
      | nil => exact absurd hc (List.not_mem_nil c)
      | cons a l => rfl
    obtain ⟨k, hget⟩ := List.mem_iff_getElem?.mp hmem
    obtain ⟨s', hs', rfl⟩ := hk k calls hget c hc
    exact ⟨s', hs', 4 * ((0 + k) % 15), by omega, by omega, rfl⟩
  · intro oobs oob
    obtain ⟨st, logs, hrun, hinv⟩ := frame_run oobs Interp.init interp_init_frameInv
    obtain ⟨st', htick, -, hdraw, hidle, -, -⟩ := frame_tick oob st hinv
    refine ⟨st, logs, st', _, hrun, htick, ?_⟩
    intro hne
    have hd : st.step < 171 ∧ st.wait = 0 := by
      by_contra hnd
      exact hne (hidle hnd).1
    obtain ⟨rest, m1, hcalls, hrest, -⟩ := hdraw hd
    rw [hcalls]
    refine ⟨rfl, ?_, ?_⟩
    · intro ho c hc
      rcases List.mem_cons.mp hc with rfl | hc
      · constructor
        · show 16 + wrapOffset st.offset < 60
          omega
        · show 40 + wrapOffset st.offset < 60
          omega
      · obtain ⟨s', ⟨a1, a2, a3, -⟩, rfl⟩ := hrest c hc
        constructor
        · show s'.x1 + wrapOffset st.offset < 60
          omega
        · show s'.x2 + wrapOffset st.offset < 60
          omega
    · intro ho
      refine ⟨_, List.mem_cons_self _ _, ?_⟩
      show 60 ≤ 40 + wrapOffset st.offset
      omega

/-- C9, witness: the clear step that opens the script. -/
theorem c9_script_columns_witness :
    (16 ≤ (⟨16, 10, 40, 45, BLACK, 8⟩ : Step).x1 ∧
        (⟨16, 10, 40, 45, BLACK, 8⟩ : Step).x1 ≤ (⟨16, 10, 40, 45, BLACK, 8⟩ : Step).x2 ∧
        (⟨16, 10, 40, 45, BLACK, 8⟩ : Step).x2 ≤ 40) ∧
      (∀ o, o ≤ 19 → (⟨16, 10, 40, 45, BLACK, 8⟩ : Step).x1 + o < 60 ∧
        (⟨16, 10, 40, 45, BLACK, 8⟩ : Step).x2 + o < 60) ∧
      (72 ≤ (⟨16, 10, 40, 45, BLACK, 8⟩ : Step).x1 + 56 ∧
        (⟨16, 10, 40, 45, BLACK, 8⟩ : Step).x2 + 56 ≤ 96) ∧
      (∀ oobs : List Step, ∃ st logs, runTicks steps oobs Interp.init = some (st, logs) ∧
        ∀ calls ∈ logs, ∀ c ∈ calls, ∃ s' ∈ steps, ∃ o, o ≤ 56 ∧ o % 4 = 0 ∧
          c = (⟨s'.x1 + o, s'.y1, s'.x2 + o, s'.y2, s'.color⟩ : PaintCall)) ∧
      (∀ (oobs : List Step) (oob : Step), ∃ st logs st' calls,
        runTicks steps oobs Interp.init = some (st, logs) ∧
        tick steps oob st = some (st', calls) ∧
        (calls ≠ [] →
          calls.head? = some (⟨16 + wrapOffset st.offset, 10, 40 + wrapOffset st.offset, 45,
            BLACK⟩ : PaintCall) ∧
          (wrapOffset st.offset ≤ 19 → ∀ c ∈ calls, c.x1 < 60 ∧ c.x2 < 60) ∧
          (20 ≤ wrapOffset st.offset → ∃ c ∈ calls, 60 ≤ c.x2))) :=
  c9_script_columns ⟨16, 10, 40, 45, BLACK, 8⟩ (List.mem_cons_self _ _)

end VGA
